import Mathlib

/-!
TdZdd binary operations on decision-diagram specs.

A shallow embedding of `include/tdzdd/op/BinaryOperation.hpp`: the
`BinaryOperation` base (header level fields, copy, hash, equality) and the
combinators `BddAnd`, `BddOr`, `ZddIntersection`, `ZddUnion`, together with
theorems about their root and child computations.

Level codes are C++ `int` values; they are only compared, copied and passed
to `std::max`, so they are embedded as `Int`.  A state buffer is embedded as
a record of its fields; a function that writes into a buffer returns the new
buffer next to its result code.
-/

namespace TdZdd

/-! ## Data model -/

/-- The operand contract used by the combinators: `get_root` initialises the
buffer and reports a code, `get_child` advances the buffer at a level along
a branch and reports a code, `get_copy to from` yields the new contents of
`to`, and `hash_code` / `equal_to` are the deduplication hooks. -/
structure DdSpec (σ : Type) where
  get_root : σ → Int × σ
  get_child : σ → Int → Int → Int × σ
  get_copy : σ → σ → σ
  hash_code : σ → Int → Nat
  equal_to : σ → σ → Int → Bool

/-- The packed buffer of `BinaryOperation`: the two header ints read by
`level1` / `level2` and the two operand regions read by `state1` / `state2`. -/
structure BinState (σ₁ σ₂ : Type) where
  level1 : Int
  level2 : Int
  state1 : σ₁
  state2 : σ₂

variable {σ₁ σ₂ σ : Type}

/-- The C++ `setLevel1(p, level)`. -/
def setLevel1 (p : BinState σ₁ σ₂) (level : Int) : BinState σ₁ σ₂ :=
  { p with level1 := level }

/-- The C++ `setLevel2(p, level)`. -/
def setLevel2 (p : BinState σ₁ σ₂) (level : Int) : BinState σ₁ σ₂ :=
  { p with level2 := level }

/-- The buffer after an operand-1 call wrote its region. -/
def setState1 (p : BinState σ₁ σ₂) (s : σ₁) : BinState σ₁ σ₂ :=
  { p with state1 := s }

/-- The buffer after an operand-2 call wrote its region. -/
def setState2 (p : BinState σ₁ σ₂) (s : σ₂) : BinState σ₁ σ₂ :=
  { p with state2 := s }

/-- The entry assertion of `getChild` in `BddAnd`, `BddOr` and `ZddUnion`:
`assert(level1(p) <= level && level2(p) <= level)`. -/
def entryAssert (p : BinState σ₁ σ₂) (level : Int) : Prop :=
  p.level1 ≤ level ∧ p.level2 ≤ level

instance (p : BinState σ₁ σ₂) (level : Int) : Decidable (entryAssert p level) := by
  unfold entryAssert; infer_instance

/-! ## BddAnd -/

/-- The source function `BddAnd::getRoot`. -/
def BddAnd.getRoot (s1 : DdSpec σ₁) (s2 : DdSpec σ₂) (p : BinState σ₁ σ₂) :
    Int × BinState σ₁ σ₂ :=
  let r1 := s1.get_root p.state1
  let p := setState1 p r1.2
  if r1.1 = 0 then (0, p) else
  let r2 := s2.get_root p.state2
  let p := setState2 p r2.2
  if r2.1 = 0 then (0, p) else
  let p := setLevel1 p r1.1
  let p := setLevel2 p r2.1
  (max p.level1 p.level2, p)

/-- The second half of `BddAnd::getChild`: the operand-2 block and the
final `std::max`. -/
def BddAnd.getChildSnd (s2 : DdSpec σ₂) (p : BinState σ₁ σ₂) (level take : Int) :
    Int × BinState σ₁ σ₂ :=
  if p.level2 = level then
    let r2 := s2.get_child p.state2 level take
    let p := setState2 p r2.2
    if r2.1 = 0 then (0, p) else
    let p := setLevel2 p r2.1
    (max p.level1 p.level2, p)
  else (max p.level1 p.level2, p)

/-- The body of `BddAnd::getChild` after its assertion. -/
def BddAnd.getChildBody (s1 : DdSpec σ₁) (s2 : DdSpec σ₂) (p : BinState σ₁ σ₂)
    (level take : Int) : Int × BinState σ₁ σ₂ :=
  if p.level1 = level then
    let r1 := s1.get_child p.state1 level take
    let p := setState1 p r1.2
    if r1.1 = 0 then (0, p) else
    let p := setLevel1 p r1.1
    BddAnd.getChildSnd s2 p level take
  else BddAnd.getChildSnd s2 p level take

/-- The source function `BddAnd::getChild`; `none` is a failed entry assertion. -/
def BddAnd.getChild (s1 : DdSpec σ₁) (s2 : DdSpec σ₂) (p : BinState σ₁ σ₂)
    (level take : Int) : Option (Int × BinState σ₁ σ₂) :=
  if entryAssert p level then some (BddAnd.getChildBody s1 s2 p level take) else none

/-! ## Walks -/

/-- The driver loop of a walk: while the current code is positive, call the
child function at that code with the branch the assignment gives to that
level.  `none` is a failed assertion in the child function or exhausted
fuel. -/
def walk (child : σ → Int → Int → Option (Int × σ)) (a : Int → Int) :
    Nat → Int → σ → Option Int
  | 0, c, _ => if 0 < c then none else some c
  | n + 1, c, s =>
    if 0 < c then
      match child s c (a c) with
      | none => none
      | some r => walk child a n r.1 r.2
    else some c

/-- The child function of an operand, which has no assertion. -/
def DdSpec.child (sp : DdSpec σ) (s : σ) (level take : Int) : Option (Int × σ) :=
  some (sp.get_child s level take)

/-- The final code of the walk of an operand spec from `get_root`. -/
def DdSpec.run (sp : DdSpec σ) (a : Int → Int) (fuel : Nat) (buf : σ) : Option Int :=
  walk sp.child a fuel (sp.get_root buf).1 (sp.get_root buf).2

/-- The final code of the walk of `BddAnd(s1, s2)` from `getRoot`. -/
def BddAnd.run (s1 : DdSpec σ₁) (s2 : DdSpec σ₂) (a : Int → Int) (fuel : Nat)
    (p : BinState σ₁ σ₂) : Option Int :=
  walk (BddAnd.getChild s1 s2) a fuel (BddAnd.getRoot s1 s2 p).1 (BddAnd.getRoot s1 s2 p).2

/-- Operand contract: at a decision level, `get_child` reports a code
strictly below the level it was called at. -/
def Descends (sp : DdSpec σ) : Prop :=
  ∀ s l b, 0 < l → (sp.get_child s l b).1 < l

/-! ## BddOr -/

/-- The source function `BddOr::getRoot`. -/
def BddOr.getRoot (s1 : DdSpec σ₁) (s2 : DdSpec σ₂) (p : BinState σ₁ σ₂) :
    Int × BinState σ₁ σ₂ :=
  let r1 := s1.get_root p.state1
  let p := setState1 p r1.2
  if r1.1 < 0 then (-1, p) else
  let r2 := s2.get_root p.state2
  let p := setState2 p r2.2
  if r2.1 < 0 then (-1, p) else
  let p := setLevel1 p r1.1
  let p := setLevel2 p r2.1
  (max p.level1 p.level2, p)

/-- The second half of `BddOr::getChild`: the operand-2 block and the final
`std::max`. -/
def BddOr.getChildSnd (s2 : DdSpec σ₂) (p : BinState σ₁ σ₂) (level take : Int) :
    Int × BinState σ₁ σ₂ :=
  if p.level2 = level then
    let r2 := s2.get_child p.state2 level take
    let p := setState2 p r2.2
    if r2.1 < 0 then (-1, p) else
    let p := setLevel2 p r2.1
    (max p.level1 p.level2, p)
  else (max p.level1 p.level2, p)

/-- The body of `BddOr::getChild` after its assertion. -/
def BddOr.getChildBody (s1 : DdSpec σ₁) (s2 : DdSpec σ₂) (p : BinState σ₁ σ₂)
    (level take : Int) : Int × BinState σ₁ σ₂ :=
  if p.level1 = level then
    let r1 := s1.get_child p.state1 level take
    let p := setState1 p r1.2
    if r1.1 < 0 then (-1, p) else
    let p := setLevel1 p r1.1
    BddOr.getChildSnd s2 p level take
  else BddOr.getChildSnd s2 p level take

/-- The source function `BddOr::getChild`; `none` is a failed entry assertion. -/
def BddOr.getChild (s1 : DdSpec σ₁) (s2 : DdSpec σ₂) (p : BinState σ₁ σ₂)
    (level take : Int) : Option (Int × BinState σ₁ σ₂) :=
  if entryAssert p level then some (BddOr.getChildBody s1 s2 p level take) else none

/-- The final code of the walk of `BddOr(s1, s2)` from `getRoot`. -/
def BddOr.run (s1 : DdSpec σ₁) (s2 : DdSpec σ₂) (a : Int → Int) (fuel : Nat)
    (p : BinState σ₁ σ₂) : Option Int :=
  walk (BddOr.getChild s1 s2) a fuel (BddOr.getRoot s1 s2 p).1 (BddOr.getRoot s1 s2 p).2

/-- The relation between the composite walk and the operand walks that is
preserved by every `BddAnd` step. -/
def AndAgree (s1 : DdSpec σ₁) (s2 : DdSpec σ₂) (a : Int → Int) (m n1 n2 : Nat)
    (r : Int × BinState σ₁ σ₂) (l1 l2 : Int) (t1 : σ₁) (t2 : σ₂) : Prop :=
  ∃ c c1 c2, walk (BddAnd.getChild s1 s2) a m r.1 r.2 = some c ∧
    walk s1.child a n1 l1 t1 = some c1 ∧ walk s2.child a n2 l2 t2 = some c2 ∧
    c ≤ 0 ∧ c1 ≤ 0 ∧ c2 ≤ 0 ∧ (c < 0 ↔ c1 < 0 ∧ c2 < 0)

/-- The relation between the composite walk and the operand walks that is
preserved by every `BddOr` step. -/
def OrAgree (s1 : DdSpec σ₁) (s2 : DdSpec σ₂) (a : Int → Int) (m n1 n2 : Nat)
    (r : Int × BinState σ₁ σ₂) (l1 l2 : Int) (t1 : σ₁) (t2 : σ₂) : Prop :=
  ∃ c c1 c2, walk (BddOr.getChild s1 s2) a m r.1 r.2 = some c ∧
    walk s1.child a n1 l1 t1 = some c1 ∧ walk s2.child a n2 l2 t2 = some c2 ∧
    c ≤ 0 ∧ c1 ≤ 0 ∧ c2 ≤ 0 ∧ (c < 0 ↔ c1 < 0 ∨ c2 < 0)

/-! ## ZddUnion -/

/-- The source function `ZddUnion::getRoot`. -/
def ZddUnion.getRoot (s1 : DdSpec σ₁) (s2 : DdSpec σ₂) (p : BinState σ₁ σ₂) :
    Int × BinState σ₁ σ₂ :=
  let r1 := s1.get_root p.state1
  let p := setState1 p r1.2
  let r2 := s2.get_root p.state2
  let p := setState2 p r2.2
  if r1.1 = 0 ∧ r2.1 = 0 then (0, p) else
  if r1.1 ≤ 0 ∧ r2.1 ≤ 0 then (-1, p) else
  let p := setLevel1 p r1.1
  let p := setLevel2 p r2.1
  (max p.level1 p.level2, p)

/-- The operand-1 block of `ZddUnion::getChild`: advance operand 1 when its
header equals `level`, otherwise store 0 when `take` is nonzero. -/
def ZddUnion.advance1 (s1 : DdSpec σ₁) (p : BinState σ₁ σ₂) (level take : Int) :
    BinState σ₁ σ₂ :=
  if p.level1 = level then
    let r1 := s1.get_child p.state1 level take
    let p := setState1 p r1.2
    setLevel1 p r1.1
  else if take ≠ 0 then setLevel1 p 0
  else p

/-- The operand-2 block of `ZddUnion::getChild`. -/
def ZddUnion.advance2 (s2 : DdSpec σ₂) (p : BinState σ₁ σ₂) (level take : Int) :
    BinState σ₁ σ₂ :=
  if p.level2 = level then
    let r2 := s2.get_child p.state2 level take
    let p := setState2 p r2.2
    setLevel2 p r2.1
  else if take ≠ 0 then setLevel2 p 0
  else p

/-- The body of `ZddUnion::getChild` after its assertion. -/
def ZddUnion.getChildBody (s1 : DdSpec σ₁) (s2 : DdSpec σ₂) (p : BinState σ₁ σ₂)
    (level take : Int) : Int × BinState σ₁ σ₂ :=
  let p := ZddUnion.advance1 s1 p level take
  let p := ZddUnion.advance2 s2 p level take
  if p.level1 = 0 ∧ p.level2 = 0 then (0, p) else
  if p.level1 ≤ 0 ∧ p.level2 ≤ 0 then (-1, p) else
  (max p.level1 p.level2, p)

/-- The source function `ZddUnion::getChild`; `none` is a failed entry assertion. -/
def ZddUnion.getChild (s1 : DdSpec σ₁) (s2 : DdSpec σ₂) (p : BinState σ₁ σ₂)
    (level take : Int) : Option (Int × BinState σ₁ σ₂) :=
  if entryAssert p level then some (ZddUnion.getChildBody s1 s2 p level take) else none

/-! ## ZDD walks and membership -/

/-- The walk that decides membership of a set `A` of levels: while the
current code is positive, take branch 1 if the level is in `A` and branch 0
otherwise.  The result is the final code and the list of visited levels. -/
def zddWalk (child : σ → Int → Int → Option (Int × σ)) (A : Finset Int) :
    Nat → Int → σ → List Int → Option (Int × List Int)
  | 0, c, _, vis => if 0 < c then none else some (c, vis)
  | n + 1, c, s, vis =>
    if 0 < c then
      match child s c (if c ∈ A then 1 else 0) with
      | none => none
      | some r => zddWalk child A n r.1 r.2 (c :: vis)
    else some (c, vis)

/-- The verdict of a finished walk: the final code is negative and every
element of `A` is one of the visited levels. -/
def isMember (A : Finset Int) (res : Int × List Int) : Bool :=
  decide (res.1 < 0) && decide (∀ x ∈ A, x ∈ res.2)

/-- Membership of `A` in the family of an operand spec. -/
def DdSpec.member (sp : DdSpec σ) (A : Finset Int) (fuel : Nat) (buf : σ) : Option Bool :=
  (zddWalk sp.child A fuel (sp.get_root buf).1 (sp.get_root buf).2 []).map (isMember A)

/-- Membership of `A` in the family of `ZddUnion(s1, s2)`. -/
def ZddUnion.member (s1 : DdSpec σ₁) (s2 : DdSpec σ₂) (A : Finset Int) (fuel : Nat)
    (p : BinState σ₁ σ₂) : Option Bool :=
  (zddWalk (ZddUnion.getChild s1 s2) A fuel (ZddUnion.getRoot s1 s2 p).1
    (ZddUnion.getRoot s1 s2 p).2 []).map (isMember A)

/-- The three-way result rule shared by `ZddUnion::getRoot` and
`ZddUnion::getChild`, as a function of the two operand codes. -/
def unionCode (c1 c2 : Int) : Int :=
  if c1 = 0 ∧ c2 = 0 then 0 else if c1 ≤ 0 ∧ c2 ≤ 0 then -1 else max c1 c2

/-- The verdict of an operand walk resumed at code `l` in state `t` after
the levels `v` were visited. -/
def memFrom (sp : DdSpec σ) (A : Finset Int) (fuel : Nat) (l : Int) (t : σ)
    (v : List Int) : Option Bool :=
  (zddWalk sp.child A fuel l t v).map (isMember A)

/-- The relation between the composite walk and the operand walks that is
preserved by every `ZddUnion` step. -/
def UnionAgree (s1 : DdSpec σ₁) (s2 : DdSpec σ₂) (A : Finset Int) (m n1 n2 : Nat)
    (r : Int × BinState σ₁ σ₂) (l1 l2 : Int) (t1 : σ₁) (t2 : σ₂) (v : List Int) : Prop :=
  ∃ b b1 b2, (zddWalk (ZddUnion.getChild s1 s2) A m r.1 r.2 v).map (isMember A) = some b ∧
    memFrom s1 A n1 l1 t1 v = some b1 ∧ memFrom s2 A n2 l2 t2 v = some b2 ∧
    b = (b1 || b2)

/-! ## ZddIntersection -/

/-- The buffer of `ZddIntersection`: the two operand regions, with no header
level fields. -/
structure IsectState (σ₁ σ₂ : Type) where
  state1 : σ₁
  state2 : σ₂

/-- The synchronisation loop `while (i1 != i2)` of `ZddIntersection`: the
operand with the strictly higher code is advanced on branch 0, and the call
returns 0 as soon as an operand reports 0.  `none` is exhausted fuel. -/
def ZddIntersection.sync (s1 : DdSpec σ₁) (s2 : DdSpec σ₂) :
    Nat → Int → Int → IsectState σ₁ σ₂ → Option (Int × IsectState σ₁ σ₂)
  | 0, i1, i2, p => if i1 = i2 then some (i1, p) else none
  | n + 1, i1, i2, p =>
    if i1 = i2 then some (i1, p)
    else if i1 > i2 then
      let r1 := s1.get_child p.state1 i1 0
      let p := { p with state1 := r1.2 }
      if r1.1 = 0 then some (0, p) else ZddIntersection.sync s1 s2 n r1.1 i2 p
    else
      let r2 := s2.get_child p.state2 i2 0
      let p := { p with state2 := r2.2 }
      if r2.1 = 0 then some (0, p) else ZddIntersection.sync s1 s2 n i1 r2.1 p

/-- The source function `ZddIntersection::getRoot`, with the fuel of its loop. -/
def ZddIntersection.getRoot (s1 : DdSpec σ₁) (s2 : DdSpec σ₂) (fuel : Nat)
    (p : IsectState σ₁ σ₂) : Option (Int × IsectState σ₁ σ₂) :=
  let r1 := s1.get_root p.state1
  let p := { p with state1 := r1.2 }
  if r1.1 = 0 then some (0, p) else
  let r2 := s2.get_root p.state2
  let p := { p with state2 := r2.2 }
  if r2.1 = 0 then some (0, p) else
  ZddIntersection.sync s1 s2 fuel r1.1 r2.1 p

/-- The source function `ZddIntersection::getChild`, with the fuel of its loop. -/
def ZddIntersection.getChild (s1 : DdSpec σ₁) (s2 : DdSpec σ₂) (fuel : Nat)
    (p : IsectState σ₁ σ₂) (level take : Int) : Option (Int × IsectState σ₁ σ₂) :=
  let r1 := s1.get_child p.state1 level take
  let p := { p with state1 := r1.2 }
  if r1.1 = 0 then some (0, p) else
  let r2 := s2.get_child p.state2 level take
  let p := { p with state2 := r2.2 }
  if r2.1 = 0 then some (0, p) else
  ZddIntersection.sync s1 s2 fuel r1.1 r2.1 p

/-- Membership of `A` in the family of `ZddIntersection(s1, s2)`; `loopFuel`
bounds each synchronisation loop and `fuel` the walk. -/
def ZddIntersection.member (s1 : DdSpec σ₁) (s2 : DdSpec σ₂) (A : Finset Int)
    (loopFuel fuel : Nat) (p : IsectState σ₁ σ₂) : Option Bool :=
  match ZddIntersection.getRoot s1 s2 loopFuel p with
  | none => none
  | some r =>
    (zddWalk (ZddIntersection.getChild s1 s2 loopFuel) A fuel r.1 r.2 []).map (isMember A)

/-- Operand convention of the framework: the true terminal is reported as
-1, so no code is below -1. -/
def TrueIsMinusOne (sp : DdSpec σ) : Prop :=
  (∀ buf, -1 ≤ (sp.get_root buf).1) ∧ ∀ s l b, 0 < l → -1 ≤ (sp.get_child s l b).1

/-- The operand's `get_child` returns a code strictly below its level
argument.  `B` is the least value of the type of the codes (`INT_MIN` for
the `int` of the source): it is the one level that has no lower code, so
the requirement is made at every level above `B`, terminals included. -/
def DescendsAbove (B : Int) (sp : DdSpec σ) : Prop :=
  ∀ s l b, B < l → (sp.get_child s l b).1 < l

/-- Every code the operand reports is a value of the type of the codes, whose
least value is `B`. -/
def BoundedBelow (B : Int) (sp : DdSpec σ) : Prop :=
  (∀ buf, B ≤ (sp.get_root buf).1) ∧ ∀ s l b, B ≤ (sp.get_child s l b).1

/-- The ZDD-Union terminal rule as the specification states it, for a
result `r` and the two operand codes `c1`, `c2` after the advance step: `r`
is 0 iff both codes are 0, negative iff both are terminals and not both 0,
and otherwise the positive value `max c1 c2`. -/
def UnionTerminalRule (r c1 c2 : Int) : Prop :=
  (r = 0 ↔ c1 = 0 ∧ c2 = 0) ∧
  (r < 0 ↔ c1 ≤ 0 ∧ c2 ≤ 0 ∧ ¬ (c1 = 0 ∧ c2 = 0)) ∧
  (¬ (c1 ≤ 0 ∧ c2 ≤ 0) → 0 < r ∧ r = max c1 c2)

/-! ## BinaryOperation base: copy, hash, equality -/

/-- The conversion `size_t(i)` of an `int`, for a `size_t` of `W` bytes. -/
def toSize (W : Nat) (i : Int) : Nat := (i % (2 ^ (8 * W) : Nat)).toNat

/-- The source function `BinaryOperation::get_copy(to, from)`: the new contents of `to`. -/
def BinaryOperation.get_copy (s1 : DdSpec σ₁) (s2 : DdSpec σ₂)
    (to_ from_ : BinState σ₁ σ₂) : BinState σ₁ σ₂ :=
  let to_ := setLevel1 to_ from_.level1
  let to_ := setLevel2 to_ from_.level2
  let to_ := setState1 to_ (s1.get_copy to_.state1 from_.state1)
  setState2 to_ (s2.get_copy to_.state2 from_.state2)

/-- The source function `BinaryOperation::hash_code`, in `size_t` arithmetic of `W` bytes. -/
def BinaryOperation.hash_code (W : Nat) (s1 : DdSpec σ₁) (s2 : DdSpec σ₂)
    (p : BinState σ₁ σ₂) (_level : Int) : Nat :=
  let h := (toSize W p.level1 * 314159257 + toSize W p.level2 * 271828171) % 2 ^ (8 * W)
  let h := if p.level1 > 0 then
      (h + s1.hash_code p.state1 p.level1 * 171828143) % 2 ^ (8 * W) else h
  let h := if p.level2 > 0 then
      (h + s2.hash_code p.state2 p.level2 * 141421333) % 2 ^ (8 * W) else h
  h

/-- The source function `BinaryOperation::equal_to`. -/
def BinaryOperation.equal_to (s1 : DdSpec σ₁) (s2 : DdSpec σ₂)
    (p q : BinState σ₁ σ₂) (_level : Int) : Bool :=
  if p.level1 ≠ q.level1 then false else
  if p.level2 ≠ q.level2 then false else
  if p.level1 > 0 ∧ ¬ s1.equal_to p.state1 q.state1 p.level1 = true then false else
  if p.level2 > 0 ∧ ¬ s2.equal_to p.state2 q.state2 p.level2 = true then false else
  true

/-- The source function `ZddIntersection::get_copy(to, from)`: the new contents of `to`. -/
def ZddIntersection.get_copy (s1 : DdSpec σ₁) (s2 : DdSpec σ₂)
    (to_ from_ : IsectState σ₁ σ₂) : IsectState σ₁ σ₂ :=
  { state1 := s1.get_copy to_.state1 from_.state1,
    state2 := s2.get_copy to_.state2 from_.state2 }

/-- The source function `ZddIntersection::hash_code`, in `size_t` arithmetic of `W` bytes. -/
def ZddIntersection.hash_code (W : Nat) (s1 : DdSpec σ₁) (s2 : DdSpec σ₂)
    (p : IsectState σ₁ σ₂) (level : Int) : Nat :=
  (s1.hash_code p.state1 level * 314159257 + s2.hash_code p.state2 level * 271828171)
    % 2 ^ (8 * W)

/-- The source function `ZddIntersection::equal_to`. -/
def ZddIntersection.equal_to (s1 : DdSpec σ₁) (s2 : DdSpec σ₂)
    (p q : IsectState σ₁ σ₂) (level : Int) : Bool :=
  s1.equal_to p.state1 q.state1 level && s2.equal_to p.state2 q.state2 level

/-! ## Concrete operands

The two operands of the AND scenario.  Their state is the list of
`get_child` calls they have received, so that a call that was not made is
visible in the buffer. -/

/-- Operand 1 of the scenario: root 3, then 1 on branch 1, then 0. -/
def scenario1 : DdSpec (List (Int × Int)) where
  get_root := fun _ => (3, [])
  get_child := fun s l b => (if l = 3 ∧ b = 1 then 1 else 0, s ++ [(l, b)])
  get_copy := fun _ from_ => from_
  hash_code := fun s _ => s.length
  equal_to := fun s t _ => decide (s = t)

/-- Operand 2 of the scenario: root 3, then 2 on branch 1, then 1 on branch
1, then the true terminal -1 on branch 0. -/
def scenario2 : DdSpec (List (Int × Int)) where
  get_root := fun _ => (3, [])
  get_child := fun s l b =>
    (if l = 3 ∧ b = 1 then 2 else if l = 2 ∧ b = 1 then 1
      else if l = 1 ∧ b = 0 then -1 else 0, s ++ [(l, b)])
  get_copy := fun _ from_ => from_
  hash_code := fun s _ => s.length
  equal_to := fun s t _ => decide (s = t)

/-- The operand whose family is every subset of the levels 1, 2, 3: root 3,
each level leads to the next lower one on both branches, level 1 to -1. -/
def allSets : DdSpec Unit where
  get_root := fun s => (3, s)
  get_child := fun s l _ => (if 1 < l then l - 1 else -1, s)
  get_copy := fun _ from_ => from_
  hash_code := fun _ _ => 0
  equal_to := fun _ _ _ => true

/-- A stateless operand given by its root code and by the code its
`get_child` reports as a function of the level it is called at. -/
def codeSpec (root : Int) (step : Int → Int) : DdSpec Unit where
  get_root := fun s => (root, s)
  get_child := fun s l _ => (step l, s)
  get_copy := fun _ from_ => from_
  hash_code := fun _ _ => 0
  equal_to := fun _ _ _ => true

/-- The family of all subsets of the levels 1, 2, 3 whose true terminal is
reported as the negative code `t`; `get_child` called at a terminal reports
`t` if that is lower, and -2 otherwise. -/
def allSetsAs (t : Int) : DdSpec Unit :=
  codeSpec 3 (fun l => if 1 < l then l - 1 else if t < l then t else -2)

/-- The operand that is the true terminal reported as -1, and whose
`get_child` reports 0. -/
def minusOneFlat : DdSpec Unit := codeSpec (-1) (fun _ => 0)

/-- The operand that is the true terminal reported as -2, and whose
`get_child` reports 0. -/
def minusTwoFlat : DdSpec Unit := codeSpec (-2) (fun _ => 0)

/-- An uninitialised composite buffer over the scenario operands. -/
def blank : BinState (List (Int × Int)) (List (Int × Int)) := ⟨0, 0, [], []⟩

/-! ## Packed layout geometry

`W` is `sizeof(size_t)` (the size of a `Word`) and `I` is `sizeof(int)`, in
bytes; `size_t` arithmetic is modulo `2 ^ (8 * W)`. -/

/-- The constant `BinaryOperation::levelWords`: the number of words that
hold the header `int[2]`, `(sizeof(int[2]) + sizeof(Word) - 1) /
sizeof(Word)`. -/
def levelWords (W I : Nat) : Nat := (2 * I + W - 1) % 2 ^ (8 * W) / W

/-- The source function `BinaryOperation::wordSize`: `(size + sizeof(Word) -
1) / sizeof(Word)`, computed in `size_t`; the quotient is the value of the
returned `int` whenever it fits. -/
def wordSize (W : Nat) (size : Int) : Nat := (toSize W size + W - 1) % 2 ^ (8 * W) / W

/-- The word offset that `BinaryOperation::state1` adds to the buffer
pointer. -/
def state1Offset (W I : Nat) : Nat := levelWords W I

/-- The word offset that `BinaryOperation::state2` adds to the buffer
pointer, `levelWords + stateWords1`, for an operand 1 of `d1` bytes. -/
def state2Offset (W I : Nat) (d1 : Int) : Nat := levelWords W I + wordSize W d1

/-- The array size that the constructor of `BinaryOperation` declares, in
words: `levelWords + stateWords1 + stateWords2`, computed in `size_t`. -/
def arraySize (W I : Nat) (d1 d2 : Int) : Nat :=
  (levelWords W I + wordSize W d1 + wordSize W d2) % 2 ^ (8 * W)

/-- The operand with root 3 whose `get_child` reports the true terminal
-1. -/
def trueBelow : DdSpec Unit := codeSpec 3 (fun _ => -1)

/-- The returned decision level `r` is the maximum of the two header level
fields of the state `q`, and `q` and every `get_copy` of it satisfy the
entry assertion of `getChild` at `r`. -/
def ReturnedMax (s1 : DdSpec σ₁) (s2 : DdSpec σ₂) (r : Int) (q : BinState σ₁ σ₂) : Prop :=
  r = max q.level1 q.level2 ∧ entryAssert q r ∧
    ∀ b, entryAssert (BinaryOperation.get_copy s1 s2 b q) r

/-! ## ZddIntersection with a log of its operand calls -/

/-- An operand call made by `ZddIntersection`: a `get_root` call, one of the
two `get_child` calls at the requested level, or a `get_child` call inside
the synchronisation loop.  `operand` is 1 or 2, `code` is what the call
reported; a loop call records the `level` it passes (the code of the
operand it advances) and the code `other` of the other operand at that
moment. -/
inductive OpCall where
  | root (operand : Nat) (code : Int)
  | child (operand : Nat) (level take code : Int)
  | loop (operand : Nat) (level other take code : Int)
  deriving DecidableEq

/-- The operand a call was made on. -/
def OpCall.operand : OpCall → Nat
  | .root k _ => k
  | .child k _ _ _ => k
  | .loop k _ _ _ _ => k

/-- The code a call reported. -/
def OpCall.code : OpCall → Int
  | .root _ c => c
  | .child _ _ _ c => c
  | .loop _ _ _ _ c => c

/-- The code reported by the last call on operand `k` in a log in call
order, if there is one. -/
def lastCode (k : Nat) : List OpCall → Option Int
  | [] => none
  | e :: rest =>
    match lastCode k rest with
    | some c => some c
    | none => if e.operand = k then some e.code else none

/-- The loop `while (i1 != i2)` of `ZddIntersection` as in
`ZddIntersection.sync`, which also returns the log of the operand calls it
made, in call order. -/
def ZddIntersection.syncLog (s1 : DdSpec σ₁) (s2 : DdSpec σ₂) :
    Nat → Int → Int → IsectState σ₁ σ₂ → Option (Int × IsectState σ₁ σ₂ × List OpCall)
  | 0, i1, i2, p => if i1 = i2 then some (i1, p, []) else none
  | n + 1, i1, i2, p =>
    if i1 = i2 then some (i1, p, [])
    else if i1 > i2 then
      let r1 := s1.get_child p.state1 i1 0
      let p := { p with state1 := r1.2 }
      if r1.1 = 0 then some (0, p, [OpCall.loop 1 i1 i2 0 r1.1]) else
      match ZddIntersection.syncLog s1 s2 n r1.1 i2 p with
      | none => none
      | some x => some (x.1, x.2.1, OpCall.loop 1 i1 i2 0 r1.1 :: x.2.2)
    else
      let r2 := s2.get_child p.state2 i2 0
      let p := { p with state2 := r2.2 }
      if r2.1 = 0 then some (0, p, [OpCall.loop 2 i2 i1 0 r2.1]) else
      match ZddIntersection.syncLog s1 s2 n i1 r2.1 p with
      | none => none
      | some x => some (x.1, x.2.1, OpCall.loop 2 i2 i1 0 r2.1 :: x.2.2)

/-- The function `ZddIntersection::getRoot` as in `ZddIntersection.getRoot`,
which also returns the log of the operand calls it made. -/
def ZddIntersection.getRootLog (s1 : DdSpec σ₁) (s2 : DdSpec σ₂) (fuel : Nat)
    (p : IsectState σ₁ σ₂) : Option (Int × IsectState σ₁ σ₂ × List OpCall) :=
  let r1 := s1.get_root p.state1
  let p := { p with state1 := r1.2 }
  if r1.1 = 0 then some (0, p, [OpCall.root 1 r1.1]) else
  let r2 := s2.get_root p.state2
  let p := { p with state2 := r2.2 }
  if r2.1 = 0 then some (0, p, [OpCall.root 1 r1.1, OpCall.root 2 r2.1]) else
  match ZddIntersection.syncLog s1 s2 fuel r1.1 r2.1 p with
  | none => none
  | some x => some (x.1, x.2.1, OpCall.root 1 r1.1 :: OpCall.root 2 r2.1 :: x.2.2)

/-- The function `ZddIntersection::getChild` as in
`ZddIntersection.getChild`, which also returns the log of the operand calls
it made. -/
def ZddIntersection.getChildLog (s1 : DdSpec σ₁) (s2 : DdSpec σ₂) (fuel : Nat)
    (p : IsectState σ₁ σ₂) (level take : Int) :
    Option (Int × IsectState σ₁ σ₂ × List OpCall) :=
  let r1 := s1.get_child p.state1 level take
  let p := { p with state1 := r1.2 }
  if r1.1 = 0 then some (0, p, [OpCall.child 1 level take r1.1]) else
  let r2 := s2.get_child p.state2 level take
  let p := { p with state2 := r2.2 }
  if r2.1 = 0 then
    some (0, p, [OpCall.child 1 level take r1.1, OpCall.child 2 level take r2.1]) else
  match ZddIntersection.syncLog s1 s2 fuel r1.1 r2.1 p with
  | none => none
  | some x =>
    some (x.1, x.2.1,
      OpCall.child 1 level take r1.1 :: OpCall.child 2 level take r2.1 :: x.2.2)

/-- A result without its log. -/
def dropLog (x : Int × IsectState σ₁ σ₂ × List OpCall) : Int × IsectState σ₁ σ₂ :=
  (x.1, x.2.1)

/-- A log of the synchronisation loop started with the operand codes `c1`
and `c2`: every call is a loop call on branch 0, made on the operand whose
last reported code is strictly higher than the other's, at that code. -/
def LoopOK : Int → Int → List OpCall → Prop
  | _, _, [] => True
  | c1, c2, OpCall.loop k l o t c :: rest =>
    t = 0 ∧ ((k = 1 ∧ l = c1 ∧ o = c2 ∧ c2 < c1 ∧ LoopOK c c2 rest) ∨
      (k = 2 ∧ l = c2 ∧ o = c1 ∧ c1 < c2 ∧ LoopOK c1 c rest))
  | _, _, _ :: _ => False

/-- Operand 1 of the synchronisation scenario: root 5, then level 3. -/
def skipFour : DdSpec Unit where
  get_root := fun s => (5, s)
  get_child := fun s l _ => (if l = 5 then 3 else 0, s)
  get_copy := fun _ from_ => from_
  hash_code := fun _ _ => 0
  equal_to := fun _ _ _ => true

/-- Operand 2 of the synchronisation scenario: root 5, then level 4, then
level 3 on branch 0. -/
def stepFour : DdSpec Unit where
  get_root := fun s => (5, s)
  get_child := fun s l b => (if l = 5 then 4 else if l = 4 ∧ b = 0 then 3 else 0, s)
  get_copy := fun _ from_ => from_
  hash_code := fun _ _ => 0
  equal_to := fun _ _ _ => true

/-- The operand with root 5 that drops from level 5 to level 1 and otherwise
one level at a time. -/
def dropFive : DdSpec Unit := codeSpec 5 (fun l => if l = 5 then 1 else l - 1)

/-- The operand with root 4 that goes down one level at a time. -/
def stepDown : DdSpec Unit := codeSpec 4 (fun l => l - 1)

/-- What a call of `ZddIntersection::getRoot` or `getChild` that returned
`r` with the call log `log` guarantees, `e1` and `e2` being its first call
on operand 1 and on operand 2: `r` is 0 only if some call reported 0;
otherwise the last code reported by operand 1 and the last code reported by
operand 2 are both `r`; and the log is the call `e1` alone, or `e1`, `e2`
and then loop calls that satisfy `LoopOK` from the codes of `e1` and `e2`. -/
def SyncResult (r : Int) (e1 e2 : OpCall) (log : List OpCall) : Prop :=
  (r = 0 → ∃ e ∈ log, e.code = 0) ∧
  (r ≠ 0 → lastCode 1 log = some r ∧ lastCode 2 log = some r) ∧
  (log = [e1] ∨ ∃ lp, log = e1 :: e2 :: lp ∧ LoopOK e1.code e2.code lp)

/-! ## Monitored operands and reachable states -/

/-- An operand sub-state with two ghost fields: `last` is the code the
operand most recently reported for this sub-state, and `bad` tells whether
some `get_child` call on it (or on the sub-state it was copied from) passed
a level that is not positive or not the code last reported for it. -/
structure Mon (σ : Type) where
  st : σ
  last : Int
  bad : Bool
  deriving DecidableEq

/-- The operand `sp` with monitored sub-states: it behaves as `sp` on the
`st` field and keeps the ghost fields up to date. -/
def monitor (sp : DdSpec σ) : DdSpec (Mon σ) where
  get_root := fun m =>
    ((sp.get_root m.st).1, ⟨(sp.get_root m.st).2, (sp.get_root m.st).1, m.bad⟩)
  get_child := fun m l b =>
    ((sp.get_child m.st l b).1,
      ⟨(sp.get_child m.st l b).2, (sp.get_child m.st l b).1,
        m.bad || !decide (0 < l ∧ l = m.last)⟩)
  get_copy := fun to_ from_ => ⟨sp.get_copy to_.st from_.st, from_.last, from_.bad⟩
  hash_code := fun m l => sp.hash_code m.st l
  equal_to := fun m m' l => sp.equal_to m.st m'.st l

/-- A `BinaryOperation` buffer without the ghost fields of its regions. -/
def eraseMon (p : BinState (Mon σ₁) (Mon σ₂)) : BinState σ₁ σ₂ :=
  ⟨p.level1, p.level2, p.state1.st, p.state2.st⟩

/-- A `ZddIntersection` buffer without the ghost fields of its regions. -/
def eraseMonI (p : IsectState (Mon σ₁) (Mon σ₂)) : IsectState σ₁ σ₂ :=
  ⟨p.state1.st, p.state2.st⟩

/-- The states a driver can hold, each with the code the composite last
returned for it: the result of the root function on a buffer that is
`clean`, the result of the child function called on a reachable state at
the positive code last returned for it, and a copy of a reachable state. -/
inductive Reach {S : Type} (clean : S → Prop) (root : S → Option (Int × S))
    (child : S → Int → Int → Option (Int × S)) (copy : S → S → S) : Int → S → Prop
  | root (p0 : S) (r : Int) (q : S) :
      clean p0 → root p0 = some (r, q) → Reach clean root child copy r q
  | child (c : Int) (p : S) (take r : Int) (q : S) :
      Reach clean root child copy c p → 0 < c → child p c take = some (r, q) →
      Reach clean root child copy r q
  | copy (c : Int) (p b : S) :
      Reach clean root child copy c p → Reach clean root child copy c (copy b p)

/-- No contract violation is recorded in a `BinaryOperation` buffer. -/
def cleanBin (p : BinState (Mon σ₁) (Mon σ₂)) : Prop :=
  p.state1.bad = false ∧ p.state2.bad = false

/-- No contract violation is recorded in a `ZddIntersection` buffer. -/
def cleanIsect (p : IsectState (Mon σ₁) (Mon σ₂)) : Prop :=
  p.state1.bad = false ∧ p.state2.bad = false

/-- The states of `BddAnd` over monitored operands that a driver can hold. -/
def AndReach (s1 : DdSpec σ₁) (s2 : DdSpec σ₂) :
    Int → BinState (Mon σ₁) (Mon σ₂) → Prop :=
  Reach cleanBin (fun p => some (BddAnd.getRoot (monitor s1) (monitor s2) p))
    (BddAnd.getChild (monitor s1) (monitor s2))
    (BinaryOperation.get_copy (monitor s1) (monitor s2))

/-- The states of `BddOr` over monitored operands that a driver can hold. -/
def OrReach (s1 : DdSpec σ₁) (s2 : DdSpec σ₂) :
    Int → BinState (Mon σ₁) (Mon σ₂) → Prop :=
  Reach cleanBin (fun p => some (BddOr.getRoot (monitor s1) (monitor s2) p))
    (BddOr.getChild (monitor s1) (monitor s2))
    (BinaryOperation.get_copy (monitor s1) (monitor s2))

/-- The states of `ZddUnion` over monitored operands that a driver can
hold. -/
def UnionReach (s1 : DdSpec σ₁) (s2 : DdSpec σ₂) :
    Int → BinState (Mon σ₁) (Mon σ₂) → Prop :=
  Reach cleanBin (fun p => some (ZddUnion.getRoot (monitor s1) (monitor s2) p))
    (ZddUnion.getChild (monitor s1) (monitor s2))
    (BinaryOperation.get_copy (monitor s1) (monitor s2))

/-- The states of `ZddIntersection` over monitored operands that a driver
can hold, with loops of fuel `F`. -/
def IsectReach (s1 : DdSpec σ₁) (s2 : DdSpec σ₂) (F : Nat) :
    Int → IsectState (Mon σ₁) (Mon σ₂) → Prop :=
  Reach cleanIsect (ZddIntersection.getRoot (monitor s1) (monitor s2) F)
    (ZddIntersection.getChild (monitor s1) (monitor s2) F)
    (ZddIntersection.get_copy (monitor s1) (monitor s2))

/-- The invariant of the reachable states of `BddAnd` and `BddOr` over
monitored operands: no contract violation is recorded, and for a state for
which the composite last returned a decision level `c`, each header field
is the code the operand last reported for its sub-state and `c` is their
maximum. -/
def HeaderInv (c : Int) (p : BinState (Mon σ₁) (Mon σ₂)) : Prop :=
  cleanBin p ∧
    (0 < c → p.level1 = p.state1.last ∧ p.level2 = p.state2.last ∧
      c = max p.level1 p.level2)

/-- The invariant of the reachable states of `ZddUnion` over monitored
operands: as `HeaderInv`, but a header field may also be the 0 that
`getChild` stores for a waiting operand on the include branch. -/
def UnionInv (c : Int) (p : BinState (Mon σ₁) (Mon σ₂)) : Prop :=
  cleanBin p ∧
    (0 < c → (p.level1 = p.state1.last ∨ p.level1 = 0) ∧
      (p.level2 = p.state2.last ∨ p.level2 = 0) ∧ c = max p.level1 p.level2)

/-- The invariant of the reachable states of `ZddIntersection` over
monitored operands: no contract violation is recorded, the code `c` last
returned for the state is at least -1, and unless it is 0 both operands last
reported exactly `c` for their sub-states. -/
def IsectInv (c : Int) (p : IsectState (Mon σ₁) (Mon σ₂)) : Prop :=
  cleanIsect p ∧ -1 ≤ c ∧ (c ≠ 0 → p.state1.last = c ∧ p.state2.last = c)

/-- An uninitialised `BinaryOperation` buffer over the monitored scenario
operands, with no violation recorded. -/
def blankMon : BinState (Mon (List (Int × Int))) (Mon (List (Int × Int))) :=
  ⟨0, 0, ⟨[], 0, false⟩, ⟨[], 0, false⟩⟩

/-- An uninitialised `ZddIntersection` buffer over monitored stateless
operands, with no violation recorded. -/
def blankMonI : IsectState (Mon Unit) (Mon Unit) := ⟨⟨(), 0, false⟩, ⟨(), 0, false⟩⟩

/-! ## Lemmas on walks -/

theorem walk_nonpos (child : σ → Int → Int → Option (Int × σ)) (a : Int → Int)
    (n : Nat) (c : Int) (s : σ) (hc : c ≤ 0) : walk child a n c s = some c := by
  cases n <;> simp [walk, not_lt.mpr hc]

theorem walk_pos (child : σ → Int → Int → Option (Int × σ)) (a : Int → Int)
    (n : Nat) (c : Int) (s : σ) (hc : 0 < c) (r : Int × σ)
    (hr : child s c (a c) = some r) :
    walk child a (n + 1) c s = walk child a n r.1 r.2 := by
  simp [walk, hc, hr]

theorem walk_op_step (sp : DdSpec σ) (hd : Descends sp) (a : Int → Int)
    (n : Nat) (c : Int) (s : σ) (hc : 0 < c) (hn : c.toNat ≤ n) :
    ∃ m, n = m + 1 ∧ (sp.get_child s c (a c)).1.toNat ≤ m ∧
      walk sp.child a n c s
        = walk sp.child a m (sp.get_child s c (a c)).1 (sp.get_child s c (a c)).2 := by
  have h := hd s c (a c) hc
  obtain ⟨m, rfl⟩ : ∃ m, n = m + 1 := ⟨n - 1, by omega⟩
  exact ⟨m, rfl, by omega, walk_pos _ _ _ _ _ hc _ rfl⟩

theorem walk_op_total (sp : DdSpec σ) (hd : Descends sp) (a : Int → Int) :
    ∀ (n : Nat) (c : Int) (s : σ), c.toNat ≤ n →
      ∃ r, walk sp.child a n c s = some r ∧ r ≤ 0 := by
  intro n
  induction n with
  | zero =>
    intro c s hn
    exact ⟨c, walk_nonpos _ _ _ _ _ (by omega), by omega⟩
  | succ m ih =>
    intro c s hn
    by_cases hc : 0 < c
    · obtain ⟨k, hk, hle, hw⟩ := walk_op_step sp hd a (m + 1) c s hc hn
      obtain rfl : m = k := by omega
      rw [hw]
      exact ih _ _ hle
    · exact ⟨c, walk_nonpos _ _ _ _ _ (by omega), by omega⟩

/-! ## BddAnd represents conjunction -/

theorem BddAnd.and_getChild_eq (s1 : DdSpec σ₁) (s2 : DdSpec σ₂) (p : BinState σ₁ σ₂)
    (level take : Int) (h : entryAssert p level) :
    BddAnd.getChild s1 s2 p level take = some (BddAnd.getChildBody s1 s2 p level take) := by
  simp [BddAnd.getChild, h]

theorem BddAnd.and_walk_inv (s1 : DdSpec σ₁) (s2 : DdSpec σ₂) (h1 : Descends s1)
    (h2 : Descends s2) (a : Int → Int) :
    ∀ (n n1 n2 : Nat) (p : BinState σ₁ σ₂), p.level1 ≠ 0 → p.level2 ≠ 0 →
      (max p.level1 p.level2).toNat ≤ n → p.level1.toNat ≤ n1 → p.level2.toNat ≤ n2 →
      AndAgree s1 s2 a n n1 n2 (max p.level1 p.level2, p) p.level1 p.level2
        p.state1 p.state2 := by
  intro n
  induction n with
  | zero =>
    intro n1 n2 p hl1 hl2 hn hn1 hn2
    have hmax : max p.level1 p.level2 ≤ 0 := by omega
    exact ⟨_, _, _, walk_nonpos _ _ _ _ _ hmax, walk_nonpos _ _ _ _ _ (by omega),
      walk_nonpos _ _ _ _ _ (by omega), hmax, by omega, by omega, by omega⟩
  | succ m ih =>
    intro n1 n2 p hl1 hl2 hn hn1 hn2
    by_cases hc : 0 < max p.level1 p.level2
    · have snd : ∀ (q : BinState σ₁ σ₂) (k1 k2 : Nat), q.level1 ≠ 0 → q.level2 ≠ 0 →
          q.level1 < max p.level1 p.level2 → q.level2 ≤ max p.level1 p.level2 →
          q.level1.toNat ≤ k1 → q.level2.toNat ≤ k2 →
          AndAgree s1 s2 a m k1 k2
            (BddAnd.getChildSnd s2 q (max p.level1 p.level2) (a (max p.level1 p.level2)))
            q.level1 q.level2 q.state1 q.state2 := by
        intro q k1 k2 hq1 hq2 hlt hle hk1 hk2
        by_cases e2 : q.level2 = max p.level1 p.level2
        · obtain ⟨j2, rfl, hj2, hw2⟩ :=
            walk_op_step s2 h2 a k2 q.level2 q.state2 (by omega) hk2
          have hd2 := h2 q.state2 q.level2 (a q.level2) (by omega)
          rw [← e2]
          by_cases z2 : (s2.get_child q.state2 q.level2 (a q.level2)).1 = 0
          · obtain ⟨c1, hc1, hc1'⟩ := walk_op_total s1 h1 a k1 q.level1 q.state1 hk1
            refine ⟨0, c1, 0, ?_, hc1, ?_, le_refl _, hc1', le_refl _, by omega⟩
            · simp [BddAnd.getChildSnd, z2, walk_nonpos]
            · rw [hw2, z2]; exact walk_nonpos _ _ _ _ _ (le_refl _)
          · have := ih k1 j2
              ⟨q.level1, (s2.get_child q.state2 q.level2 (a q.level2)).1, q.state1,
                (s2.get_child q.state2 q.level2 (a q.level2)).2⟩ hq1 z2
              (by simp only; omega) hk1 hj2
            simpa [AndAgree, BddAnd.getChildSnd, z2, setState2, setLevel2, hw2] using this
        · have := ih k1 k2 q hq1 hq2 (by omega) hk1 hk2
          simpa [AndAgree, BddAnd.getChildSnd, e2] using this
      have hassert : entryAssert p (max p.level1 p.level2) :=
        ⟨le_max_left _ _, le_max_right _ _⟩
      unfold AndAgree
      rw [walk_pos _ _ _ _ _ hc _ (BddAnd.and_getChild_eq s1 s2 p _ _ hassert)]
      by_cases e1 : p.level1 = max p.level1 p.level2
      · obtain ⟨j1, rfl, hj1, hw1⟩ :=
          walk_op_step s1 h1 a n1 p.level1 p.state1 (by omega) hn1
        have hd1 := h1 p.state1 p.level1 (a p.level1) (by omega)
        rw [← e1] at snd ⊢
        by_cases z1 : (s1.get_child p.state1 p.level1 (a p.level1)).1 = 0
        · obtain ⟨c2, hc2, hc2'⟩ := walk_op_total s2 h2 a n2 p.level2 p.state2 hn2
          refine ⟨0, 0, c2, ?_, ?_, hc2, le_refl _, le_refl _, hc2', by omega⟩
          · simp [BddAnd.getChildBody, z1, walk_nonpos]
          · rw [hw1, z1]; exact walk_nonpos _ _ _ _ _ (le_refl _)
        · have := snd ⟨(s1.get_child p.state1 p.level1 (a p.level1)).1, p.level2,
              (s1.get_child p.state1 p.level1 (a p.level1)).2, p.state2⟩ j1 n2 z1 hl2
              hd1 (by simp only; omega) hj1 hn2
          simpa [AndAgree, BddAnd.getChildBody, z1, setState1, setLevel1, hw1] using this
      · have := snd p n1 n2 hl1 hl2 (by omega) (by omega) hn1 hn2
        simpa [AndAgree, BddAnd.getChildBody, e1] using this
    · have hmax : max p.level1 p.level2 ≤ 0 := by omega
      exact ⟨_, _, _, walk_nonpos _ _ _ _ _ hmax, walk_nonpos _ _ _ _ _ (by omega),
        walk_nonpos _ _ _ _ _ (by omega), hmax, by omega, by omega, by omega⟩

theorem scenario1_descends : Descends scenario1 := by
  intro s l b hl
  simp only [scenario1]
  split <;> omega

theorem scenario2_descends : Descends scenario2 := by
  intro s l b hl
  simp only [scenario2]
  split_ifs <;> omega

/-- C1. `BddAnd` represents the logical AND of its operands: when each
operand's `get_child` reports a code strictly below the decision level it is
called at, then for every assignment of branches to levels and any fuel
covering the root codes, the walk of `BddAnd(s1, s2)` from `getRoot` and the
walks of `s1` and `s2` from `get_root` all end (no assertion fails), each in
a code that is 0 or negative, and the composite ends in a negative code
exactly when both operands do. -/
theorem BddAnd_represents_and (s1 : DdSpec σ₁) (s2 : DdSpec σ₂) (h1 : Descends s1)
    (h2 : Descends s2) (a : Int → Int) (p : BinState σ₁ σ₂) (n n1 n2 : Nat)
    (hn : (BddAnd.getRoot s1 s2 p).1.toNat ≤ n)
    (hn1 : (s1.get_root p.state1).1.toNat ≤ n1)
    (hn2 : (s2.get_root p.state2).1.toNat ≤ n2) :
    ∃ c c1 c2, BddAnd.run s1 s2 a n p = some c ∧ s1.run a n1 p.state1 = some c1 ∧
      s2.run a n2 p.state2 = some c2 ∧ c ≤ 0 ∧ c1 ≤ 0 ∧ c2 ≤ 0 ∧
      (c < 0 ↔ c1 < 0 ∧ c2 < 0) := by
  obtain ⟨c1, hc1, hc1'⟩ := walk_op_total s1 h1 a n1 _ (s1.get_root p.state1).2 hn1
  obtain ⟨c2, hc2, hc2'⟩ := walk_op_total s2 h2 a n2 _ (s2.get_root p.state2).2 hn2
  unfold BddAnd.run DdSpec.run
  by_cases z1 : (s1.get_root p.state1).1 = 0
  · refine ⟨0, 0, c2, ?_, ?_, hc2, le_refl _, le_refl _, hc2', by omega⟩
    · simp [BddAnd.getRoot, z1, walk_nonpos]
    · rw [z1]; exact walk_nonpos _ _ _ _ _ (le_refl _)
  · by_cases z2 : (s2.get_root p.state2).1 = 0
    · refine ⟨0, c1, 0, ?_, hc1, ?_, le_refl _, hc1', le_refl _, by omega⟩
      · simp [BddAnd.getRoot, z1, z2, setState1, walk_nonpos]
      · rw [z2]; exact walk_nonpos _ _ _ _ _ (le_refl _)
    · have hr : BddAnd.getRoot s1 s2 p
          = (max (s1.get_root p.state1).1 (s2.get_root p.state2).1,
              ⟨(s1.get_root p.state1).1, (s2.get_root p.state2).1,
                (s1.get_root p.state1).2, (s2.get_root p.state2).2⟩) := by
        simp [BddAnd.getRoot, z1, z2, setState1, setState2, setLevel1, setLevel2]
      rw [hr] at hn ⊢
      exact BddAnd.and_walk_inv s1 s2 h1 h2 a n n1 n2
        ⟨(s1.get_root p.state1).1, (s2.get_root p.state2).1,
          (s1.get_root p.state1).2, (s2.get_root p.state2).2⟩ z1 z2 hn hn1 hn2

/-- Witness for C1 on the scenario operands with every branch 1: operand 1
ends in 0, so the conjunction is rejected. -/
theorem BddAnd_represents_and_witness :
    Descends scenario1 ∧ Descends scenario2 ∧
    ∃ c c1 c2, BddAnd.run scenario1 scenario2 (fun _ => 1) 3 blank = some c ∧
      scenario1.run (fun _ => 1) 3 blank.state1 = some c1 ∧
      scenario2.run (fun _ => 1) 3 blank.state2 = some c2 ∧ c ≤ 0 ∧ c1 ≤ 0 ∧ c2 ≤ 0 ∧
      (c < 0 ↔ c1 < 0 ∧ c2 < 0) :=
  ⟨scenario1_descends, scenario2_descends,
    BddAnd_represents_and scenario1 scenario2 scenario1_descends scenario2_descends
      (fun _ => 1) blank 3 3 3 (by decide) (by decide) (by decide)⟩

/-! ## BddOr represents disjunction -/

theorem BddOr.or_getChild_eq (s1 : DdSpec σ₁) (s2 : DdSpec σ₂) (p : BinState σ₁ σ₂)
    (level take : Int) (h : entryAssert p level) :
    BddOr.getChild s1 s2 p level take = some (BddOr.getChildBody s1 s2 p level take) := by
  simp [BddOr.getChild, h]

theorem BddOr.or_walk_inv (s1 : DdSpec σ₁) (s2 : DdSpec σ₂) (h1 : Descends s1)
    (h2 : Descends s2) (a : Int → Int) :
    ∀ (n n1 n2 : Nat) (p : BinState σ₁ σ₂), 0 ≤ p.level1 → 0 ≤ p.level2 →
      (max p.level1 p.level2).toNat ≤ n → p.level1.toNat ≤ n1 → p.level2.toNat ≤ n2 →
      OrAgree s1 s2 a n n1 n2 (max p.level1 p.level2, p) p.level1 p.level2
        p.state1 p.state2 := by
  intro n
  induction n with
  | zero =>
    intro n1 n2 p hl1 hl2 hn hn1 hn2
    have hmax : max p.level1 p.level2 ≤ 0 := by omega
    exact ⟨_, _, _, walk_nonpos _ _ _ _ _ hmax, walk_nonpos _ _ _ _ _ (by omega),
      walk_nonpos _ _ _ _ _ (by omega), hmax, by omega, by omega, by omega⟩
  | succ m ih =>
    intro n1 n2 p hl1 hl2 hn hn1 hn2
    by_cases hc : 0 < max p.level1 p.level2
    · have snd : ∀ (q : BinState σ₁ σ₂) (k1 k2 : Nat), 0 ≤ q.level1 → 0 ≤ q.level2 →
          q.level1 < max p.level1 p.level2 → q.level2 ≤ max p.level1 p.level2 →
          q.level1.toNat ≤ k1 → q.level2.toNat ≤ k2 →
          OrAgree s1 s2 a m k1 k2
            (BddOr.getChildSnd s2 q (max p.level1 p.level2) (a (max p.level1 p.level2)))
            q.level1 q.level2 q.state1 q.state2 := by
        intro q k1 k2 hq1 hq2 hlt hle hk1 hk2
        by_cases e2 : q.level2 = max p.level1 p.level2
        · obtain ⟨j2, rfl, hj2, hw2⟩ :=
            walk_op_step s2 h2 a k2 q.level2 q.state2 (by omega) hk2
          have hd2 := h2 q.state2 q.level2 (a q.level2) (by omega)
          rw [← e2]
          by_cases z2 : (s2.get_child q.state2 q.level2 (a q.level2)).1 < 0
          · obtain ⟨c1, hc1, hc1'⟩ := walk_op_total s1 h1 a k1 q.level1 q.state1 hk1
            refine ⟨-1, c1, (s2.get_child q.state2 q.level2 (a q.level2)).1, ?_, hc1, ?_,
              by omega, hc1', by omega, by omega⟩
            · simp [BddOr.getChildSnd, z2, walk_nonpos]
            · rw [hw2]; exact walk_nonpos _ _ _ _ _ (by omega)
          · have := ih k1 j2
              ⟨q.level1, (s2.get_child q.state2 q.level2 (a q.level2)).1, q.state1,
                (s2.get_child q.state2 q.level2 (a q.level2)).2⟩ hq1 (by simp only; omega)
              (by simp only; omega) hk1 hj2
            simpa [OrAgree, BddOr.getChildSnd, z2, setState2, setLevel2, hw2] using this
        · have := ih k1 k2 q hq1 hq2 (by omega) hk1 hk2
          simpa [OrAgree, BddOr.getChildSnd, e2] using this
      have hassert : entryAssert p (max p.level1 p.level2) :=
        ⟨le_max_left _ _, le_max_right _ _⟩
      unfold OrAgree
      rw [walk_pos _ _ _ _ _ hc _ (BddOr.or_getChild_eq s1 s2 p _ _ hassert)]
      by_cases e1 : p.level1 = max p.level1 p.level2
      · obtain ⟨j1, rfl, hj1, hw1⟩ :=
          walk_op_step s1 h1 a n1 p.level1 p.state1 (by omega) hn1
        have hd1 := h1 p.state1 p.level1 (a p.level1) (by omega)
        rw [← e1] at snd ⊢
        by_cases z1 : (s1.get_child p.state1 p.level1 (a p.level1)).1 < 0
        · obtain ⟨c2, hc2, hc2'⟩ := walk_op_total s2 h2 a n2 p.level2 p.state2 hn2
          refine ⟨-1, (s1.get_child p.state1 p.level1 (a p.level1)).1, c2, ?_, ?_, hc2,
            by omega, by omega, hc2', by omega⟩
          · simp [BddOr.getChildBody, z1, walk_nonpos]
          · rw [hw1]; exact walk_nonpos _ _ _ _ _ (by omega)
        · have := snd ⟨(s1.get_child p.state1 p.level1 (a p.level1)).1, p.level2,
              (s1.get_child p.state1 p.level1 (a p.level1)).2, p.state2⟩ j1 n2
              (by simp only; omega) hl2 hd1 (by simp only; omega) hj1 hn2
          simpa [OrAgree, BddOr.getChildBody, z1, setState1, setLevel1, hw1] using this
      · have := snd p n1 n2 hl1 hl2 (by omega) (by omega) hn1 hn2
        simpa [OrAgree, BddOr.getChildBody, e1] using this
    · have hmax : max p.level1 p.level2 ≤ 0 := by omega
      exact ⟨_, _, _, walk_nonpos _ _ _ _ _ hmax, walk_nonpos _ _ _ _ _ (by omega),
        walk_nonpos _ _ _ _ _ (by omega), hmax, by omega, by omega, by omega⟩

/-- C2. `BddOr` represents the logical OR of its operands: when each
operand's `get_child` reports a code strictly below the decision level it is
called at, then for every assignment of branches to levels and any fuel
covering the root codes, the walk of `BddOr(s1, s2)` from `getRoot` and the
walks of `s1` and `s2` from `get_root` all end (no assertion fails), and the
composite ends in a negative code exactly when at least one operand does. -/
theorem BddOr_represents_or (s1 : DdSpec σ₁) (s2 : DdSpec σ₂) (h1 : Descends s1)
    (h2 : Descends s2) (a : Int → Int) (p : BinState σ₁ σ₂) (n n1 n2 : Nat)
    (hn : (BddOr.getRoot s1 s2 p).1.toNat ≤ n)
    (hn1 : (s1.get_root p.state1).1.toNat ≤ n1)
    (hn2 : (s2.get_root p.state2).1.toNat ≤ n2) :
    ∃ c c1 c2, BddOr.run s1 s2 a n p = some c ∧ s1.run a n1 p.state1 = some c1 ∧
      s2.run a n2 p.state2 = some c2 ∧ c ≤ 0 ∧ c1 ≤ 0 ∧ c2 ≤ 0 ∧
      (c < 0 ↔ c1 < 0 ∨ c2 < 0) := by
  obtain ⟨c1, hc1, hc1'⟩ := walk_op_total s1 h1 a n1 _ (s1.get_root p.state1).2 hn1
  obtain ⟨c2, hc2, hc2'⟩ := walk_op_total s2 h2 a n2 _ (s2.get_root p.state2).2 hn2
  unfold BddOr.run DdSpec.run
  by_cases z1 : (s1.get_root p.state1).1 < 0
  · refine ⟨-1, (s1.get_root p.state1).1, c2, ?_, ?_, hc2, by omega, by omega, hc2',
      by omega⟩
    · simp [BddOr.getRoot, z1, walk_nonpos]
    · exact walk_nonpos _ _ _ _ _ (by omega)
  · by_cases z2 : (s2.get_root p.state2).1 < 0
    · refine ⟨-1, c1, (s2.get_root p.state2).1, ?_, hc1, ?_, by omega, hc1', by omega,
        by omega⟩
      · simp [BddOr.getRoot, z1, z2, setState1, walk_nonpos]
      · exact walk_nonpos _ _ _ _ _ (by omega)
    · have hr : BddOr.getRoot s1 s2 p
          = (max (s1.get_root p.state1).1 (s2.get_root p.state2).1,
              ⟨(s1.get_root p.state1).1, (s2.get_root p.state2).1,
                (s1.get_root p.state1).2, (s2.get_root p.state2).2⟩) := by
        simp [BddOr.getRoot, z1, z2, setState1, setState2, setLevel1, setLevel2]
      rw [hr] at hn ⊢
      exact BddOr.or_walk_inv s1 s2 h1 h2 a n n1 n2
        ⟨(s1.get_root p.state1).1, (s2.get_root p.state2).1,
          (s1.get_root p.state1).2, (s2.get_root p.state2).2⟩ (by simp only; omega)
          (by simp only; omega) hn hn1 hn2

/-- Witness for C2 on the scenario operands along branches 1, 1, 0: operand
2 ends in -1, so the disjunction is accepted. -/
theorem BddOr_represents_or_witness :
    Descends scenario1 ∧ Descends scenario2 ∧
    ∃ c c1 c2,
      BddOr.run scenario1 scenario2 (fun l => if l = 1 then 0 else 1) 3 blank = some c ∧
      scenario1.run (fun l => if l = 1 then 0 else 1) 3 blank.state1 = some c1 ∧
      scenario2.run (fun l => if l = 1 then 0 else 1) 3 blank.state2 = some c2 ∧
      c ≤ 0 ∧ c1 ≤ 0 ∧ c2 ≤ 0 ∧ (c < 0 ↔ c1 < 0 ∨ c2 < 0) :=
  ⟨scenario1_descends, scenario2_descends,
    BddOr_represents_or scenario1 scenario2 scenario1_descends scenario2_descends
      (fun l => if l = 1 then 0 else 1) blank 3 3 3 (by decide) (by decide) (by decide)⟩

/-! ## ZddUnion represents union -/

theorem zddWalk_nonpos (child : σ → Int → Int → Option (Int × σ)) (A : Finset Int)
    (n : Nat) (c : Int) (s : σ) (v : List Int) (hc : c ≤ 0) :
    zddWalk child A n c s v = some (c, v) := by
  cases n <;> simp [zddWalk, not_lt.mpr hc]

theorem zddWalk_pos (child : σ → Int → Int → Option (Int × σ)) (A : Finset Int)
    (n : Nat) (c : Int) (s : σ) (v : List Int) (hc : 0 < c) (r : Int × σ)
    (hr : child s c (if c ∈ A then 1 else 0) = some r) :
    zddWalk child A (n + 1) c s v = zddWalk child A n r.1 r.2 (c :: v) := by
  simp [zddWalk, hc, hr]

/-- Shape of an operand walk: it ends, and the levels it visits are
positive, at most the starting code, and independent of the levels visited
before. -/
theorem zddWalk_op_shape (sp : DdSpec σ) (hd : Descends sp) (A : Finset Int) :
    ∀ (n : Nat) (l : Int) (t : σ), l.toNat ≤ n →
      ∃ (c : Int) (X : List Int), c ≤ 0 ∧ (∀ x ∈ X, 0 < x ∧ x ≤ l) ∧
        ∀ v, zddWalk sp.child A n l t v = some (c, X ++ v) := by
  intro n
  induction n with
  | zero =>
    intro l t hn
    exact ⟨l, [], by omega, by simp, fun v => zddWalk_nonpos _ _ _ _ _ _ (by omega)⟩
  | succ m ih =>
    intro l t hn
    by_cases hl : 0 < l
    · have hd1 := hd t l (if l ∈ A then 1 else 0) hl
      obtain ⟨c, X, hc, hX, hw⟩ := ih (sp.get_child t l (if l ∈ A then 1 else 0)).1
        (sp.get_child t l (if l ∈ A then 1 else 0)).2 (by omega)
      refine ⟨c, X ++ [l], hc, ?_, ?_⟩
      · intro x hx
        rcases List.mem_append.mp hx with h | h
        · have := hX x h; omega
        · simp at h; omega
      · intro v
        rw [zddWalk_pos _ _ _ _ _ _ hl _ rfl, hw]
        simp
    · exact ⟨l, [], by omega, by simp, fun v => zddWalk_nonpos _ _ _ _ _ _ (by omega)⟩

theorem memFrom_total (sp : DdSpec σ) (hd : Descends sp) (A : Finset Int)
    (n : Nat) (l : Int) (t : σ) (v : List Int) (hn : l.toNat ≤ n) :
    ∃ b, memFrom sp A n l t v = some b := by
  obtain ⟨c, X, _, _, hw⟩ := zddWalk_op_shape sp hd A n l t hn
  exact ⟨isMember A (c, X ++ v), by simp [memFrom, hw]⟩

/-- One operand across one `ZddUnion` step at level `c`: whether it is
advanced, forced to 0 on the include branch, or left waiting, the verdict of
its walk from the old header equals the verdict from the new header once `c`
counts as visited. -/
theorem union_block (sp : DdSpec σ) (hd : Descends sp) (A : Finset Int) (c l : Int)
    (t : σ) (v : List Int) (k : Nat) (hc : 0 < c) (hl : l ≤ c) (hv : ∀ x ∈ v, c < x)
    (hk : l.toNat ≤ k) (l' : Int) (t' : σ)
    (hdef : (l', t') =
      if l = c then sp.get_child t c (if c ∈ A then 1 else 0)
      else if (if c ∈ A then (1 : Int) else 0) ≠ 0 then (0, t) else (l, t)) :
    ∃ k' b, l'.toNat ≤ k' ∧ l' < c ∧ memFrom sp A k l t v = some b ∧
      memFrom sp A k' l' t' (c :: v) = some b := by
  by_cases e : l = c
  · subst e
    rw [if_pos rfl] at hdef
    have hd1 := hd t l (if l ∈ A then 1 else 0) hc
    obtain ⟨j, rfl⟩ : ∃ j, k = j + 1 := ⟨k - 1, by omega⟩
    have h1 : l' = (sp.get_child t l (if l ∈ A then 1 else 0)).1 := by rw [← hdef]
    have h2 : t' = (sp.get_child t l (if l ∈ A then 1 else 0)).2 := by rw [← hdef]
    obtain ⟨b, hb⟩ := memFrom_total sp hd A j l' t' (l :: v) (by omega)
    refine ⟨j, b, by omega, by omega, ?_, hb⟩
    rw [← hb, h1, h2]
    simp only [memFrom]
    rw [zddWalk_pos _ _ _ _ _ _ hc _ rfl]
  · rw [if_neg e] at hdef
    obtain ⟨cf, X, hcf, hX, hw⟩ := zddWalk_op_shape sp hd A k l t hk
    by_cases hA : c ∈ A
    · simp only [hA, if_true] at hdef
      rw [if_pos (by decide)] at hdef
      obtain ⟨rfl, rfl⟩ := Prod.mk.inj hdef
      refine ⟨0, false, by simp, hc, ?_, ?_⟩
      · simp only [memFrom, hw, Option.map_some', isMember]
        have : ¬ ∀ x ∈ A, x ∈ X ++ v := by
          intro h
          rcases List.mem_append.mp (h c hA) with h' | h'
          · have := hX c h'; omega
          · have := hv c h'; omega
        rw [decide_eq_false this, Bool.and_false]
      · simp [memFrom, zddWalk_nonpos, isMember]
    · simp only [hA, if_false] at hdef
      rw [if_neg (by decide)] at hdef
      obtain ⟨rfl, rfl⟩ := Prod.mk.inj hdef
      refine ⟨k, isMember A (cf, X ++ v), hk, by omega, by simp [memFrom, hw], ?_⟩
      simp only [memFrom, hw, Option.map_some', isMember]
      have : (∀ x ∈ A, x ∈ X ++ c :: v) ↔ (∀ x ∈ A, x ∈ X ++ v) := by
        constructor
        · intro h x hx
          have := h x hx
          simp only [List.mem_append, List.mem_cons] at this ⊢
          rcases this with h' | rfl | h'
          · exact Or.inl h'
          · exact absurd hx hA
          · exact Or.inr h'
        · intro h x hx
          have := h x hx
          simp only [List.mem_append, List.mem_cons] at this ⊢
          tauto
      simp only [this]

theorem ZddUnion.advance1_level2 (s1 : DdSpec σ₁) (p : BinState σ₁ σ₂) (c tk : Int) :
    (ZddUnion.advance1 s1 p c tk).level2 = p.level2 := by
  unfold ZddUnion.advance1; split_ifs <;> rfl

theorem ZddUnion.advance1_state2 (s1 : DdSpec σ₁) (p : BinState σ₁ σ₂) (c tk : Int) :
    (ZddUnion.advance1 s1 p c tk).state2 = p.state2 := by
  unfold ZddUnion.advance1; split_ifs <;> rfl

theorem ZddUnion.advance2_level1 (s2 : DdSpec σ₂) (p : BinState σ₁ σ₂) (c tk : Int) :
    (ZddUnion.advance2 s2 p c tk).level1 = p.level1 := by
  unfold ZddUnion.advance2; split_ifs <;> rfl

theorem ZddUnion.advance2_state1 (s2 : DdSpec σ₂) (p : BinState σ₁ σ₂) (c tk : Int) :
    (ZddUnion.advance2 s2 p c tk).state1 = p.state1 := by
  unfold ZddUnion.advance2; split_ifs <;> rfl

theorem ZddUnion.advance1_eq (s1 : DdSpec σ₁) (p : BinState σ₁ σ₂) (c tk : Int) :
    ((ZddUnion.advance1 s1 p c tk).level1, (ZddUnion.advance1 s1 p c tk).state1)
      = if p.level1 = c then s1.get_child p.state1 c tk
        else if tk ≠ 0 then (0, p.state1) else (p.level1, p.state1) := by
  unfold ZddUnion.advance1; split_ifs <;> rfl

theorem ZddUnion.advance2_eq (s2 : DdSpec σ₂) (p : BinState σ₁ σ₂) (c tk : Int) :
    ((ZddUnion.advance2 s2 p c tk).level2, (ZddUnion.advance2 s2 p c tk).state2)
      = if p.level2 = c then s2.get_child p.state2 c tk
        else if tk ≠ 0 then (0, p.state2) else (p.level2, p.state2) := by
  unfold ZddUnion.advance2; split_ifs <;> rfl

theorem ZddUnion.getChildBody_eq (s1 : DdSpec σ₁) (s2 : DdSpec σ₂) (p : BinState σ₁ σ₂)
    (c tk : Int) :
    ZddUnion.getChildBody s1 s2 p c tk
      = (unionCode (ZddUnion.advance2 s2 (ZddUnion.advance1 s1 p c tk) c tk).level1
          (ZddUnion.advance2 s2 (ZddUnion.advance1 s1 p c tk) c tk).level2,
        ZddUnion.advance2 s2 (ZddUnion.advance1 s1 p c tk) c tk) := by
  unfold ZddUnion.getChildBody unionCode
  simp only
  split_ifs <;> rfl

theorem ZddUnion.getRoot_fst (s1 : DdSpec σ₁) (s2 : DdSpec σ₂) (p : BinState σ₁ σ₂) :
    (ZddUnion.getRoot s1 s2 p).1
      = unionCode (s1.get_root p.state1).1 (s2.get_root p.state2).1 := by
  unfold ZddUnion.getRoot unionCode
  simp only [setState1, setState2, setLevel1, setLevel2]
  split_ifs <;> rfl

theorem unionCode_lt (a b c : Int) (hc : 0 < c) (ha : a < c) (hb : b < c) :
    unionCode a b < c := by
  unfold unionCode; split_ifs <;> omega

theorem union_terminal (A : Finset Int) (l1 l2 : Int) (v : List Int) (h1 : l1 ≤ 0)
    (h2 : l2 ≤ 0) :
    isMember A (unionCode l1 l2, v) = (isMember A (l1, v) || isMember A (l2, v)) := by
  unfold isMember unionCode
  simp only
  cases decide (∀ x ∈ A, x ∈ v)
  · simp
  · simp only [Bool.and_true, ← Bool.decide_or]
    apply decide_eq_decide.mpr
    split_ifs <;> omega

theorem ZddUnion.union_walk_inv (s1 : DdSpec σ₁) (s2 : DdSpec σ₂) (h1 : Descends s1)
    (h2 : Descends s2) (A : Finset Int) :
    ∀ (n n1 n2 : Nat) (p : BinState σ₁ σ₂) (v : List Int),
      (unionCode p.level1 p.level2).toNat ≤ n → p.level1.toNat ≤ n1 →
      p.level2.toNat ≤ n2 → (∀ x ∈ v, unionCode p.level1 p.level2 < x) →
      UnionAgree s1 s2 A n n1 n2 (unionCode p.level1 p.level2, p) p.level1 p.level2
        p.state1 p.state2 v := by
  have terminal : ∀ (n n1 n2 : Nat) (p : BinState σ₁ σ₂) (v : List Int),
      unionCode p.level1 p.level2 ≤ 0 →
      UnionAgree s1 s2 A n n1 n2 (unionCode p.level1 p.level2, p) p.level1 p.level2
        p.state1 p.state2 v := by
    intro n n1 n2 p v hc
    have hl : p.level1 ≤ 0 ∧ p.level2 ≤ 0 := by
      unfold unionCode at hc; split_ifs at hc <;> omega
    refine ⟨_, _, _, ?_, ?_, ?_, union_terminal A p.level1 p.level2 v hl.1 hl.2⟩
    · simp [zddWalk_nonpos _ _ _ _ _ _ hc]
    · simp [memFrom, zddWalk_nonpos _ _ _ _ _ _ hl.1]
    · simp [memFrom, zddWalk_nonpos _ _ _ _ _ _ hl.2]
  intro n
  induction n with
  | zero =>
    intro n1 n2 p v hn hn1 hn2 hv
    exact terminal 0 n1 n2 p v (by omega)
  | succ m ih =>
    intro n1 n2 p v hn hn1 hn2 hv
    by_cases hc : 0 < unionCode p.level1 p.level2
    · have hmax : unionCode p.level1 p.level2 = max p.level1 p.level2 := by
        unfold unionCode at hc ⊢; split_ifs at hc ⊢ <;> first | rfl | omega
      have hassert : entryAssert p (unionCode p.level1 p.level2) := by
        rw [hmax]; exact ⟨le_max_left _ _, le_max_right _ _⟩
      obtain ⟨k1, b1, hk1, hlt1, hm1, hm1'⟩ := union_block s1 h1 A _ p.level1 p.state1 v n1
        hc hassert.1 hv hn1 _ _ (ZddUnion.advance1_eq s1 p _ _)
      obtain ⟨k2, b2, hk2, hlt2, hm2, hm2'⟩ := union_block s2 h2 A _ p.level2 p.state2 v n2
        hc hassert.2 hv hn2 _ _ (ZddUnion.advance2_eq s2 p _ _)
      have hq := ih k1 k2
        (ZddUnion.advance2 s2 (ZddUnion.advance1 s1 p (unionCode p.level1 p.level2)
          (if unionCode p.level1 p.level2 ∈ A then 1 else 0)) (unionCode p.level1 p.level2)
          (if unionCode p.level1 p.level2 ∈ A then 1 else 0))
        (unionCode p.level1 p.level2 :: v)
      simp only [ZddUnion.advance2_level1, ZddUnion.advance2_state1] at hq
      have e2 : ZddUnion.advance2 s2 (ZddUnion.advance1 s1 p (unionCode p.level1 p.level2)
            (if unionCode p.level1 p.level2 ∈ A then 1 else 0)) (unionCode p.level1 p.level2)
            (if unionCode p.level1 p.level2 ∈ A then 1 else 0)
          = ⟨(ZddUnion.advance1 s1 p (unionCode p.level1 p.level2)
                (if unionCode p.level1 p.level2 ∈ A then 1 else 0)).level1,
              (ZddUnion.advance2 s2 p (unionCode p.level1 p.level2)
                (if unionCode p.level1 p.level2 ∈ A then 1 else 0)).level2,
              (ZddUnion.advance1 s1 p (unionCode p.level1 p.level2)
                (if unionCode p.level1 p.level2 ∈ A then 1 else 0)).state1,
              (ZddUnion.advance2 s2 p (unionCode p.level1 p.level2)
                (if unionCode p.level1 p.level2 ∈ A then 1 else 0)).state2⟩ := by
        unfold ZddUnion.advance2 ZddUnion.advance1
        simp only [setState1, setState2, setLevel1, setLevel2]
        split_ifs <;> rfl
      have hcode := unionCode_lt _ _ _ hc hlt1 hlt2
      rw [e2] at hq
      simp only at hq
      obtain ⟨b, c1, c2, hw, hc1, hc2, hb⟩ := hq (by omega) hk1 hk2 (by
        intro x hx
        rcases List.mem_cons.mp hx with rfl | hx
        · exact hcode
        · have := hv x hx; omega)
      rw [hm1'] at hc1
      rw [hm2'] at hc2
      obtain rfl := Option.some.inj hc1
      obtain rfl := Option.some.inj hc2
      refine ⟨b, b1, b2, ?_, hm1, hm2, hb⟩
      simp only
      rw [zddWalk_pos _ _ _ _ _ _ hc _ (by
        simp only [ZddUnion.getChild, hassert, if_true]; rfl),
        ZddUnion.getChildBody_eq, e2]
      exact hw
    · exact terminal _ n1 n2 p v (by omega)

theorem ZddUnion.getRoot_pos (s1 : DdSpec σ₁) (s2 : DdSpec σ₂) (p : BinState σ₁ σ₂)
    (h : 0 < unionCode (s1.get_root p.state1).1 (s2.get_root p.state2).1) :
    ZddUnion.getRoot s1 s2 p
      = (unionCode (s1.get_root p.state1).1 (s2.get_root p.state2).1,
          ⟨(s1.get_root p.state1).1, (s2.get_root p.state2).1,
            (s1.get_root p.state1).2, (s2.get_root p.state2).2⟩) := by
  unfold ZddUnion.getRoot
  unfold unionCode at h ⊢
  simp only [setState1, setState2, setLevel1, setLevel2]
  split_ifs at h ⊢ <;> first | rfl | omega

/-- C3. `ZddUnion` represents the union of the operand families: when each
operand's `get_child` reports a code strictly below the decision level it is
called at, then for every finite set `A` of levels and any fuel covering the
root codes, the membership walks of `ZddUnion(s1, s2)`, `s1` and `s2` all
end (no assertion fails), and `A` is a member of the composite exactly when
it is a member of `s1` or of `s2`. -/
theorem ZddUnion_represents_union (s1 : DdSpec σ₁) (s2 : DdSpec σ₂) (h1 : Descends s1)
    (h2 : Descends s2) (A : Finset Int) (p : BinState σ₁ σ₂) (n n1 n2 : Nat)
    (hn : (ZddUnion.getRoot s1 s2 p).1.toNat ≤ n)
    (hn1 : (s1.get_root p.state1).1.toNat ≤ n1)
    (hn2 : (s2.get_root p.state2).1.toNat ≤ n2) :
    ∃ b b1 b2, ZddUnion.member s1 s2 A n p = some b ∧
      s1.member A n1 p.state1 = some b1 ∧ s2.member A n2 p.state2 = some b2 ∧
      b = (b1 || b2) := by
  unfold ZddUnion.member DdSpec.member
  by_cases hc : 0 < unionCode (s1.get_root p.state1).1 (s2.get_root p.state2).1
  · rw [ZddUnion.getRoot_pos s1 s2 p hc] at hn ⊢
    exact ZddUnion.union_walk_inv s1 s2 h1 h2 A n n1 n2
      ⟨(s1.get_root p.state1).1, (s2.get_root p.state2).1,
        (s1.get_root p.state1).2, (s2.get_root p.state2).2⟩ [] hn hn1 hn2 (by simp)
  · have hl : (s1.get_root p.state1).1 ≤ 0 ∧ (s2.get_root p.state2).1 ≤ 0 := by
      unfold unionCode at hc; split_ifs at hc <;> omega
    refine ⟨_, _, _, ?_, ?_, ?_, union_terminal A _ _ [] hl.1 hl.2⟩
    · rw [zddWalk_nonpos _ _ _ _ _ _ (by rw [ZddUnion.getRoot_fst]; omega),
        ZddUnion.getRoot_fst]
      rfl
    · rw [zddWalk_nonpos _ _ _ _ _ _ hl.1]; rfl
    · rw [zddWalk_nonpos _ _ _ _ _ _ hl.2]; rfl

/-- Witness for C3 on the scenario operands and the set {3, 2}, which
operand 2 contains and operand 1 does not. -/
theorem ZddUnion_represents_union_witness :
    Descends scenario1 ∧ Descends scenario2 ∧
    ∃ b b1 b2, ZddUnion.member scenario1 scenario2 {3, 2} 3 blank = some b ∧
      scenario1.member {3, 2} 3 blank.state1 = some b1 ∧
      scenario2.member {3, 2} 3 blank.state2 = some b2 ∧ b = (b1 || b2) :=
  ⟨scenario1_descends, scenario2_descends,
    ZddUnion_represents_union scenario1 scenario2 scenario1_descends scenario2_descends
      {3, 2} blank 3 3 3 (by decide) (by decide) (by decide)⟩

/-! ## ZddIntersection represents intersection -/

/-- The composite of the witness accepts {3, 2}: after the last decision
level the operands report -1 and -2, the loop advances operand 1 from its
true terminal -1 to -2, and the walk ends at the true terminal -2. -/
theorem mixed_true_terminals_meet :
    ZddIntersection.getChild (allSetsAs (-1)) (allSetsAs (-2)) 10 ⟨(), ()⟩ 1 0
      = some (-2, ⟨(), ()⟩) ∧
    ZddIntersection.member (allSetsAs (-1)) (allSetsAs (-2)) {3, 2} 10 3 ⟨(), ()⟩
      = some true := by
  constructor
  · simp [ZddIntersection.getChild, ZddIntersection.sync, allSetsAs, codeSpec]
  · decide

/-! ## Terminal absorption and the union rule -/

/-- C5. AND terminal absorption.  In `BddAnd::getRoot`, if the `get_root` of
either operand yields 0, the composite returns 0.  In `BddAnd::getChild`
(entry assertion satisfied), if an operand whose header level equals the
level argument yields 0 from `get_child`, the composite returns 0, whatever
the other operand's code is.  In the scenario (operand 1 reporting 3, 1, 0
on branches 1, 0 and operand 2 reporting 3, 2, 1, -1 on branches 1, 1, 0)
the composite reports 3, then 2, 1, 0 on branches 1, 1, 0, and the last
call leaves the call log of operand 2 unchanged: its `get_child`, which
would have reported -1, is not invoked. -/
theorem BddAnd_terminal_absorption :
    (∀ (α β : Type) (s1 : DdSpec α) (s2 : DdSpec β) (p : BinState α β),
      (s1.get_root p.state1).1 = 0 ∨ (s2.get_root p.state2).1 = 0 →
      (BddAnd.getRoot s1 s2 p).1 = 0) ∧
    (∀ (α β : Type) (s1 : DdSpec α) (s2 : DdSpec β) (p : BinState α β) (level take : Int),
      entryAssert p level →
      (p.level1 = level ∧ (s1.get_child p.state1 level take).1 = 0) ∨
        (p.level2 = level ∧ (s2.get_child p.state2 level take).1 = 0) →
      ∃ q, BddAnd.getChild s1 s2 p level take = some (0, q)) ∧
    (BddAnd.getRoot scenario1 scenario2 blank = (3, ⟨3, 3, [], []⟩) ∧
      BddAnd.getChild scenario1 scenario2 ⟨3, 3, [], []⟩ 3 1
        = some (2, ⟨1, 2, [(3, 1)], [(3, 1)]⟩) ∧
      BddAnd.getChild scenario1 scenario2 ⟨1, 2, [(3, 1)], [(3, 1)]⟩ 2 1
        = some (1, ⟨1, 1, [(3, 1)], [(3, 1), (2, 1)]⟩) ∧
      BddAnd.getChild scenario1 scenario2 ⟨1, 1, [(3, 1)], [(3, 1), (2, 1)]⟩ 1 0
        = some (0, ⟨1, 1, [(3, 1), (1, 0)], [(3, 1), (2, 1)]⟩) ∧
      (scenario2.get_child [(3, 1), (2, 1)] 1 0).1 = -1) := by
  refine ⟨?_, ?_, ?_⟩
  · intro α β s1 s2 p h
    unfold BddAnd.getRoot
    simp only [setState1, setState2, setLevel1, setLevel2]
    split_ifs with z1 z2
    · rfl
    · rfl
    · rcases h with h | h
      · exact absurd h z1
      · exact absurd h z2
  · intro α β s1 s2 p level take ha h
    rw [BddAnd.and_getChild_eq s1 s2 p level take ha]
    unfold BddAnd.getChildBody BddAnd.getChildSnd
    simp only [setState1, setState2, setLevel1, setLevel2]
    split_ifs with e1 z1 e2 z2 e2 z2
    · exact ⟨_, rfl⟩
    · exact ⟨_, rfl⟩
    · rcases h with h | h
      · exact absurd h.2 z1
      · exact absurd h.2 z2
    · rcases h with h | h
      · exact absurd h.2 z1
      · exact absurd h.1 e2
    · exact ⟨_, rfl⟩
    · rcases h with h | h
      · exact absurd h.1 e1
      · exact absurd h.2 z2
    · rcases h with h | h
      · exact absurd h.1 e1
      · exact absurd h.1 e2
  · refine ⟨rfl, rfl, rfl, rfl, rfl⟩

/-- Witness for C5: the last call of the scenario, where operand 1 yields 0
at level 1 on branch 0. -/
theorem BddAnd_terminal_absorption_witness :
    ∃ q, BddAnd.getChild scenario1 scenario2 ⟨1, 1, [(3, 1)], [(3, 1), (2, 1)]⟩ 1 0
      = some (0, q) :=
  BddAnd_terminal_absorption.2.1 _ _ scenario1 scenario2
    ⟨1, 1, [(3, 1)], [(3, 1), (2, 1)]⟩ 1 0 (by decide) (Or.inl ⟨rfl, rfl⟩)

/-- C6. OR terminal absorption.  In `BddOr::getRoot`, if the `get_root` of
either operand yields a negative code, the composite returns the negative
code -1.  In `BddOr::getChild` (entry assertion satisfied), if an operand
whose header level equals the level argument yields a negative code from
`get_child`, the composite returns -1, whatever the other operand's code
is. -/
theorem BddOr_terminal_absorption :
    (∀ (α β : Type) (s1 : DdSpec α) (s2 : DdSpec β) (p : BinState α β),
      (s1.get_root p.state1).1 < 0 ∨ (s2.get_root p.state2).1 < 0 →
      (BddOr.getRoot s1 s2 p).1 = -1) ∧
    (∀ (α β : Type) (s1 : DdSpec α) (s2 : DdSpec β) (p : BinState α β) (level take : Int),
      entryAssert p level →
      (p.level1 = level ∧ (s1.get_child p.state1 level take).1 < 0) ∨
        (p.level2 = level ∧ (s2.get_child p.state2 level take).1 < 0) →
      ∃ q, BddOr.getChild s1 s2 p level take = some (-1, q)) := by
  refine ⟨?_, ?_⟩
  · intro α β s1 s2 p h
    unfold BddOr.getRoot
    simp only [setState1, setState2, setLevel1, setLevel2]
    split_ifs with z1 z2
    · rfl
    · rfl
    · rcases h with h | h
      · exact absurd h z1
      · exact absurd h z2
  · intro α β s1 s2 p level take ha h
    rw [BddOr.or_getChild_eq s1 s2 p level take ha]
    unfold BddOr.getChildBody BddOr.getChildSnd
    simp only [setState1, setState2, setLevel1, setLevel2]
    split_ifs with e1 z1 e2 z2 e2 z2
    · exact ⟨_, rfl⟩
    · exact ⟨_, rfl⟩
    · rcases h with h | h
      · exact absurd h.2 z1
      · exact absurd h.2 z2
    · rcases h with h | h
      · exact absurd h.2 z1
      · exact absurd h.1 e2
    · exact ⟨_, rfl⟩
    · rcases h with h | h
      · exact absurd h.1 e1
      · exact absurd h.2 z2
    · rcases h with h | h
      · exact absurd h.1 e1
      · exact absurd h.1 e2

/-- Witness for C6: at level 1 on branch 0 operand 2 of the scenario yields
-1 while operand 1 yields 0, and `BddOr::getChild` returns -1. -/
theorem BddOr_terminal_absorption_witness :
    ∃ q, BddOr.getChild scenario1 scenario2 ⟨1, 1, [(3, 1)], [(3, 1), (2, 1)]⟩ 1 0
      = some (-1, q) :=
  BddOr_terminal_absorption.2 _ _ scenario1 scenario2
    ⟨1, 1, [(3, 1)], [(3, 1), (2, 1)]⟩ 1 0 (by decide) (Or.inr ⟨rfl, by decide⟩)

theorem unionCode_rule (c1 c2 : Int) : UnionTerminalRule (unionCode c1 c2) c1 c2 := by
  unfold UnionTerminalRule unionCode
  split_ifs with h1 h2
  · exact ⟨⟨fun _ => h1, fun _ => rfl⟩, ⟨fun h => by omega, fun h => by omega⟩,
      fun h => by omega⟩
  · exact ⟨⟨fun h => absurd h (by decide), fun h => absurd h h1⟩,
      ⟨fun _ => ⟨h2.1, h2.2, h1⟩, fun _ => by decide⟩, fun h => absurd h2 h⟩
  · exact ⟨⟨fun h => by omega, fun h => absurd h h1⟩,
      ⟨fun h => by omega, fun h => absurd ⟨h.1, h.2.1⟩ h2⟩, fun _ => ⟨by omega, rfl⟩⟩

/-- C7. ZDD-Union terminal rule.  For `ZddUnion::getRoot` with `c1`, `c2`
the codes of the two `get_root` calls, and for `ZddUnion::getChild` (entry
assertion satisfied) with `c1`, `c2` the operand codes after the advance
step (the code returned by an operand that was advanced, otherwise 0 on the
include branch and otherwise its stored header level), which `getChild`
stores in the two header fields: the result is 0 iff `c1 = 0` and `c2 = 0`,
negative iff `c1 ≤ 0`, `c2 ≤ 0` and not both are 0, and otherwise it is the
positive value `max c1 c2`. -/
theorem ZddUnion_terminal_rule :
    (∀ (α β : Type) (s1 : DdSpec α) (s2 : DdSpec β) (p : BinState α β),
      UnionTerminalRule (ZddUnion.getRoot s1 s2 p).1 (s1.get_root p.state1).1
        (s2.get_root p.state2).1) ∧
    (∀ (α β : Type) (s1 : DdSpec α) (s2 : DdSpec β) (p : BinState α β) (level take : Int),
      entryAssert p level →
      ∃ r q, ZddUnion.getChild s1 s2 p level take = some (r, q) ∧
        q.level1 = (if p.level1 = level then (s1.get_child p.state1 level take).1
          else if take ≠ 0 then 0 else p.level1) ∧
        q.level2 = (if p.level2 = level then (s2.get_child p.state2 level take).1
          else if take ≠ 0 then 0 else p.level2) ∧
        UnionTerminalRule r q.level1 q.level2) := by
  refine ⟨?_, ?_⟩
  · intro α β s1 s2 p
    rw [ZddUnion.getRoot_fst]
    exact unionCode_rule _ _
  · intro α β s1 s2 p level take ha
    refine ⟨unionCode
        (ZddUnion.advance2 s2 (ZddUnion.advance1 s1 p level take) level take).level1
        (ZddUnion.advance2 s2 (ZddUnion.advance1 s1 p level take) level take).level2,
      ZddUnion.advance2 s2 (ZddUnion.advance1 s1 p level take) level take,
      ?_, ?_, ?_, unionCode_rule _ _⟩
    · simp only [ZddUnion.getChild, ha, if_true]
      rw [ZddUnion.getChildBody_eq]
    · rw [ZddUnion.advance2_level1]
      have := congrArg Prod.fst (ZddUnion.advance1_eq s1 p level take)
      simp only at this
      rw [this]
      split_ifs <;> rfl
    · have := congrArg Prod.fst
        (ZddUnion.advance2_eq s2 (ZddUnion.advance1 s1 p level take) level take)
      simp only [ZddUnion.advance1_level2, ZddUnion.advance1_state2] at this
      rw [this]
      split_ifs <;> rfl

/-- Witness for C7: at level 2 on the include branch operand 1 of the
scenario waits at level 1 and is forced to 0, operand 2 is advanced to level
1, and `ZddUnion::getChild` returns the positive level `max 0 1`. -/
theorem ZddUnion_terminal_rule_witness :
    ∃ r q, ZddUnion.getChild scenario1 scenario2 ⟨1, 2, [(3, 1)], [(3, 1)]⟩ 2 1
        = some (r, q) ∧
      q.level1 = 0 ∧ q.level2 = 1 ∧ UnionTerminalRule r q.level1 q.level2 :=
  ZddUnion_terminal_rule.2 _ _ scenario1 scenario2 ⟨1, 2, [(3, 1)], [(3, 1)]⟩ 2 1
    (by decide)

/-! ## Level monotonicity -/

theorem ZddUnion.advance_levels (s1 : DdSpec σ₁) (s2 : DdSpec σ₂) (p : BinState σ₁ σ₂)
    (level take : Int) :
    (ZddUnion.advance2 s2 (ZddUnion.advance1 s1 p level take) level take).level1
        = (if p.level1 = level then (s1.get_child p.state1 level take).1
            else if take ≠ 0 then 0 else p.level1) ∧
      (ZddUnion.advance2 s2 (ZddUnion.advance1 s1 p level take) level take).level2
        = (if p.level2 = level then (s2.get_child p.state2 level take).1
            else if take ≠ 0 then 0 else p.level2) := by
  constructor
  · rw [ZddUnion.advance2_level1]
    have := congrArg Prod.fst (ZddUnion.advance1_eq s1 p level take)
    simp only at this
    rw [this]
    split_ifs <;> rfl
  · have := congrArg Prod.fst
      (ZddUnion.advance2_eq s2 (ZddUnion.advance1 s1 p level take) level take)
    simp only [ZddUnion.advance1_level2, ZddUnion.advance1_state2] at this
    rw [this]
    split_ifs <;> rfl

/-- Codes in the synchronisation loop: either both are decision levels
below `L`, or one of them is negative; a decision level returned by the loop
is then below `L`. -/
theorem ZddIntersection.sync_below (s1 : DdSpec σ₁) (s2 : DdSpec σ₂) (h1 : Descends s1)
    (h2 : Descends s2) (L : Int) :
    ∀ (F : Nat) (i1 i2 : Int) (p : IsectState σ₁ σ₂) (r : Int) (q : IsectState σ₁ σ₂),
      (0 < i1 ∧ i1 < L ∧ 0 < i2 ∧ i2 < L) ∨ i1 < 0 ∨ i2 < 0 →
      ZddIntersection.sync s1 s2 F i1 i2 p = some (r, q) → 0 < r → r < L := by
  intro F
  induction F with
  | zero =>
    intro i1 i2 p r q hi hs hr
    by_cases e : i1 = i2
    · simp only [ZddIntersection.sync, e, if_true, Option.some.injEq, Prod.mk.injEq] at hs
      omega
    · simp [ZddIntersection.sync, e] at hs
  | succ n ih =>
    intro i1 i2 p r q hi hs hr
    by_cases e : i1 = i2
    · simp only [ZddIntersection.sync, e, if_true, Option.some.injEq, Prod.mk.injEq] at hs
      omega
    · by_cases g : i1 > i2
      · simp only [ZddIntersection.sync, e, g, if_true, if_false] at hs
        by_cases z : (s1.get_child p.state1 i1 0).1 = 0
        · simp only [z, if_true, Option.some.injEq, Prod.mk.injEq] at hs
          omega
        · simp only [z, if_false] at hs
          refine ih _ _ _ r q ?_ hs hr
          rcases hi with hi | hi
          · have := h1 p.state1 i1 0 hi.1
            omega
          · omega
      · simp only [ZddIntersection.sync, e, g, if_false] at hs
        by_cases z : (s2.get_child p.state2 i2 0).1 = 0
        · simp only [z, if_true, Option.some.injEq, Prod.mk.injEq] at hs
          omega
        · simp only [z, if_false] at hs
          refine ih _ _ _ r q ?_ hs hr
          rcases hi with hi | hi
          · have := h2 p.state2 i2 0 hi.2.2.1
            omega
          · omega

/-- C8. Level monotonicity.  Let each operand's `get_child` report a code
strictly below the level it is called at, at every decision level and at
`level`.  Then for `BddAnd`, `BddOr` and `ZddUnion`, on every state that
satisfies the entry assertion `getChild(p, level, take)` returns, and a
positive code it returns is strictly less than `level`; and a positive code
returned by `ZddIntersection::getChild(p, level, take)` is strictly less
than `level`. -/
theorem getChild_level_monotone (s1 : DdSpec σ₁) (s2 : DdSpec σ₂) (level take : Int)
    (h1 : Descends s1) (h2 : Descends s2)
    (g1 : ∀ s b, (s1.get_child s level b).1 < level)
    (g2 : ∀ s b, (s2.get_child s level b).1 < level) :
    (∀ p : BinState σ₁ σ₂, entryAssert p level →
      ∃ r q, BddAnd.getChild s1 s2 p level take = some (r, q) ∧ (0 < r → r < level)) ∧
    (∀ p : BinState σ₁ σ₂, entryAssert p level →
      ∃ r q, BddOr.getChild s1 s2 p level take = some (r, q) ∧ (0 < r → r < level)) ∧
    (∀ p : BinState σ₁ σ₂, entryAssert p level →
      ∃ r q, ZddUnion.getChild s1 s2 p level take = some (r, q) ∧ (0 < r → r < level)) ∧
    (∀ (F : Nat) (p : IsectState σ₁ σ₂) (r : Int) (q : IsectState σ₁ σ₂),
      ZddIntersection.getChild s1 s2 F p level take = some (r, q) → 0 < r → r < level) := by
  refine ⟨?_, ?_, ?_, ?_⟩
  · intro p ha
    have a1 := ha.1
    have a2 := ha.2
    have c1 := g1 p.state1 take
    have c2 := g2 p.state2 take
    refine ⟨(BddAnd.getChildBody s1 s2 p level take).1,
      (BddAnd.getChildBody s1 s2 p level take).2,
      BddAnd.and_getChild_eq s1 s2 p level take ha, ?_⟩
    unfold BddAnd.getChildBody BddAnd.getChildSnd
    simp only [setState1, setState2, setLevel1, setLevel2]
    split_ifs <;> simp only <;> omega
  · intro p ha
    have a1 := ha.1
    have a2 := ha.2
    have c1 := g1 p.state1 take
    have c2 := g2 p.state2 take
    refine ⟨(BddOr.getChildBody s1 s2 p level take).1,
      (BddOr.getChildBody s1 s2 p level take).2,
      BddOr.or_getChild_eq s1 s2 p level take ha, ?_⟩
    unfold BddOr.getChildBody BddOr.getChildSnd
    simp only [setState1, setState2, setLevel1, setLevel2]
    split_ifs <;> simp only <;> omega
  · intro p ha
    have a1 := ha.1
    have a2 := ha.2
    have c1 := g1 p.state1 take
    have c2 := g2 p.state2 take
    refine ⟨(ZddUnion.getChildBody s1 s2 p level take).1,
      (ZddUnion.getChildBody s1 s2 p level take).2,
      by simp only [ZddUnion.getChild, ha, if_true], ?_⟩
    rw [ZddUnion.getChildBody_eq]
    obtain ⟨hx, hy⟩ := ZddUnion.advance_levels s1 s2 p level take
    have bx : (ZddUnion.advance2 s2 (ZddUnion.advance1 s1 p level take) level take).level1
        < level ∨
        (ZddUnion.advance2 s2 (ZddUnion.advance1 s1 p level take) level take).level1
          = 0 := by
      rw [hx]; split_ifs <;> omega
    have bY : (ZddUnion.advance2 s2 (ZddUnion.advance1 s1 p level take) level take).level2
        < level ∨
        (ZddUnion.advance2 s2 (ZddUnion.advance1 s1 p level take) level take).level2
          = 0 := by
      rw [hy]; split_ifs <;> omega
    simp only
    unfold unionCode
    split_ifs <;> omega
  · intro F p r q hs hr
    have c1 := g1 p.state1 take
    have c2 := g2 p.state2 take
    unfold ZddIntersection.getChild at hs
    simp only at hs
    by_cases z1 : (s1.get_child p.state1 level take).1 = 0
    · simp only [z1, if_true, Option.some.injEq, Prod.mk.injEq] at hs
      omega
    · by_cases z2 : (s2.get_child p.state2 level take).1 = 0
      · simp only [z1, z2, if_true, if_false, Option.some.injEq, Prod.mk.injEq] at hs
        omega
      · simp only [z1, z2, if_false] at hs
        exact ZddIntersection.sync_below s1 s2 h1 h2 level F _ _ _ r q (by omega) hs hr

/-- Witness for C8: the first step of the scenario, from level 3 to the
decision level 2. -/
theorem getChild_level_monotone_witness :
    Descends scenario1 ∧ Descends scenario2 ∧
    ∃ r q, BddAnd.getChild scenario1 scenario2 ⟨3, 3, [], []⟩ 3 1 = some (r, q) ∧
      (0 < r → r < 3) :=
  ⟨scenario1_descends, scenario2_descends,
    (getChild_level_monotone scenario1 scenario2 3 1 scenario1_descends scenario2_descends
      (fun s b => scenario1_descends s 3 b (by decide))
      (fun s b => scenario2_descends s 3 b (by decide))).1 ⟨3, 3, [], []⟩ (by decide)⟩

/-! ## Hashing, equality and copying -/

/-- C9. Hash/equality consistency.  If each operand's `equal_to` implies
equality of its `hash_code` at the same level, then for all composite
states `p`, `q` and every level, `equal_to(p, q, level) = true` implies
`hash_code(p, level) = hash_code(q, level)`, for the `BinaryOperation` base
(`BddAnd`, `BddOr`, `ZddUnion`) and for `ZddIntersection`, whatever the
width of `size_t`. -/
theorem hash_equal_consistent (s1 : DdSpec σ₁) (s2 : DdSpec σ₂)
    (c1 : ∀ a b l, s1.equal_to a b l = true → s1.hash_code a l = s1.hash_code b l)
    (c2 : ∀ a b l, s2.equal_to a b l = true → s2.hash_code a l = s2.hash_code b l) :
    (∀ (W : Nat) (p q : BinState σ₁ σ₂) (level : Int),
      BinaryOperation.equal_to s1 s2 p q level = true →
      BinaryOperation.hash_code W s1 s2 p level
        = BinaryOperation.hash_code W s1 s2 q level) ∧
    (∀ (W : Nat) (p q : IsectState σ₁ σ₂) (level : Int),
      ZddIntersection.equal_to s1 s2 p q level = true →
      ZddIntersection.hash_code W s1 s2 p level
        = ZddIntersection.hash_code W s1 s2 q level) := by
  refine ⟨?_, ?_⟩
  · intro W p q level h
    unfold BinaryOperation.equal_to at h
    split_ifs at h with e1 e2 n1 n2
    obtain ⟨pl1, pl2, pt1, pt2⟩ := p
    obtain ⟨ql1, ql2, qt1, qt2⟩ := q
    simp only [ne_eq, not_not] at e1 e2
    subst e1
    subst e2
    simp only [not_and, not_not] at n1 n2
    unfold BinaryOperation.hash_code
    simp only
    have k1 : pl1 > 0 → s1.hash_code pt1 pl1 = s1.hash_code qt1 pl1 :=
      fun hp => c1 _ _ _ (n1 hp)
    have k2 : pl2 > 0 → s2.hash_code pt2 pl2 = s2.hash_code qt2 pl2 :=
      fun hp => c2 _ _ _ (n2 hp)
    by_cases hp1 : pl1 > 0 <;> by_cases hp2 : pl2 > 0 <;> simp only [hp1, hp2, if_true, if_false]
    · rw [k1 hp1, k2 hp2]
    · rw [k1 hp1]
    · rw [k2 hp2]
  · intro W p q level h
    unfold ZddIntersection.equal_to at h
    rw [Bool.and_eq_true] at h
    unfold ZddIntersection.hash_code
    rw [c1 _ _ _ h.1, c2 _ _ _ h.2]

theorem scenario1_hash (a b : List (Int × Int)) (l : Int)
    (h : scenario1.equal_to a b l = true) : scenario1.hash_code a l = scenario1.hash_code b l := by
  simp only [scenario1, decide_eq_true_eq] at h ⊢
  rw [h]

theorem scenario2_hash (a b : List (Int × Int)) (l : Int)
    (h : scenario2.equal_to a b l = true) : scenario2.hash_code a l = scenario2.hash_code b l := by
  simp only [scenario2, decide_eq_true_eq] at h ⊢
  rw [h]

/-- Witness for C9: the scenario operands compare call logs and hash their
length.  Two composite states with headers 0 and 2 that agree on the log of
operand 2 and differ in the log of operand 1 are equal and have one hash. -/
theorem hash_equal_consistent_witness :
    BinaryOperation.equal_to scenario1 scenario2 ⟨0, 2, [(3, 1), (1, 0)], [(3, 1)]⟩
        ⟨0, 2, [], [(3, 1)]⟩ 2 = true ∧
      BinaryOperation.hash_code 8 scenario1 scenario2 ⟨0, 2, [(3, 1), (1, 0)], [(3, 1)]⟩ 2
        = BinaryOperation.hash_code 8 scenario1 scenario2 ⟨0, 2, [], [(3, 1)]⟩ 2 :=
  ⟨by decide,
    (hash_equal_consistent scenario1 scenario2 scenario1_hash scenario2_hash).1 8
      ⟨0, 2, [(3, 1), (1, 0)], [(3, 1)]⟩ ⟨0, 2, [], [(3, 1)]⟩ 2 (by decide)⟩

/-- C10. Copy then equal.  If each operand's `get_copy` produces a sub-state
that the operand's `equal_to` (source first, copy second) judges equal to
the source at every level, then for every composite state `buf1`, every
previous content `buf2` of the destination and every level, after
`get_copy(buf2, buf1)` the call `equal_to(buf1, buf2, level)` returns true,
and for the `BinaryOperation` base the two header level fields of `buf2`
equal those of `buf1`; this holds for the base and for `ZddIntersection`. -/
theorem copy_then_equal (s1 : DdSpec σ₁) (s2 : DdSpec σ₂)
    (k1 : ∀ to_ from_ l, s1.equal_to from_ (s1.get_copy to_ from_) l = true)
    (k2 : ∀ to_ from_ l, s2.equal_to from_ (s2.get_copy to_ from_) l = true) :
    (∀ (buf1 buf2 : BinState σ₁ σ₂) (level : Int),
      BinaryOperation.equal_to s1 s2 buf1 (BinaryOperation.get_copy s1 s2 buf2 buf1) level
        = true ∧
      (BinaryOperation.get_copy s1 s2 buf2 buf1).level1 = buf1.level1 ∧
      (BinaryOperation.get_copy s1 s2 buf2 buf1).level2 = buf1.level2) ∧
    (∀ (buf1 buf2 : IsectState σ₁ σ₂) (level : Int),
      ZddIntersection.equal_to s1 s2 buf1 (ZddIntersection.get_copy s1 s2 buf2 buf1) level
        = true) := by
  refine ⟨?_, ?_⟩
  · intro buf1 buf2 level
    refine ⟨?_, rfl, rfl⟩
    unfold BinaryOperation.equal_to BinaryOperation.get_copy
    simp only [setState1, setState2, setLevel1, setLevel2, ne_eq, not_true_eq_false, if_false,
      k1, k2, and_false]
  · intro buf1 buf2 level
    unfold ZddIntersection.equal_to ZddIntersection.get_copy
    simp only [k1, k2, Bool.and_self]

/-- Witness for C10: copying the composite state after the first step of
the scenario over an uninitialised buffer. -/
theorem copy_then_equal_witness :
    BinaryOperation.equal_to scenario1 scenario2 ⟨1, 2, [(3, 1)], [(3, 1)]⟩
        (BinaryOperation.get_copy scenario1 scenario2 blank ⟨1, 2, [(3, 1)], [(3, 1)]⟩) 2
        = true ∧
      (BinaryOperation.get_copy scenario1 scenario2 blank
        ⟨1, 2, [(3, 1)], [(3, 1)]⟩).level1 = 1 ∧
      (BinaryOperation.get_copy scenario1 scenario2 blank
        ⟨1, 2, [(3, 1)], [(3, 1)]⟩).level2 = 2 :=
  (copy_then_equal scenario1 scenario2
    (fun _ _ _ => by simp [scenario1]) (fun _ _ _ => by simp [scenario2])).1
    ⟨1, 2, [(3, 1)], [(3, 1)]⟩ blank 2

/-! ## Termination of the synchronisation loop -/

/-- On codes bounded below the synchronisation loop ends: each iteration
calls the operand with the strictly higher code, which is above the least
code, so that code drops. -/
theorem sync_total (s1 : DdSpec σ₁) (s2 : DdSpec σ₂) (B : Int)
    (h1 : DescendsAbove B s1) (h2 : DescendsAbove B s2) (b1 : BoundedBelow B s1)
    (b2 : BoundedBelow B s2) :
    ∀ (F : Nat) (i1 i2 : Int) (p : IsectState σ₁ σ₂), B ≤ i1 → B ≤ i2 →
      (i1 - B).toNat + (i2 - B).toNat ≤ F →
      ∃ r q, ZddIntersection.sync s1 s2 F i1 i2 p = some (r, q) := by
  intro F
  induction F with
  | zero =>
    intro i1 i2 p l1 l2 hF
    have e : i1 = i2 := by omega
    exact ⟨i1, p, by simp [ZddIntersection.sync, e]⟩
  | succ n ih =>
    intro i1 i2 p l1 l2 hF
    by_cases e : i1 = i2
    · exact ⟨i1, p, by simp [ZddIntersection.sync, e]⟩
    · by_cases g : i1 > i2
      · have hd := h1 p.state1 i1 0 (by omega)
        have hm := b1.2 p.state1 i1 0
        by_cases z : (s1.get_child p.state1 i1 0).1 = 0
        · exact ⟨0, { p with state1 := (s1.get_child p.state1 i1 0).2 },
            by simp [ZddIntersection.sync, e, g, z]⟩
        · obtain ⟨r, q, hs⟩ := ih (s1.get_child p.state1 i1 0).1 i2
            { p with state1 := (s1.get_child p.state1 i1 0).2 } hm l2 (by omega)
          refine ⟨r, q, ?_⟩
          simp only [ZddIntersection.sync, e, g, z, if_true, if_false]
          exact hs
      · have g' : i1 < i2 := by omega
        have hd := h2 p.state2 i2 0 (by omega)
        have hm := b2.2 p.state2 i2 0
        by_cases z : (s2.get_child p.state2 i2 0).1 = 0
        · exact ⟨0, { p with state2 := (s2.get_child p.state2 i2 0).2 },
            by simp [ZddIntersection.sync, e, g, z]⟩
        · obtain ⟨r, q, hs⟩ := ih i1 (s2.get_child p.state2 i2 0).1
            { p with state2 := (s2.get_child p.state2 i2 0).2 } l1 hm (by omega)
          refine ⟨r, q, ?_⟩
          simp only [ZddIntersection.sync, e, g, z, if_true, if_false]
          exact hs

theorem ceil_words (W n : Nat) (hW : 0 < W) :
    n ≤ W * ((n + W - 1) / W) ∧ (0 < n → W * ((n + W - 1) / W - 1) < n) ∧
      (n + W - 1) / W ≤ n := by
  have h1 : W * ((n + W - 1) / W) ≤ n + W - 1 := Nat.mul_div_le _ _
  have h2 : n + W - 1 < W * ((n + W - 1) / W) + W := by
    have := Nat.lt_div_mul_add (a := n + W - 1) hW
    rw [Nat.mul_comm] at this
    exact this
  refine ⟨by omega, ?_, ?_⟩
  · intro hn
    rw [Nat.mul_sub, Nat.mul_one]
    omega
  · rcases Nat.eq_zero_or_pos n with h0 | hn
    · subst h0
      have : (0 + W - 1) / W = 0 := Nat.div_eq_of_lt (by omega)
      omega
    · have hle : (n + W - 1) / W ≤ W * ((n + W - 1) / W) := Nat.le_mul_of_pos_left _ hW
      have : (n + W - 1) / W * 1 ≤ (n + W - 1) / W * W := Nat.mul_le_mul_left _ hW
      by_cases hq : (n + W - 1) / W = 0
      · omega
      · have h3 : W * ((n + W - 1) / W - 1) + W = W * ((n + W - 1) / W) := by
          rw [Nat.mul_sub, Nat.mul_one]
          have : W ≤ W * ((n + W - 1) / W) := Nat.le_mul_of_pos_right _ (by omega)
          omega
        have h4 : (n + W - 1) / W - 1 ≤ W * ((n + W - 1) / W - 1) :=
          Nat.le_mul_of_pos_left _ hW
        omega

theorem size_pow_facts (W I : Nat) (hIW : I ≤ W) (hW : 2 ≤ W) :
    2 * 2 ^ (8 * I - 1) ≤ 2 ^ (8 * W) ∧ 16 * W ≤ 2 ^ (8 * W) := by
  constructor
  · calc 2 * 2 ^ (8 * I - 1) = 2 ^ (8 * I - 1 + 1) := by rw [pow_succ]; ring
      _ ≤ 2 ^ (8 * W) := Nat.pow_le_pow_right (by decide) (by omega)
  · have h1 : W < 2 ^ W := Nat.lt_two_pow W
    have h2 : 2 ^ (8 * W) = 2 ^ W * 2 ^ (7 * W) := by rw [← pow_add]; congr 1; omega
    have h3 : 2 ^ 14 ≤ 2 ^ (7 * W) := Nat.pow_le_pow_right (by decide) (by omega)
    rw [h2]
    calc 16 * W ≤ W * 2 ^ 14 := by omega
      _ ≤ 2 ^ W * 2 ^ (7 * W) := Nat.mul_le_mul (le_of_lt h1) h3

theorem wordSize_eq (W I : Nat) (hIW : I ≤ W) (hW : 2 ≤ W) (n : Nat)
    (hn : n < 2 ^ (8 * I - 1)) : wordSize W (n : Int) = (n + W - 1) / W := by
  obtain ⟨p1, p2⟩ := size_pow_facts W I hIW hW
  unfold wordSize toSize
  have e : ((n : Int) % ((2 ^ (8 * W) : Nat) : Int)).toNat = n := by
    rw [← Int.natCast_mod, Int.toNat_natCast]
    exact Nat.mod_eq_of_lt (by omega)
  rw [e, Nat.mod_eq_of_lt (by omega)]

theorem levelWords_eq (W I : Nat) (hIW : I ≤ W) (hW : 2 ≤ W) :
    levelWords W I = (2 * I + W - 1) / W := by
  obtain ⟨p1, p2⟩ := size_pow_facts W I hIW hW
  unfold levelWords
  rw [Nat.mod_eq_of_lt (by omega)]

theorem wordSize_bounds (W I : Nat) (hIW : I ≤ W) (hW : 2 ≤ W) (n : Nat)
    (hn : n < 2 ^ (8 * I - 1)) :
    n ≤ W * wordSize W (n : Int) ∧ (0 < n → W * (wordSize W (n : Int) - 1) < n) ∧
      (0 < n → 1 ≤ wordSize W (n : Int)) ∧ 2 * wordSize W (n : Int) ≤ n + 2 := by
  rw [wordSize_eq W I hIW hW n hn]
  obtain ⟨c1, c2, c3⟩ := ceil_words W n (by omega)
  refine ⟨c1, c2, ?_, ?_⟩
  · intro h0
    apply Nat.pos_of_ne_zero
    intro hq
    rw [hq, Nat.mul_zero] at c1
    omega
  · rcases Nat.eq_zero_or_pos n with h0 | h0
    · omega
    · have := c2 h0
      have h5 : 2 * ((n + W - 1) / W - 1) ≤ W * ((n + W - 1) / W - 1) :=
        Nat.mul_le_mul_right _ hW
      omega

/-- C13. Packed layout geometry.  Let `size_t` have `W ≥ 2` bytes, `int`
have `I ≤ W` bytes, and `d1`, `d2` be non-negative `int` byte sizes (zero
allowed).  Then `wordSize(0) = 0`, and `wordSize(d)` is the least number of
`W`-byte words covering `d` bytes: `W * wordSize(d) ≥ d`, and `d > W *
(wordSize(d) - 1)` when `d > 0`.  The declared array size is `levelWords +
wordSize(d1) + wordSize(d2)` words.  In bytes, the header `int[2]` ends at
or before the start `W * levelWords` of region 1, region 1 with its `d1`
bytes ends at or before the start `W * (levelWords + wordSize(d1))` of
region 2, region 2 with its `d2` bytes ends inside the buffer, and both
regions start on word boundaries.  The word counts are at most the byte
sizes, so they fit the `int` that `wordSize` returns. -/
theorem layout_geometry (W I : Nat) (hIW : I ≤ W) (hW : 2 ≤ W) (d1 d2 : Int)
    (p1 : 0 ≤ d1) (q1 : d1 < 2 ^ (8 * I - 1)) (p2 : 0 ≤ d2) (q2 : d2 < 2 ^ (8 * I - 1)) :
    wordSize W 0 = 0 ∧
    (d1 ≤ W * wordSize W d1 ∧ (0 < d1 → (W : Int) * ((wordSize W d1 : Int) - 1) < d1)) ∧
    (d2 ≤ W * wordSize W d2 ∧ (0 < d2 → (W : Int) * ((wordSize W d2 : Int) - 1) < d2)) ∧
    (∀ k : Nat, d1 ≤ W * k → wordSize W d1 ≤ k) ∧
    (∀ k : Nat, d2 ≤ W * k → wordSize W d2 ≤ k) ∧
    arraySize W I d1 d2 = levelWords W I + wordSize W d1 + wordSize W d2 ∧
    2 * I ≤ W * state1Offset W I ∧
    (W * state1Offset W I : Int) + d1 ≤ W * state2Offset W I d1 ∧
    (W * state2Offset W I d1 : Int) + d2 ≤ W * arraySize W I d1 d2 ∧
    W ∣ W * state1Offset W I ∧ W ∣ W * state2Offset W I d1 ∧
    (wordSize W d1 : Int) ≤ d1 ∧ (wordSize W d2 : Int) ≤ d2 := by
  obtain ⟨n1, rfl⟩ := Int.eq_ofNat_of_zero_le p1
  obtain ⟨n2, rfl⟩ := Int.eq_ofNat_of_zero_le p2
  have q1' : n1 < 2 ^ (8 * I - 1) := by exact_mod_cast q1
  have q2' : n2 < 2 ^ (8 * I - 1) := by exact_mod_cast q2
  obtain ⟨a1, a2, a3, a4⟩ := wordSize_bounds W I hIW hW n1 q1'
  obtain ⟨b1, b2, b3, b4⟩ := wordSize_bounds W I hIW hW n2 q2'
  obtain ⟨f1, f2⟩ := size_pow_facts W I hIW hW
  have hl := levelWords_eq W I hIW hW
  obtain ⟨l1, _, _⟩ := ceil_words W (2 * I) (by omega)
  have l2 : levelWords W I ≤ 2 := by
    rw [hl]
    have : (2 * I + W - 1) / W < 3 := (Nat.div_lt_iff_lt_mul (by omega)).mpr (by omega)
    omega
  have hz : wordSize W 0 = 0 := by
    have := wordSize_eq W I hIW hW 0 (by positivity)
    simp only [Nat.cast_zero] at this
    rw [this]
    exact Nat.div_eq_of_lt (by omega)
  have least : ∀ (n k : Nat), n < 2 ^ (8 * I - 1) → n ≤ W * k → wordSize W (n : Int) ≤ k := by
    intro n k hn hk
    obtain ⟨_, c2, c3, _⟩ := wordSize_bounds W I hIW hW n hn
    rcases Nat.eq_zero_or_pos n with h0 | h0
    · subst h0; simp only [Nat.cast_zero]; omega
    · by_contra hlt
      have h6 : W * k ≤ W * (wordSize W (n : Int) - 1) := Nat.mul_le_mul_left _ (by omega)
      have := c2 h0
      omega
  have harr : arraySize W I (n1 : Int) (n2 : Int)
      = levelWords W I + wordSize W (n1 : Int) + wordSize W (n2 : Int) := by
    unfold arraySize
    exact Nat.mod_eq_of_lt (by omega)
  have w1 : wordSize W (n1 : Int) ≤ n1 := by
    rw [wordSize_eq W I hIW hW n1 q1']; exact (ceil_words W n1 (by omega)).2.2
  have w2 : wordSize W (n2 : Int) ≤ n2 := by
    rw [wordSize_eq W I hIW hW n2 q2']; exact (ceil_words W n2 (by omega)).2.2
  have cast1 : ∀ n : Nat, 0 < (n : Int) → 1 ≤ wordSize W (n : Int) →
      W * (wordSize W (n : Int) - 1) < n →
      (W : Int) * ((wordSize W (n : Int) : Int) - 1) < (n : Int) := by
    intro n _ h1 h2
    have : ((W * (wordSize W (n : Int) - 1) : Nat) : Int) < (n : Int) := by exact_mod_cast h2
    rw [Nat.cast_mul, Nat.cast_sub h1] at this
    simpa using this
  refine ⟨hz, ⟨by exact_mod_cast a1, fun h => ?_⟩, ⟨by exact_mod_cast b1, fun h => ?_⟩,
    fun k hk => least n1 k q1' (by exact_mod_cast hk),
    fun k hk => least n2 k q2' (by exact_mod_cast hk), harr, ?_, ?_, ?_,
    Dvd.intro _ rfl, Dvd.intro _ rfl, by exact_mod_cast w1, by exact_mod_cast w2⟩
  · have h0 : 0 < n1 := by exact_mod_cast h
    exact cast1 n1 h (a3 h0) (a2 h0)
  · have h0 : 0 < n2 := by exact_mod_cast h
    exact cast1 n2 h (b3 h0) (b2 h0)
  · unfold state1Offset
    rw [hl]
    exact l1
  · unfold state1Offset state2Offset
    have : W * levelWords W I + n1 ≤ W * (levelWords W I + wordSize W (n1 : Int)) := by
      rw [Nat.mul_add]; omega
    exact_mod_cast this
  · unfold state2Offset
    rw [harr]
    have : W * (levelWords W I + wordSize W (n1 : Int)) + n2
        ≤ W * (levelWords W I + wordSize W (n1 : Int) + wordSize W (n2 : Int)) := by
      rw [Nat.mul_add (W) (levelWords W I + wordSize W (n1 : Int))]; omega
    exact_mod_cast this

/-- Witness for C13: the usual 8-byte `size_t` and 4-byte `int`, with a
stateless operand 1 and an operand 2 of 9 bytes: one header word, no word
for operand 1, two words for operand 2. -/
theorem layout_geometry_witness :
    arraySize 8 4 0 9 = 3 ∧ state1Offset 8 4 = 1 ∧ state2Offset 8 4 0 = 1 ∧
    wordSize 8 0 = 0 ∧
    arraySize 8 4 0 9 = levelWords 8 4 + wordSize 8 0 + wordSize 8 9 ∧
    ((8 * state2Offset 8 4 0 : Nat) : Int) + 9 ≤ (8 * arraySize 8 4 0 9 : Nat) :=
  ⟨by decide, by decide, by decide,
    (layout_geometry 8 4 (by decide) (by decide) 0 9 (by decide) (by decide) (by decide)
      (by decide)).1,
    (layout_geometry 8 4 (by decide) (by decide) 0 9 (by decide) (by decide) (by decide)
      (by decide)).2.2.2.2.2.1,
    by
      have := (layout_geometry 8 4 (by decide) (by decide) 0 9 (by decide) (by decide)
        (by decide) (by decide)).2.2.2.2.2.2.2.2.1
      exact_mod_cast this⟩

/-! ## Terminal-valued and waiting operands -/

/-- C14. Terminal-valued operands are compared and hashed without their
sub-state.  For the `BinaryOperation` base, when the header level of
operand 1 is not positive, `equal_to` and `hash_code` keep their value when
the sub-states of operand 1 are replaced by any others and when operand 1's
own `equal_to` / `hash_code` are replaced (another spec `s1'`); likewise for
operand 2.  In particular two states with equal headers that are both
non-positive are equal and have equal hashes, whatever their sub-states
contain. -/
theorem terminal_operand_ignored :
    (∀ (α β : Type) (s1 s1' : DdSpec α) (s2 : DdSpec β) (W : Nat) (p q : BinState α β)
        (t t' : α) (level : Int), p.level1 ≤ 0 →
      BinaryOperation.equal_to s1' s2 (setState1 p t) (setState1 q t') level
          = BinaryOperation.equal_to s1 s2 p q level ∧
        BinaryOperation.hash_code W s1' s2 (setState1 p t) level
          = BinaryOperation.hash_code W s1 s2 p level) ∧
    (∀ (α β : Type) (s1 : DdSpec α) (s2 s2' : DdSpec β) (W : Nat) (p q : BinState α β)
        (t t' : β) (level : Int), p.level2 ≤ 0 →
      BinaryOperation.equal_to s1 s2' (setState2 p t) (setState2 q t') level
          = BinaryOperation.equal_to s1 s2 p q level ∧
        BinaryOperation.hash_code W s1 s2' (setState2 p t) level
          = BinaryOperation.hash_code W s1 s2 p level) ∧
    (∀ (α β : Type) (s1 : DdSpec α) (s2 : DdSpec β) (W : Nat) (p q : BinState α β)
        (level : Int), p.level1 = q.level1 → p.level2 = q.level2 → p.level1 ≤ 0 →
        p.level2 ≤ 0 →
      BinaryOperation.equal_to s1 s2 p q level = true ∧
        BinaryOperation.hash_code W s1 s2 p level
          = BinaryOperation.hash_code W s1 s2 q level) := by
  refine ⟨?_, ?_, ?_⟩
  · intro α β s1 s1' s2 W p q t t' level h
    have hn : ¬ p.level1 > 0 := by omega
    constructor
    · simp only [BinaryOperation.equal_to, setState1, hn, false_and, if_false]
    · simp only [BinaryOperation.hash_code, setState1, hn, if_false]
  · intro α β s1 s2 s2' W p q t t' level h
    have hn : ¬ p.level2 > 0 := by omega
    constructor
    · simp only [BinaryOperation.equal_to, setState2, hn, false_and, if_false]
    · simp only [BinaryOperation.hash_code, setState2, hn, if_false]
  · intro α β s1 s2 W p q level e1 e2 h1 h2
    have hn1 : ¬ p.level1 > 0 := by omega
    have hn2 : ¬ p.level2 > 0 := by omega
    have hm1 : ¬ q.level1 > 0 := by omega
    have hm2 : ¬ q.level2 > 0 := by omega
    constructor
    · simp [BinaryOperation.equal_to, e1, e2, hm1, hm2]
    · simp only [BinaryOperation.hash_code, hn1, hn2, hm1, hm2, if_false, e1, e2]

/-- Witness for C14: two states of the scenario with headers 0 and -1 and
different call logs are equal and have one hash. -/
theorem terminal_operand_ignored_witness :
    BinaryOperation.equal_to scenario1 scenario2 ⟨0, -1, [(3, 1), (1, 0)], [(3, 1)]⟩
        ⟨0, -1, [], []⟩ 1 = true ∧
      BinaryOperation.hash_code 8 scenario1 scenario2 ⟨0, -1, [(3, 1), (1, 0)], [(3, 1)]⟩ 1
        = BinaryOperation.hash_code 8 scenario1 scenario2 ⟨0, -1, [], []⟩ 1 :=
  terminal_operand_ignored.2.2 _ _ scenario1 scenario2 8
    ⟨0, -1, [(3, 1), (1, 0)], [(3, 1)]⟩ ⟨0, -1, [], []⟩ 1 rfl rfl (by decide) (by decide)

/-- C16. Waiting operands are left untouched by `getChild`.  For `BddAnd`,
`BddOr` and `ZddUnion`, on a state that satisfies the entry assertion, an
operand whose header level is strictly below `level` is not called: the
result is the same whatever that operand's spec is (another spec `s1'` or
`s2'` in its place), its sub-state is unchanged, and its header level field
is unchanged, except in `ZddUnion` with a nonzero `take`, where it becomes
0. -/
theorem waiting_operand_untouched :
    (∀ (α β : Type) (s1 s1' : DdSpec α) (s2 : DdSpec β) (p : BinState α β)
        (level take : Int), entryAssert p level → p.level1 < level →
      BddAnd.getChild s1 s2 p level take = BddAnd.getChild s1' s2 p level take ∧
      ∃ r q, BddAnd.getChild s1 s2 p level take = some (r, q) ∧
        q.state1 = p.state1 ∧ q.level1 = p.level1) ∧
    (∀ (α β : Type) (s1 : DdSpec α) (s2 s2' : DdSpec β) (p : BinState α β)
        (level take : Int), entryAssert p level → p.level2 < level →
      BddAnd.getChild s1 s2 p level take = BddAnd.getChild s1 s2' p level take ∧
      ∃ r q, BddAnd.getChild s1 s2 p level take = some (r, q) ∧
        q.state2 = p.state2 ∧ q.level2 = p.level2) ∧
    (∀ (α β : Type) (s1 s1' : DdSpec α) (s2 : DdSpec β) (p : BinState α β)
        (level take : Int), entryAssert p level → p.level1 < level →
      BddOr.getChild s1 s2 p level take = BddOr.getChild s1' s2 p level take ∧
      ∃ r q, BddOr.getChild s1 s2 p level take = some (r, q) ∧
        q.state1 = p.state1 ∧ q.level1 = p.level1) ∧
    (∀ (α β : Type) (s1 : DdSpec α) (s2 s2' : DdSpec β) (p : BinState α β)
        (level take : Int), entryAssert p level → p.level2 < level →
      BddOr.getChild s1 s2 p level take = BddOr.getChild s1 s2' p level take ∧
      ∃ r q, BddOr.getChild s1 s2 p level take = some (r, q) ∧
        q.state2 = p.state2 ∧ q.level2 = p.level2) ∧
    (∀ (α β : Type) (s1 s1' : DdSpec α) (s2 : DdSpec β) (p : BinState α β)
        (level take : Int), entryAssert p level → p.level1 < level →
      ZddUnion.getChild s1 s2 p level take = ZddUnion.getChild s1' s2 p level take ∧
      ∃ r q, ZddUnion.getChild s1 s2 p level take = some (r, q) ∧
        q.state1 = p.state1 ∧ q.level1 = (if take ≠ 0 then 0 else p.level1)) ∧
    (∀ (α β : Type) (s1 : DdSpec α) (s2 s2' : DdSpec β) (p : BinState α β)
        (level take : Int), entryAssert p level → p.level2 < level →
      ZddUnion.getChild s1 s2 p level take = ZddUnion.getChild s1 s2' p level take ∧
      ∃ r q, ZddUnion.getChild s1 s2 p level take = some (r, q) ∧
        q.state2 = p.state2 ∧ q.level2 = (if take ≠ 0 then 0 else p.level2)) := by
  refine ⟨?_, ?_, ?_, ?_, ?_, ?_⟩
  · intro α β s1 s1' s2 p level take ha hl
    have hne : ¬ p.level1 = level := by omega
    refine ⟨by simp only [BddAnd.getChild, BddAnd.getChildBody, hne, if_false],
      (BddAnd.getChildBody s1 s2 p level take).1, (BddAnd.getChildBody s1 s2 p level take).2,
      BddAnd.and_getChild_eq s1 s2 p level take ha, ?_⟩
    simp only [BddAnd.getChildBody, BddAnd.getChildSnd, hne, if_false, setState2, setLevel2]
    split_ifs <;> exact ⟨rfl, rfl⟩
  · intro α β s1 s2 s2' p level take ha hl
    have hne : ¬ p.level2 = level := by omega
    refine ⟨by simp only [BddAnd.getChild, BddAnd.getChildBody, BddAnd.getChildSnd,
        setState1, setLevel1, hne, if_false],
      (BddAnd.getChildBody s1 s2 p level take).1, (BddAnd.getChildBody s1 s2 p level take).2,
      BddAnd.and_getChild_eq s1 s2 p level take ha, ?_⟩
    simp only [BddAnd.getChildBody, BddAnd.getChildSnd, hne, if_false, setState1, setLevel1]
    split_ifs <;> exact ⟨rfl, rfl⟩
  · intro α β s1 s1' s2 p level take ha hl
    have hne : ¬ p.level1 = level := by omega
    refine ⟨by simp only [BddOr.getChild, BddOr.getChildBody, hne, if_false],
      (BddOr.getChildBody s1 s2 p level take).1, (BddOr.getChildBody s1 s2 p level take).2,
      BddOr.or_getChild_eq s1 s2 p level take ha, ?_⟩
    simp only [BddOr.getChildBody, BddOr.getChildSnd, hne, if_false, setState2, setLevel2]
    split_ifs <;> exact ⟨rfl, rfl⟩
  · intro α β s1 s2 s2' p level take ha hl
    have hne : ¬ p.level2 = level := by omega
    refine ⟨by simp only [BddOr.getChild, BddOr.getChildBody, BddOr.getChildSnd,
        setState1, setLevel1, hne, if_false],
      (BddOr.getChildBody s1 s2 p level take).1, (BddOr.getChildBody s1 s2 p level take).2,
      BddOr.or_getChild_eq s1 s2 p level take ha, ?_⟩
    simp only [BddOr.getChildBody, BddOr.getChildSnd, hne, if_false, setState1, setLevel1]
    split_ifs <;> exact ⟨rfl, rfl⟩
  · intro α β s1 s1' s2 p level take ha hl
    have hne : ¬ p.level1 = level := by omega
    refine ⟨by simp only [ZddUnion.getChild, ZddUnion.getChildBody, ZddUnion.advance1, hne,
        if_false],
      (ZddUnion.getChildBody s1 s2 p level take).1,
      (ZddUnion.getChildBody s1 s2 p level take).2,
      by simp only [ZddUnion.getChild, ha, if_true], ?_⟩
    rw [ZddUnion.getChildBody_eq]
    simp only [ZddUnion.advance2_state1, ZddUnion.advance2_level1]
    simp only [ZddUnion.advance1, hne, if_false, setLevel1]
    split_ifs <;> exact ⟨rfl, rfl⟩
  · intro α β s1 s2 s2' p level take ha hl
    have hne : ¬ p.level2 = level := by omega
    have hne' : ¬ (ZddUnion.advance1 s1 p level take).level2 = level := by
      rw [ZddUnion.advance1_level2]; exact hne
    refine ⟨by simp only [ZddUnion.getChild, ZddUnion.getChildBody, ZddUnion.advance2, hne',
        if_false],
      (ZddUnion.getChildBody s1 s2 p level take).1,
      (ZddUnion.getChildBody s1 s2 p level take).2,
      by simp only [ZddUnion.getChild, ha, if_true], ?_⟩
    rw [ZddUnion.getChildBody_eq]
    simp only [ZddUnion.advance2, hne', if_false, setLevel2]
    split_ifs
    · exact ⟨ZddUnion.advance1_state2 s1 p level take, rfl⟩
    · exact ⟨ZddUnion.advance1_state2 s1 p level take, ZddUnion.advance1_level2 s1 p level take⟩

/-- Witness for C16: at level 2 of the scenario operand 1 waits at level 1;
`BddAnd::getChild` leaves its call log and header unchanged. -/
theorem waiting_operand_untouched_witness :
    ∃ r q, BddAnd.getChild scenario1 scenario2 ⟨1, 2, [(3, 1)], [(3, 1)]⟩ 2 1 = some (r, q) ∧
      q.state1 = [(3, 1)] ∧ q.level1 = 1 :=
  (waiting_operand_untouched.1 _ _ scenario1 scenario1 scenario2
    ⟨1, 2, [(3, 1)], [(3, 1)]⟩ 2 1 (by decide) (by decide)).2

/-! ## Returned level and stored headers -/

theorem returnedMax_of_eq (s1 : DdSpec σ₁) (s2 : DdSpec σ₂) (r : Int) (q : BinState σ₁ σ₂)
    (h : r = max q.level1 q.level2) : ReturnedMax s1 s2 r q := by
  refine ⟨h, ⟨by omega, by omega⟩, fun b => ?_⟩
  simp only [entryAssert, BinaryOperation.get_copy, setState1, setState2, setLevel1,
    setLevel2]
  omega

/-- C18. The returned level is the maximum of the stored headers, so the
entry assertion holds.  For `BddAnd`, `BddOr` and `ZddUnion`: when `getRoot`
returns a decision level `r > 0`, the two header fields hold the two
operand root codes; and when `getRoot` or `getChild` returns a decision
level `r > 0` with state `q`, then `r = max(level1(q), level2(q))`, and `q`
and every `get_copy` of `q` satisfy the assertion `level1 ≤ r` and `level2 ≤
r` at the start of `getChild(q, r, branch)`. -/
theorem returned_level_is_max (s1 : DdSpec σ₁) (s2 : DdSpec σ₂) :
    (∀ (p q : BinState σ₁ σ₂) (r : Int), BddAnd.getRoot s1 s2 p = (r, q) → 0 < r →
      q.level1 = (s1.get_root p.state1).1 ∧ q.level2 = (s2.get_root p.state2).1 ∧
        ReturnedMax s1 s2 r q) ∧
    (∀ (p q : BinState σ₁ σ₂) (level take r : Int),
      BddAnd.getChild s1 s2 p level take = some (r, q) → 0 < r → ReturnedMax s1 s2 r q) ∧
    (∀ (p q : BinState σ₁ σ₂) (r : Int), BddOr.getRoot s1 s2 p = (r, q) → 0 < r →
      q.level1 = (s1.get_root p.state1).1 ∧ q.level2 = (s2.get_root p.state2).1 ∧
        ReturnedMax s1 s2 r q) ∧
    (∀ (p q : BinState σ₁ σ₂) (level take r : Int),
      BddOr.getChild s1 s2 p level take = some (r, q) → 0 < r → ReturnedMax s1 s2 r q) ∧
    (∀ (p q : BinState σ₁ σ₂) (r : Int), ZddUnion.getRoot s1 s2 p = (r, q) → 0 < r →
      q.level1 = (s1.get_root p.state1).1 ∧ q.level2 = (s2.get_root p.state2).1 ∧
        ReturnedMax s1 s2 r q) ∧
    (∀ (p q : BinState σ₁ σ₂) (level take r : Int),
      ZddUnion.getChild s1 s2 p level take = some (r, q) → 0 < r →
        ReturnedMax s1 s2 r q) := by
  refine ⟨?_, ?_, ?_, ?_, ?_, ?_⟩
  · intro p q r h hr
    simp only [BddAnd.getRoot, setState1, setState2, setLevel1, setLevel2] at h
    split_ifs at h <;> obtain ⟨rfl, rfl⟩ := Prod.mk.inj h
    · omega
    · omega
    · exact ⟨rfl, rfl, returnedMax_of_eq s1 s2 _ _ rfl⟩
  · intro p q level take r h hr
    simp only [BddAnd.getChild, BddAnd.getChildBody, BddAnd.getChildSnd, setState1,
      setState2, setLevel1, setLevel2] at h
    split_ifs at h <;> obtain ⟨rfl, rfl⟩ := Prod.mk.inj (Option.some.inj h) <;>
      first | omega | exact returnedMax_of_eq s1 s2 _ _ rfl
  · intro p q r h hr
    simp only [BddOr.getRoot, setState1, setState2, setLevel1, setLevel2] at h
    split_ifs at h <;> obtain ⟨rfl, rfl⟩ := Prod.mk.inj h
    · omega
    · omega
    · exact ⟨rfl, rfl, returnedMax_of_eq s1 s2 _ _ rfl⟩
  · intro p q level take r h hr
    simp only [BddOr.getChild, BddOr.getChildBody, BddOr.getChildSnd, setState1,
      setState2, setLevel1, setLevel2] at h
    split_ifs at h <;> obtain ⟨rfl, rfl⟩ := Prod.mk.inj (Option.some.inj h) <;>
      first | omega | exact returnedMax_of_eq s1 s2 _ _ rfl
  · intro p q r h hr
    simp only [ZddUnion.getRoot, setState1, setState2, setLevel1, setLevel2] at h
    split_ifs at h <;> obtain ⟨rfl, rfl⟩ := Prod.mk.inj h
    · omega
    · omega
    · exact ⟨rfl, rfl, returnedMax_of_eq s1 s2 _ _ rfl⟩
  · intro p q level take r h hr
    by_cases ha : entryAssert p level
    · simp only [ZddUnion.getChild, ha, if_true, ZddUnion.getChildBody_eq,
        Option.some.injEq, Prod.mk.injEq] at h
      obtain ⟨h1, h2⟩ := h
      rw [h2] at h1
      apply returnedMax_of_eq
      rw [← h1] at hr ⊢
      unfold unionCode at hr ⊢
      split_ifs at hr ⊢ <;> omega
    · simp [ZddUnion.getChild, ha] at h

/-- Witness for C18: the first step of the scenario returns the decision
level 2, the maximum of the stored headers 1 and 2. -/
theorem returned_level_is_max_witness :
    ReturnedMax scenario1 scenario2 2 ⟨1, 2, [(3, 1)], [(3, 1)]⟩ :=
  (returned_level_is_max scenario1 scenario2).2.1 ⟨3, 3, [], []⟩
    ⟨1, 2, [(3, 1)], [(3, 1)]⟩ 3 1 2 rfl (by decide)

/-! ## Headers on a short-circuit return -/

/-- C19 (as stated) fails in `getChild` when operand 1 is advanced and
operand 2 then reports the absorbing terminal.  From the root state with
both headers 3, `BddAnd::getChild` at level 3 on branch 0 advances operand 1
(every subset of 1, 2, 3) to level 2, stores it, and returns 0 because
operand 2 reports 0: header 1 is 2 after the call and was 3 before it.
Likewise `BddOr::getChild` on branch 1 stores 1 in header 1 and returns -1
because operand 2 reports -1. -/
theorem short_circuit_after_store :
    (BddAnd.getRoot allSets scenario1 ⟨0, 0, (), []⟩ = (3, ⟨3, 3, (), []⟩) ∧
      (scenario1.get_child [] 3 0).1 = 0 ∧
      BddAnd.getChild allSets scenario1 ⟨3, 3, (), []⟩ 3 0
        = some (0, ⟨2, 3, (), [(3, 0)]⟩)) ∧
    (BddOr.getRoot scenario1 trueBelow ⟨0, 0, [], ()⟩ = (3, ⟨3, 3, [], ()⟩) ∧
      (trueBelow.get_child () 3 1).1 = -1 ∧
      BddOr.getChild scenario1 trueBelow ⟨3, 3, [], ()⟩ 3 1
        = some (-1, ⟨1, 3, [(3, 1)], ()⟩)) :=
  ⟨⟨rfl, rfl, rfl⟩, rfl, rfl, rfl⟩

/-- C19 (amended).  For `BddAnd` (absorbing terminal 0) and `BddOr`
(absorbing terminal negative, returned as -1): when `getRoot`
short-circuits, both header level fields are the same after the call as
before it; when `getChild` short-circuits because operand 1 reported the
absorbing terminal, both header fields are unchanged; when `getChild`
short-circuits because operand 2 reported it, header 2 is unchanged and
header 1 holds the code operand 1 reported in this call if operand 1 was
advanced, and is unchanged otherwise. -/
theorem short_circuit_headers (s1 : DdSpec σ₁) (s2 : DdSpec σ₂) :
    (∀ p : BinState σ₁ σ₂,
      (s1.get_root p.state1).1 = 0 ∨ (s2.get_root p.state2).1 = 0 →
      (BddAnd.getRoot s1 s2 p).1 = 0 ∧ (BddAnd.getRoot s1 s2 p).2.level1 = p.level1 ∧
        (BddAnd.getRoot s1 s2 p).2.level2 = p.level2) ∧
    (∀ (p : BinState σ₁ σ₂) (level take : Int), entryAssert p level →
      p.level1 = level → (s1.get_child p.state1 level take).1 = 0 →
      ∃ q, BddAnd.getChild s1 s2 p level take = some (0, q) ∧
        q.level1 = p.level1 ∧ q.level2 = p.level2) ∧
    (∀ (p : BinState σ₁ σ₂) (level take : Int), entryAssert p level →
      ¬ (p.level1 = level ∧ (s1.get_child p.state1 level take).1 = 0) →
      p.level2 = level → (s2.get_child p.state2 level take).1 = 0 →
      ∃ q, BddAnd.getChild s1 s2 p level take = some (0, q) ∧ q.level2 = p.level2 ∧
        q.level1 = (if p.level1 = level then (s1.get_child p.state1 level take).1
          else p.level1)) ∧
    (∀ p : BinState σ₁ σ₂,
      (s1.get_root p.state1).1 < 0 ∨ (s2.get_root p.state2).1 < 0 →
      (BddOr.getRoot s1 s2 p).1 = -1 ∧ (BddOr.getRoot s1 s2 p).2.level1 = p.level1 ∧
        (BddOr.getRoot s1 s2 p).2.level2 = p.level2) ∧
    (∀ (p : BinState σ₁ σ₂) (level take : Int), entryAssert p level →
      p.level1 = level → (s1.get_child p.state1 level take).1 < 0 →
      ∃ q, BddOr.getChild s1 s2 p level take = some (-1, q) ∧
        q.level1 = p.level1 ∧ q.level2 = p.level2) ∧
    (∀ (p : BinState σ₁ σ₂) (level take : Int), entryAssert p level →
      ¬ (p.level1 = level ∧ (s1.get_child p.state1 level take).1 < 0) →
      p.level2 = level → (s2.get_child p.state2 level take).1 < 0 →
      ∃ q, BddOr.getChild s1 s2 p level take = some (-1, q) ∧ q.level2 = p.level2 ∧
        q.level1 = (if p.level1 = level then (s1.get_child p.state1 level take).1
          else p.level1)) := by
  refine ⟨?_, ?_, ?_, ?_, ?_, ?_⟩
  · intro p h
    simp only [BddAnd.getRoot, setState1, setState2, setLevel1, setLevel2]
    split_ifs with z1 z2
    · exact ⟨rfl, rfl, rfl⟩
    · exact ⟨rfl, rfl, rfl⟩
    · rcases h with h | h
      · exact absurd h z1
      · exact absurd h z2
  · intro p level take ha e z
    refine ⟨setState1 p (s1.get_child p.state1 level take).2, ?_, rfl, rfl⟩
    rw [BddAnd.and_getChild_eq s1 s2 p level take ha]
    simp only [BddAnd.getChildBody, e, z, if_true]
  · intro p level take ha hn e z
    rw [BddAnd.and_getChild_eq s1 s2 p level take ha]
    simp only [BddAnd.getChildBody, BddAnd.getChildSnd, setState1, setState2, setLevel1,
      setLevel2, e, z, if_true]
    split_ifs with e1 z1
    · exact absurd ⟨e1, z1⟩ hn
    · exact ⟨_, rfl, rfl, rfl⟩
    · exact ⟨_, rfl, rfl, rfl⟩
  · intro p h
    simp only [BddOr.getRoot, setState1, setState2, setLevel1, setLevel2]
    split_ifs with z1 z2
    · exact ⟨rfl, rfl, rfl⟩
    · exact ⟨rfl, rfl, rfl⟩
    · rcases h with h | h
      · exact absurd h z1
      · exact absurd h z2
  · intro p level take ha e z
    refine ⟨setState1 p (s1.get_child p.state1 level take).2, ?_, rfl, rfl⟩
    rw [BddOr.or_getChild_eq s1 s2 p level take ha]
    simp only [BddOr.getChildBody, e, z, if_true]
  · intro p level take ha hn e z
    rw [BddOr.or_getChild_eq s1 s2 p level take ha]
    simp only [BddOr.getChildBody, BddOr.getChildSnd, setState1, setState2, setLevel1,
      setLevel2, e, z, if_true]
    split_ifs with e1 z1
    · exact absurd ⟨e1, z1⟩ hn
    · exact ⟨_, rfl, rfl, rfl⟩
    · exact ⟨_, rfl, rfl, rfl⟩

/-- Witness for C19 (amended): the last call of the scenario, where operand
1 reports 0 and both headers stay 1. -/
theorem short_circuit_headers_witness :
    ∃ q, BddAnd.getChild scenario1 scenario2 ⟨1, 1, [(3, 1)], [(3, 1), (2, 1)]⟩ 1 0
        = some (0, q) ∧ q.level1 = 1 ∧ q.level2 = 1 :=
  (short_circuit_headers scenario1 scenario2).2.1 ⟨1, 1, [(3, 1)], [(3, 1), (2, 1)]⟩ 1 0
    (by decide) rfl rfl

/-! ## Result and step count of the synchronisation loop -/

theorem syncLog_dropLog (s1 : DdSpec σ₁) (s2 : DdSpec σ₂) :
    ∀ (F : Nat) (i1 i2 : Int) (p : IsectState σ₁ σ₂),
      (ZddIntersection.syncLog s1 s2 F i1 i2 p).map dropLog
        = ZddIntersection.sync s1 s2 F i1 i2 p := by
  intro F
  induction F with
  | zero =>
    intro i1 i2 p
    simp only [ZddIntersection.syncLog, ZddIntersection.sync]
    split_ifs <;> rfl
  | succ n ih =>
    intro i1 i2 p
    simp only [ZddIntersection.syncLog, ZddIntersection.sync]
    split_ifs
    · rfl
    · rfl
    · rw [← ih]
      cases ZddIntersection.syncLog s1 s2 n (s1.get_child p.state1 i1 0).1 i2
        { p with state1 := (s1.get_child p.state1 i1 0).2 } <;> rfl
    · rfl
    · rw [← ih]
      cases ZddIntersection.syncLog s1 s2 n i1 (s2.get_child p.state2 i2 0).1
        { p with state2 := (s2.get_child p.state2 i2 0).2 } <;> rfl

theorem lastCode_cons (k : Nat) (e : OpCall) (rest : List OpCall) (d : Int) :
    (lastCode k (e :: rest)).getD d
      = (lastCode k rest).getD (if e.operand = k then e.code else d) := by
  simp only [lastCode]
  cases lastCode k rest with
  | none => split_ifs <;> rfl
  | some c => rfl

theorem lastCode_cons_same (k : Nat) (e : OpCall) (rest : List OpCall)
    (h : e.operand = k) : lastCode k (e :: rest) = some ((lastCode k rest).getD e.code) := by
  simp only [lastCode]
  cases lastCode k rest with
  | none => simp [h]
  | some c => rfl

theorem lastCode_cons_other (k : Nat) (e : OpCall) (rest : List OpCall)
    (h : e.operand ≠ k) : lastCode k (e :: rest) = lastCode k rest := by
  simp only [lastCode]
  cases lastCode k rest with
  | none => simp [h]
  | some c => rfl

theorem loopOK_cons (c1 c2 : Int) (k : Nat) (l o t c : Int) (rest : List OpCall) :
    LoopOK c1 c2 (OpCall.loop k l o t c :: rest) ↔
      (t = 0 ∧ ((k = 1 ∧ l = c1 ∧ o = c2 ∧ c2 < c1 ∧ LoopOK c c2 rest) ∨
        (k = 2 ∧ l = c2 ∧ o = c1 ∧ c1 < c2 ∧ LoopOK c1 c rest))) := by
  rw [LoopOK]

theorem syncLog_result (s1 : DdSpec σ₁) (s2 : DdSpec σ₂) :
    ∀ (F : Nat) (i1 i2 : Int) (p : IsectState σ₁ σ₂) (r : Int) (q : IsectState σ₁ σ₂)
      (log : List OpCall), i1 ≠ 0 → i2 ≠ 0 →
      ZddIntersection.syncLog s1 s2 F i1 i2 p = some (r, q, log) →
      (r = 0 → ∃ e ∈ log, e.code = 0) ∧
      (r ≠ 0 → (lastCode 1 log).getD i1 = r ∧ (lastCode 2 log).getD i2 = r) ∧
      LoopOK i1 i2 log := by
  have base : ∀ (i1 i2 : Int) (p : IsectState σ₁ σ₂) (r : Int) (q : IsectState σ₁ σ₂)
      (log : List OpCall), i1 ≠ 0 → i1 = i2 → some (i1, p, ([] : List OpCall)) = some (r, q, log) →
      (r = 0 → ∃ e ∈ log, e.code = 0) ∧
      (r ≠ 0 → (lastCode 1 log).getD i1 = r ∧ (lastCode 2 log).getD i2 = r) ∧
      LoopOK i1 i2 log := by
    intro i1 i2 p r q log z1 e h
    simp only [Option.some.injEq, Prod.mk.injEq] at h
    obtain ⟨rfl, rfl, rfl⟩ := h
    exact ⟨fun h0 => absurd h0 z1, fun _ => ⟨rfl, e.symm⟩, trivial⟩
  intro F
  induction F with
  | zero =>
    intro i1 i2 p r q log z1 z2 h
    by_cases e : i1 = i2
    · simp only [ZddIntersection.syncLog, e, if_true] at h
      exact base i1 i2 p r q log z1 e (by rw [e]; exact h)
    · simp [ZddIntersection.syncLog, e] at h
  | succ n ih =>
    intro i1 i2 p r q log z1 z2 h
    by_cases e : i1 = i2
    · simp only [ZddIntersection.syncLog, e, if_true] at h
      exact base i1 i2 p r q log z1 e (by rw [e]; exact h)
    · by_cases g : i1 > i2
      · simp only [ZddIntersection.syncLog, e, g, if_true, if_false] at h
        by_cases z : (s1.get_child p.state1 i1 0).1 = 0
        · simp only [z, if_true, Option.some.injEq, Prod.mk.injEq] at h
          obtain ⟨rfl, rfl, rfl⟩ := h
          refine ⟨fun _ => ⟨_, List.mem_singleton.mpr rfl, rfl⟩, fun h0 => absurd rfl h0, ?_⟩
          exact (loopOK_cons _ _ _ _ _ _ _ _).mpr ⟨rfl, Or.inl ⟨rfl, rfl, rfl, g, trivial⟩⟩
        · simp only [z, if_false] at h
          cases hx : ZddIntersection.syncLog s1 s2 n (s1.get_child p.state1 i1 0).1 i2
              { p with state1 := (s1.get_child p.state1 i1 0).2 } with
          | none => simp [hx] at h
          | some x =>
            obtain ⟨xr, xq, xl⟩ := x
            simp only [hx, Option.some.injEq, Prod.mk.injEq] at h
            obtain ⟨rfl, rfl, rfl⟩ := h
            obtain ⟨a1, a2, a3⟩ := ih _ _ _ _ _ _ z z2 hx
            refine ⟨fun h0 => ?_, fun h0 => ?_, ?_⟩
            · obtain ⟨e', he', hc'⟩ := a1 h0
              exact ⟨e', List.mem_cons_of_mem _ he', hc'⟩
            · obtain ⟨b1, b2⟩ := a2 h0
              rw [lastCode_cons, lastCode_cons]
              simp only [OpCall.operand, OpCall.code, if_true]
              exact ⟨b1, by simpa using b2⟩
            · exact (loopOK_cons _ _ _ _ _ _ _ _).mpr ⟨rfl, Or.inl ⟨rfl, rfl, rfl, g, a3⟩⟩
      · have g' : i1 < i2 := by omega
        simp only [ZddIntersection.syncLog, e, g, if_false] at h
        by_cases z : (s2.get_child p.state2 i2 0).1 = 0
        · simp only [z, if_true, Option.some.injEq, Prod.mk.injEq] at h
          obtain ⟨rfl, rfl, rfl⟩ := h
          refine ⟨fun _ => ⟨_, List.mem_singleton.mpr rfl, rfl⟩, fun h0 => absurd rfl h0, ?_⟩
          exact (loopOK_cons _ _ _ _ _ _ _ _).mpr ⟨rfl, Or.inr ⟨rfl, rfl, rfl, g', trivial⟩⟩
        · simp only [z, if_false] at h
          cases hx : ZddIntersection.syncLog s1 s2 n i1 (s2.get_child p.state2 i2 0).1
              { p with state2 := (s2.get_child p.state2 i2 0).2 } with
          | none => simp [hx] at h
          | some x =>
            obtain ⟨xr, xq, xl⟩ := x
            simp only [hx, Option.some.injEq, Prod.mk.injEq] at h
            obtain ⟨rfl, rfl, rfl⟩ := h
            obtain ⟨a1, a2, a3⟩ := ih _ _ _ _ _ _ z1 z hx
            refine ⟨fun h0 => ?_, fun h0 => ?_, ?_⟩
            · obtain ⟨e', he', hc'⟩ := a1 h0
              exact ⟨e', List.mem_cons_of_mem _ he', hc'⟩
            · obtain ⟨b1, b2⟩ := a2 h0
              rw [lastCode_cons, lastCode_cons]
              simp only [OpCall.operand, OpCall.code, if_true]
              exact ⟨by simpa using b1, b2⟩
            · exact (loopOK_cons _ _ _ _ _ _ _ _).mpr ⟨rfl, Or.inr ⟨rfl, rfl, rfl, g', a3⟩⟩

theorem syncResult_first (e1 e2 : OpCall) (h : e1.code = 0) : SyncResult 0 e1 e2 [e1] :=
  ⟨fun _ => ⟨e1, List.mem_singleton.mpr rfl, h⟩, fun h0 => absurd rfl h0, Or.inl rfl⟩

theorem syncResult_second (e1 e2 : OpCall) (h : e2.code = 0) :
    SyncResult 0 e1 e2 [e1, e2] :=
  ⟨fun _ => ⟨e2, by simp, h⟩, fun h0 => absurd rfl h0, Or.inr ⟨[], rfl, trivial⟩⟩

theorem syncResult_loop (s1 : DdSpec σ₁) (s2 : DdSpec σ₂) (F : Nat)
    (p q : IsectState σ₁ σ₂) (r : Int) (lp : List OpCall) (e1 e2 : OpCall)
    (o1 : e1.operand = 1) (o2 : e2.operand = 2) (z1 : e1.code ≠ 0) (z2 : e2.code ≠ 0)
    (h : ZddIntersection.syncLog s1 s2 F e1.code e2.code p = some (r, q, lp)) :
    SyncResult r e1 e2 (e1 :: e2 :: lp) := by
  obtain ⟨a1, a2, a3⟩ := syncLog_result s1 s2 F _ _ p r q lp z1 z2 h
  refine ⟨fun h0 => ?_, fun h0 => ?_, Or.inr ⟨lp, rfl, a3⟩⟩
  · obtain ⟨e, he, hc⟩ := a1 h0
    exact ⟨e, List.mem_cons_of_mem _ (List.mem_cons_of_mem _ he), hc⟩
  · obtain ⟨b1, b2⟩ := a2 h0
    constructor
    · rw [lastCode_cons_same 1 e1 _ o1, lastCode_cons_other 1 e2 _ (by rw [o2]; decide), b1]
    · rw [lastCode_cons_other 2 e1 _ (by rw [o1]; decide), lastCode_cons_same 2 e2 _ o2, b2]

/-- C12. Intersection synchronisation result.  `getRootLog` and
`getChildLog` are `ZddIntersection::getRoot` and `getChild` with the log of
their operand calls.  Every call that returns, returns 0 only if some
operand call made during it reported 0, and otherwise returns a code `r`
such that the last code reported by operand 1 and the last code reported
by operand 2 are both `r`; every call made inside the loop uses branch 0
and is made on the operand whose code is strictly higher, at that code.  In
the scenario (operand 1 goes 5, 3 and operand 2 goes 5, 4, 3, the last
step on branch 0) `getChild` at level 5 advances operand 2 once more on
branch 0 and returns 3. -/
theorem intersection_sync_result :
    (∀ (α β : Type) (s1 : DdSpec α) (s2 : DdSpec β) (F : Nat) (p : IsectState α β),
      (ZddIntersection.getRootLog s1 s2 F p).map dropLog
        = ZddIntersection.getRoot s1 s2 F p) ∧
    (∀ (α β : Type) (s1 : DdSpec α) (s2 : DdSpec β) (F : Nat) (p : IsectState α β)
        (level take : Int),
      (ZddIntersection.getChildLog s1 s2 F p level take).map dropLog
        = ZddIntersection.getChild s1 s2 F p level take) ∧
    (∀ (α β : Type) (s1 : DdSpec α) (s2 : DdSpec β) (F : Nat) (p q : IsectState α β)
        (r : Int) (log : List OpCall),
      ZddIntersection.getRootLog s1 s2 F p = some (r, q, log) →
      SyncResult r (OpCall.root 1 (s1.get_root p.state1).1)
        (OpCall.root 2 (s2.get_root p.state2).1) log) ∧
    (∀ (α β : Type) (s1 : DdSpec α) (s2 : DdSpec β) (F : Nat) (p q : IsectState α β)
        (level take r : Int) (log : List OpCall),
      ZddIntersection.getChildLog s1 s2 F p level take = some (r, q, log) →
      SyncResult r (OpCall.child 1 level take (s1.get_child p.state1 level take).1)
        (OpCall.child 2 level take (s2.get_child p.state2 level take).1) log) ∧
    ZddIntersection.getChildLog skipFour stepFour 1 ⟨(), ()⟩ 5 1
      = some (3, ⟨(), ()⟩,
          [OpCall.child 1 5 1 3, OpCall.child 2 5 1 4, OpCall.loop 2 4 3 0 3]) := by
  refine ⟨?_, ?_, ?_, ?_, rfl⟩
  · intro α β s1 s2 F p
    simp only [ZddIntersection.getRootLog, ZddIntersection.getRoot]
    split_ifs
    · rfl
    · rfl
    · rw [← syncLog_dropLog]
      cases ZddIntersection.syncLog s1 s2 F (s1.get_root p.state1).1 (s2.get_root p.state2).1
        { state1 := (s1.get_root p.state1).2, state2 := (s2.get_root p.state2).2 } <;> rfl
  · intro α β s1 s2 F p level take
    simp only [ZddIntersection.getChildLog, ZddIntersection.getChild]
    split_ifs
    · rfl
    · rfl
    · rw [← syncLog_dropLog]
      cases ZddIntersection.syncLog s1 s2 F (s1.get_child p.state1 level take).1
        (s2.get_child p.state2 level take).1
        { state1 := (s1.get_child p.state1 level take).2,
          state2 := (s2.get_child p.state2 level take).2 } <;> rfl
  · intro α β s1 s2 F p q r log h
    simp only [ZddIntersection.getRootLog] at h
    by_cases z1 : (s1.get_root p.state1).1 = 0
    · simp only [z1, if_true, Option.some.injEq, Prod.mk.injEq] at h
      obtain ⟨rfl, rfl, rfl⟩ := h
      rw [z1]
      exact syncResult_first _ _ rfl
    · by_cases z2 : (s2.get_root p.state2).1 = 0
      · simp only [z1, z2, if_true, if_false, Option.some.injEq, Prod.mk.injEq] at h
        obtain ⟨rfl, rfl, rfl⟩ := h
        rw [z2]
        exact syncResult_second (OpCall.root 1 _) (OpCall.root 2 0) rfl
      · simp only [z1, z2, if_false] at h
        cases hx : ZddIntersection.syncLog s1 s2 F (s1.get_root p.state1).1
            (s2.get_root p.state2).1
            { state1 := (s1.get_root p.state1).2, state2 := (s2.get_root p.state2).2 } with
        | none => simp [hx] at h
        | some x =>
          obtain ⟨xr, xq, xl⟩ := x
          simp only [hx, Option.some.injEq, Prod.mk.injEq] at h
          obtain ⟨rfl, rfl, rfl⟩ := h
          exact syncResult_loop s1 s2 F _ _ _ _ (OpCall.root 1 _) (OpCall.root 2 _) rfl rfl
            z1 z2 hx
  · intro α β s1 s2 F p q level take r log h
    simp only [ZddIntersection.getChildLog] at h
    by_cases z1 : (s1.get_child p.state1 level take).1 = 0
    · simp only [z1, if_true, Option.some.injEq, Prod.mk.injEq] at h
      obtain ⟨rfl, rfl, rfl⟩ := h
      rw [z1]
      exact syncResult_first _ _ rfl
    · by_cases z2 : (s2.get_child p.state2 level take).1 = 0
      · simp only [z1, z2, if_true, if_false, Option.some.injEq, Prod.mk.injEq] at h
        obtain ⟨rfl, rfl, rfl⟩ := h
        rw [z2]
        exact syncResult_second (OpCall.child 1 _ _ _) (OpCall.child 2 _ _ 0) rfl
      · simp only [z1, z2, if_false] at h
        cases hx : ZddIntersection.syncLog s1 s2 F (s1.get_child p.state1 level take).1
            (s2.get_child p.state2 level take).1
            { state1 := (s1.get_child p.state1 level take).2,
              state2 := (s2.get_child p.state2 level take).2 } with
        | none => simp [hx] at h
        | some x =>
          obtain ⟨xr, xq, xl⟩ := x
          simp only [hx, Option.some.injEq, Prod.mk.injEq] at h
          obtain ⟨rfl, rfl, rfl⟩ := h
          exact syncResult_loop s1 s2 F _ _ _ _ (OpCall.child 1 _ _ _) (OpCall.child 2 _ _ _)
            rfl rfl z1 z2 hx

/-- Witness for C12: the call of the scenario, with its result read off the
log. -/
theorem intersection_sync_result_witness :
    SyncResult 3 (OpCall.child 1 5 1 (skipFour.get_child () 5 1).1)
      (OpCall.child 2 5 1 (stepFour.get_child () 5 1).1)
      [OpCall.child 1 5 1 3, OpCall.child 2 5 1 4, OpCall.loop 2 4 3 0 3] :=
  intersection_sync_result.2.2.2.1 _ _ skipFour stepFour 1 ⟨(), ()⟩ ⟨(), ()⟩ 5 1 3 _ rfl

/-- C15 (as stated) fails: the loop can take more advances than the initial
difference of the two codes.  Operand 1 drops from level 5 to level 1 and
operand 2 goes down from level 4 one level at a time; both report a code
below every level they are called at.  Entered with the codes 5 and 4
(difference 1), the loop advances operand 1 once and operand 2 three times
before both are at level 1: four advances. -/
theorem sync_steps_exceed_difference :
    (∀ s l b, (dropFive.get_child s l b).1 < l) ∧
    (∀ s l b, (stepDown.get_child s l b).1 < l) ∧
    ZddIntersection.syncLog dropFive stepDown 4 5 4 ⟨(), ()⟩
      = some (1, ⟨(), ()⟩, [OpCall.loop 1 5 4 0 1, OpCall.loop 2 4 1 0 3,
          OpCall.loop 2 3 1 0 2, OpCall.loop 2 2 1 0 1]) ∧
    ZddIntersection.getRootLog dropFive stepDown 4 ⟨(), ()⟩
      = some (1, ⟨(), ()⟩, [OpCall.root 1 5, OpCall.root 2 4, OpCall.loop 1 5 4 0 1,
          OpCall.loop 2 4 1 0 3, OpCall.loop 2 3 1 0 2, OpCall.loop 2 2 1 0 1]) ∧
    ¬ ((4 : Int) ≤ |5 - 4|) := by
  refine ⟨?_, ?_, rfl, rfl, by decide⟩
  · intro s l b
    simp only [dropFive, codeSpec]
    split_ifs <;> omega
  · intro s l b
    simp only [stepDown, codeSpec]
    omega

/-- Each advance of the loop lowers the code of the operand it advances.
`Q` is what is known of the codes: true of the two starting codes, and such
that an operand called at a level above a code of `Q` reports a lower code
of `Q`.  Then every run of the loop that returns made only branch-0 advances
of the operand with the strictly higher code, ends with codes of `Q`, and
the number of advances is at most the sum of the drops of the two codes. -/
theorem syncLog_drops (s1 : DdSpec σ₁) (s2 : DdSpec σ₂) (Q : Int → Prop)
    (d1 : ∀ s l o, Q o → o < l → (s1.get_child s l 0).1 < l ∧ Q (s1.get_child s l 0).1)
    (d2 : ∀ s l o, Q o → o < l → (s2.get_child s l 0).1 < l ∧ Q (s2.get_child s l 0).1) :
    ∀ (F : Nat) (i1 i2 : Int) (p : IsectState σ₁ σ₂) (r : Int) (q : IsectState σ₁ σ₂)
      (log : List OpCall), Q i1 → Q i2 →
      ZddIntersection.syncLog s1 s2 F i1 i2 p = some (r, q, log) →
      LoopOK i1 i2 log ∧ Q ((lastCode 1 log).getD i1) ∧ Q ((lastCode 2 log).getD i2) ∧
      (log.length : Int)
        ≤ (i1 - (lastCode 1 log).getD i1) + (i2 - (lastCode 2 log).getD i2) := by
  have base : ∀ (i1 i2 : Int) (p : IsectState σ₁ σ₂) (r : Int) (q : IsectState σ₁ σ₂)
      (log : List OpCall), Q i1 → Q i2 →
      some (i1, p, ([] : List OpCall)) = some (r, q, log) →
      LoopOK i1 i2 log ∧ Q ((lastCode 1 log).getD i1) ∧ Q ((lastCode 2 log).getD i2) ∧
      (log.length : Int)
        ≤ (i1 - (lastCode 1 log).getD i1) + (i2 - (lastCode 2 log).getD i2) := by
    intro i1 i2 p r q log q1 q2 h
    simp only [Option.some.injEq, Prod.mk.injEq] at h
    obtain ⟨rfl, rfl, rfl⟩ := h
    refine ⟨trivial, q1, q2, ?_⟩
    simp only [lastCode, Option.getD_none, List.length_nil, Nat.cast_zero]
    omega
  intro F
  induction F with
  | zero =>
    intro i1 i2 p r q log q1 q2 h
    by_cases e : i1 = i2
    · simp only [ZddIntersection.syncLog, e, if_true] at h
      exact base i1 i2 p r q log q1 q2 (by rw [e]; exact h)
    · simp [ZddIntersection.syncLog, e] at h
  | succ n ih =>
    intro i1 i2 p r q log q1 q2 h
    by_cases e : i1 = i2
    · simp only [ZddIntersection.syncLog, e, if_true] at h
      exact base i1 i2 p r q log q1 q2 (by rw [e]; exact h)
    · by_cases g : i1 > i2
      · obtain ⟨hd, hq⟩ := d1 p.state1 i1 i2 q2 g
        simp only [ZddIntersection.syncLog, e, g, if_true, if_false] at h
        by_cases z : (s1.get_child p.state1 i1 0).1 = 0
        · rw [if_pos z] at h
          simp only [Option.some.injEq, Prod.mk.injEq] at h
          obtain ⟨rfl, rfl, rfl⟩ := h
          refine ⟨(loopOK_cons _ _ _ _ _ _ _ _).mpr ⟨rfl, Or.inl ⟨rfl, rfl, rfl, g, trivial⟩⟩,
            ?_⟩
          rw [lastCode_cons_same 1 (OpCall.loop 1 i1 i2 0 (s1.get_child p.state1 i1 0).1) [] rfl,
            lastCode_cons_other 2 (OpCall.loop 1 i1 i2 0 (s1.get_child p.state1 i1 0).1) [] (by simp [OpCall.operand])]
          simp only [OpCall.code, lastCode, Option.getD_none, Option.getD_some,
            List.length_singleton, Nat.cast_one]
          exact ⟨hq, q2, by omega⟩
        · simp only [z, if_false] at h
          cases hx : ZddIntersection.syncLog s1 s2 n (s1.get_child p.state1 i1 0).1 i2
              { p with state1 := (s1.get_child p.state1 i1 0).2 } with
          | none => simp [hx] at h
          | some x =>
            obtain ⟨xr, xq, xl⟩ := x
            simp only [hx, Option.some.injEq, Prod.mk.injEq] at h
            obtain ⟨rfl, rfl, rfl⟩ := h
            obtain ⟨a1, a2, a3, a4⟩ := ih _ _ _ _ _ _ hq q2 hx
            refine ⟨(loopOK_cons _ _ _ _ _ _ _ _).mpr ⟨rfl, Or.inl ⟨rfl, rfl, rfl, g, a1⟩⟩,
              ?_⟩
            rw [lastCode_cons_same 1 (OpCall.loop 1 i1 i2 0 (s1.get_child p.state1 i1 0).1) xl rfl,
              lastCode_cons_other 2 (OpCall.loop 1 i1 i2 0 (s1.get_child p.state1 i1 0).1) xl (by simp [OpCall.operand])]
            simp only [OpCall.code, Option.getD_some, List.length_cons, Nat.cast_add,
              Nat.cast_one]
            exact ⟨a2, a3, by omega⟩
      · have g' : i1 < i2 := by omega
        obtain ⟨hd, hq⟩ := d2 p.state2 i2 i1 q1 g'
        simp only [ZddIntersection.syncLog, e, g, if_false] at h
        by_cases z : (s2.get_child p.state2 i2 0).1 = 0
        · rw [if_pos z] at h
          simp only [Option.some.injEq, Prod.mk.injEq] at h
          obtain ⟨rfl, rfl, rfl⟩ := h
          refine ⟨(loopOK_cons _ _ _ _ _ _ _ _).mpr ⟨rfl, Or.inr ⟨rfl, rfl, rfl, g', trivial⟩⟩,
            ?_⟩
          rw [lastCode_cons_same 2 (OpCall.loop 2 i2 i1 0 (s2.get_child p.state2 i2 0).1) [] rfl,
            lastCode_cons_other 1 (OpCall.loop 2 i2 i1 0 (s2.get_child p.state2 i2 0).1) [] (by simp [OpCall.operand])]
          simp only [OpCall.code, lastCode, Option.getD_none, Option.getD_some,
            List.length_singleton, Nat.cast_one]
          exact ⟨q1, hq, by omega⟩
        · simp only [z, if_false] at h
          cases hx : ZddIntersection.syncLog s1 s2 n i1 (s2.get_child p.state2 i2 0).1
              { p with state2 := (s2.get_child p.state2 i2 0).2 } with
          | none => simp [hx] at h
          | some x =>
            obtain ⟨xr, xq, xl⟩ := x
            simp only [hx, Option.some.injEq, Prod.mk.injEq] at h
            obtain ⟨rfl, rfl, rfl⟩ := h
            obtain ⟨a1, a2, a3, a4⟩ := ih _ _ _ _ _ _ q1 hq hx
            refine ⟨(loopOK_cons _ _ _ _ _ _ _ _).mpr ⟨rfl, Or.inr ⟨rfl, rfl, rfl, g', a1⟩⟩,
              ?_⟩
            rw [lastCode_cons_same 2 (OpCall.loop 2 i2 i1 0 (s2.get_child p.state2 i2 0).1) xl rfl,
              lastCode_cons_other 1 (OpCall.loop 2 i2 i1 0 (s2.get_child p.state2 i2 0).1) xl (by simp [OpCall.operand])]
            simp only [OpCall.code, Option.getD_some, List.length_cons, Nat.cast_add,
              Nat.cast_one]
            exact ⟨a2, a3, by omega⟩

/-- C15 (amended).  For any two operand specs whose `get_child` returns a
code strictly below its level argument, every run of the synchronisation
loop that returns, entered with the codes `i1`, `i2`, made only branch-0
advances of the operand with the strictly higher code, and the number of
these advances is at most `(i1 - f1) + (i2 - f2)`, the sum of the drops of
the two operand codes down to the codes `f1`, `f2` they have when the loop
exits.  When the codes are values of an integer type whose least value is
`B` (and `get_child` returns a lower code at every level above `B`), the
loop entered with any two codes returns, with the same bound, which is then
at most `(i1 - B) + (i2 - B)`. -/
theorem sync_step_bound (s1 : DdSpec σ₁) (s2 : DdSpec σ₂) :
    ((∀ s l b, (s1.get_child s l b).1 < l) → (∀ s l b, (s2.get_child s l b).1 < l) →
      ∀ (F : Nat) (i1 i2 : Int) (p : IsectState σ₁ σ₂) (r : Int) (q : IsectState σ₁ σ₂)
        (log : List OpCall),
        ZddIntersection.syncLog s1 s2 F i1 i2 p = some (r, q, log) →
        LoopOK i1 i2 log ∧
        (log.length : Int)
          ≤ (i1 - (lastCode 1 log).getD i1) + (i2 - (lastCode 2 log).getD i2)) ∧
    (∀ B : Int, DescendsAbove B s1 → DescendsAbove B s2 → BoundedBelow B s1 →
      BoundedBelow B s2 →
      ∀ (F : Nat) (i1 i2 : Int) (p : IsectState σ₁ σ₂), B ≤ i1 → B ≤ i2 →
        (i1 - B).toNat + (i2 - B).toNat ≤ F →
        ∃ r q log, ZddIntersection.syncLog s1 s2 F i1 i2 p = some (r, q, log) ∧
          LoopOK i1 i2 log ∧
          (log.length : Int)
            ≤ (i1 - (lastCode 1 log).getD i1) + (i2 - (lastCode 2 log).getD i2) ∧
          (log.length : Int) ≤ (i1 - B) + (i2 - B)) := by
  constructor
  · intro h1 h2 F i1 i2 p r q log h
    obtain ⟨a1, _, _, a4⟩ := syncLog_drops s1 s2 (fun _ => True)
      (fun s l o _ _ => ⟨h1 s l 0, trivial⟩) (fun s l o _ _ => ⟨h2 s l 0, trivial⟩)
      F i1 i2 p r q log trivial trivial h
    exact ⟨a1, a4⟩
  · intro B h1 h2 b1 b2 F i1 i2 p l1 l2 hF
    obtain ⟨r, q, hs⟩ := sync_total s1 s2 B h1 h2 b1 b2 F i1 i2 p l1 l2 hF
    have hm := syncLog_dropLog s1 s2 F i1 i2 p
    rw [hs] at hm
    cases hx : ZddIntersection.syncLog s1 s2 F i1 i2 p with
    | none => rw [hx] at hm; simp at hm
    | some x =>
      obtain ⟨xr, xq, xl⟩ := x
      obtain ⟨a1, a2, a3, a4⟩ := syncLog_drops s1 s2 (fun c => B ≤ c)
        (fun s l o ho hl => ⟨h1 s l 0 (by omega), b1.2 s l 0⟩)
        (fun s l o ho hl => ⟨h2 s l 0 (by omega), b2.2 s l 0⟩)
        F i1 i2 p xr xq xl l1 l2 hx
      exact ⟨xr, xq, xl, rfl, a1, a4, by omega⟩

/-- Witness for C15 (amended): the loop entered at the codes 5 and 4 with
the two operands of the counterexample makes four advances, within the sum
`(5 - 1) + (4 - 1)` of the drops. -/
theorem sync_step_bound_witness :
    LoopOK 5 4 [OpCall.loop 1 5 4 0 1, OpCall.loop 2 4 1 0 3, OpCall.loop 2 3 1 0 2,
        OpCall.loop 2 2 1 0 1] ∧
      (([OpCall.loop 1 5 4 0 1, OpCall.loop 2 4 1 0 3, OpCall.loop 2 3 1 0 2,
          OpCall.loop 2 2 1 0 1] : List OpCall).length : Int)
        ≤ (5 - (lastCode 1 [OpCall.loop 1 5 4 0 1, OpCall.loop 2 4 1 0 3,
              OpCall.loop 2 3 1 0 2, OpCall.loop 2 2 1 0 1]).getD 5)
          + (4 - (lastCode 2 [OpCall.loop 1 5 4 0 1, OpCall.loop 2 4 1 0 3,
              OpCall.loop 2 3 1 0 2, OpCall.loop 2 2 1 0 1]).getD 4) :=
  (sync_step_bound dropFive stepDown).1
    (fun s l b => by simp only [dropFive, codeSpec]; split_ifs <;> omega)
    (fun s l b => by simp only [stepDown, codeSpec]; omega)
    4 5 4 ⟨(), ()⟩ 1 ⟨(), ()⟩ _ rfl

/-! ## Monitored operands simulate the operands -/

/-- The combinators over monitored operands compute what they compute over
the operands themselves: erasing the ghost fields commutes with every root,
child and copy function. -/
theorem monitor_simulates (s1 : DdSpec σ₁) (s2 : DdSpec σ₂) :
    (∀ p, ((BddAnd.getRoot (monitor s1) (monitor s2) p).1,
          eraseMon (BddAnd.getRoot (monitor s1) (monitor s2) p).2)
        = BddAnd.getRoot s1 s2 (eraseMon p)) ∧
    (∀ p level take, (BddAnd.getChild (monitor s1) (monitor s2) p level take).map
          (fun x => (x.1, eraseMon x.2))
        = BddAnd.getChild s1 s2 (eraseMon p) level take) ∧
    (∀ p, ((BddOr.getRoot (monitor s1) (monitor s2) p).1,
          eraseMon (BddOr.getRoot (monitor s1) (monitor s2) p).2)
        = BddOr.getRoot s1 s2 (eraseMon p)) ∧
    (∀ p level take, (BddOr.getChild (monitor s1) (monitor s2) p level take).map
          (fun x => (x.1, eraseMon x.2))
        = BddOr.getChild s1 s2 (eraseMon p) level take) ∧
    (∀ p, ((ZddUnion.getRoot (monitor s1) (monitor s2) p).1,
          eraseMon (ZddUnion.getRoot (monitor s1) (monitor s2) p).2)
        = ZddUnion.getRoot s1 s2 (eraseMon p)) ∧
    (∀ p level take, (ZddUnion.getChild (monitor s1) (monitor s2) p level take).map
          (fun x => (x.1, eraseMon x.2))
        = ZddUnion.getChild s1 s2 (eraseMon p) level take) ∧
    (∀ b p, eraseMon (BinaryOperation.get_copy (monitor s1) (monitor s2) b p)
        = BinaryOperation.get_copy s1 s2 (eraseMon b) (eraseMon p)) := by
  refine ⟨?_, ?_, ?_, ?_, ?_, ?_, ?_⟩
  · intro p
    simp only [BddAnd.getRoot, monitor, eraseMon, setState1, setState2, setLevel1, setLevel2]
    split_ifs <;> rfl
  · intro p level take
    simp only [BddAnd.getChild, BddAnd.getChildBody, BddAnd.getChildSnd, monitor, eraseMon,
      setState1, setState2, setLevel1, setLevel2, entryAssert]
    split_ifs <;> rfl
  · intro p
    simp only [BddOr.getRoot, monitor, eraseMon, setState1, setState2, setLevel1, setLevel2]
    split_ifs <;> rfl
  · intro p level take
    simp only [BddOr.getChild, BddOr.getChildBody, BddOr.getChildSnd, monitor, eraseMon,
      setState1, setState2, setLevel1, setLevel2, entryAssert]
    split_ifs <;> rfl
  · intro p
    simp only [ZddUnion.getRoot, monitor, eraseMon, setState1, setState2, setLevel1,
      setLevel2]
    split_ifs <;> rfl
  · intro p level take
    have a1 : eraseMon (ZddUnion.advance1 (monitor s1) p level take)
        = ZddUnion.advance1 s1 (eraseMon p) level take := by
      simp only [ZddUnion.advance1, monitor, eraseMon, setState1, setLevel1]
      split_ifs <;> rfl
    have a2 : ∀ q : BinState (Mon σ₁) (Mon σ₂),
        eraseMon (ZddUnion.advance2 (monitor s2) q level take)
          = ZddUnion.advance2 s2 (eraseMon q) level take := by
      intro q
      simp only [ZddUnion.advance2, monitor, eraseMon, setState2, setLevel2]
      split_ifs <;> rfl
    have e : entryAssert (eraseMon p) level ↔ entryAssert p level := Iff.rfl
    by_cases ha : entryAssert p level
    · simp only [ZddUnion.getChild, ha, e, if_true, ZddUnion.getChildBody_eq,
        Option.map_some', ← a1, ← a2]
      rfl
    · simp only [ZddUnion.getChild, ha, e, if_false, Option.map_none']
  · intro b p
    rfl

/-! ## Invariants of the reachable states -/

theorem monitor_child_ok (sp : DdSpec σ) (m : Mon σ) (l b : Int) (hb : m.bad = false)
    (hl : 0 < l) (he : l = m.last) :
    ((monitor sp).get_child m l b).2.bad = false ∧
      ((monitor sp).get_child m l b).2.last = ((monitor sp).get_child m l b).1 := by
  subst he
  simp [monitor, hb, hl]

theorem monitor_root_ok (sp : DdSpec σ) (m : Mon σ) :
    ((monitor sp).get_root m).2.bad = m.bad ∧
      ((monitor sp).get_root m).2.last = ((monitor sp).get_root m).1 := by
  simp [monitor]

theorem headerInv_copy (s1 : DdSpec σ₁) (s2 : DdSpec σ₂) (c : Int)
    (p b : BinState (Mon σ₁) (Mon σ₂)) (h : HeaderInv c p) :
    HeaderInv c (BinaryOperation.get_copy (monitor s1) (monitor s2) b p) := h

theorem and_reach_inv (s1 : DdSpec σ₁) (s2 : DdSpec σ₂) (c : Int)
    (p : BinState (Mon σ₁) (Mon σ₂)) (h : AndReach s1 s2 c p) : HeaderInv c p := by
  unfold AndReach at h
  induction h with
  | root p0 r q hc hr =>
    obtain ⟨b1, l1⟩ := monitor_root_ok s1 p0.state1
    obtain ⟨b2, l2⟩ := monitor_root_ok s2 p0.state2
    simp only [Option.some.injEq] at hr
    simp only [BddAnd.getRoot, setState1, setState2, setLevel1, setLevel2] at hr
    split_ifs at hr <;> obtain ⟨rfl, rfl⟩ := Prod.mk.inj hr
    · exact ⟨⟨b1.trans hc.1, hc.2⟩, fun h0 => absurd h0 (by decide)⟩
    · exact ⟨⟨b1.trans hc.1, b2.trans hc.2⟩, fun h0 => absurd h0 (by decide)⟩
    · exact ⟨⟨b1.trans hc.1, b2.trans hc.2⟩, fun _ => ⟨l1.symm, l2.symm, rfl⟩⟩
  | child c p take r q _ hpos hch ih =>
    obtain ⟨⟨c1, c2⟩, hh⟩ := ih
    obtain ⟨e1, e2, em⟩ := hh hpos
    have k1 := fun he => monitor_child_ok s1 p.state1 c take c1 hpos he
    have k2 := fun he => monitor_child_ok s2 p.state2 c take c2 hpos he
    simp only [BddAnd.getChild, BddAnd.getChildBody, BddAnd.getChildSnd, setState1,
      setState2, setLevel1, setLevel2] at hch
    split_ifs at hch with ha x1 z1 x2 z2 x2 z2 <;>
      obtain ⟨rfl, rfl⟩ := Prod.mk.inj (Option.some.inj hch)
    · exact ⟨⟨(k1 (x1.symm.trans e1)).1, c2⟩, fun h0 => absurd h0 (by decide)⟩
    · exact ⟨⟨(k1 (x1.symm.trans e1)).1, (k2 (x2.symm.trans e2)).1⟩,
        fun h0 => absurd h0 (by decide)⟩
    · exact ⟨⟨(k1 (x1.symm.trans e1)).1, (k2 (x2.symm.trans e2)).1⟩,
        fun _ => ⟨(k1 (x1.symm.trans e1)).2.symm, (k2 (x2.symm.trans e2)).2.symm, rfl⟩⟩
    · exact ⟨⟨(k1 (x1.symm.trans e1)).1, c2⟩,
        fun _ => ⟨(k1 (x1.symm.trans e1)).2.symm, e2, rfl⟩⟩
    · exact ⟨⟨c1, (k2 (x2.symm.trans e2)).1⟩, fun h0 => absurd h0 (by decide)⟩
    · exact ⟨⟨c1, (k2 (x2.symm.trans e2)).1⟩,
        fun _ => ⟨e1, (k2 (x2.symm.trans e2)).2.symm, rfl⟩⟩
    · exact ⟨⟨c1, c2⟩, fun _ => ⟨e1, e2, rfl⟩⟩
  | copy c p b _ ih => exact headerInv_copy s1 s2 c p b ih

theorem or_reach_inv (s1 : DdSpec σ₁) (s2 : DdSpec σ₂) (c : Int)
    (p : BinState (Mon σ₁) (Mon σ₂)) (h : OrReach s1 s2 c p) : HeaderInv c p := by
  unfold OrReach at h
  induction h with
  | root p0 r q hc hr =>
    obtain ⟨b1, l1⟩ := monitor_root_ok s1 p0.state1
    obtain ⟨b2, l2⟩ := monitor_root_ok s2 p0.state2
    simp only [Option.some.injEq] at hr
    simp only [BddOr.getRoot, setState1, setState2, setLevel1, setLevel2] at hr
    split_ifs at hr <;> obtain ⟨rfl, rfl⟩ := Prod.mk.inj hr
    · exact ⟨⟨b1.trans hc.1, hc.2⟩, fun h0 => absurd h0 (by decide)⟩
    · exact ⟨⟨b1.trans hc.1, b2.trans hc.2⟩, fun h0 => absurd h0 (by decide)⟩
    · exact ⟨⟨b1.trans hc.1, b2.trans hc.2⟩, fun _ => ⟨l1.symm, l2.symm, rfl⟩⟩
  | child c p take r q _ hpos hch ih =>
    obtain ⟨⟨c1, c2⟩, hh⟩ := ih
    obtain ⟨e1, e2, em⟩ := hh hpos
    have k1 := fun he => monitor_child_ok s1 p.state1 c take c1 hpos he
    have k2 := fun he => monitor_child_ok s2 p.state2 c take c2 hpos he
    simp only [BddOr.getChild, BddOr.getChildBody, BddOr.getChildSnd, setState1,
      setState2, setLevel1, setLevel2] at hch
    split_ifs at hch with ha x1 z1 x2 z2 x2 z2 <;>
      obtain ⟨rfl, rfl⟩ := Prod.mk.inj (Option.some.inj hch)
    · exact ⟨⟨(k1 (x1.symm.trans e1)).1, c2⟩, fun h0 => absurd h0 (by decide)⟩
    · exact ⟨⟨(k1 (x1.symm.trans e1)).1, (k2 (x2.symm.trans e2)).1⟩,
        fun h0 => absurd h0 (by decide)⟩
    · exact ⟨⟨(k1 (x1.symm.trans e1)).1, (k2 (x2.symm.trans e2)).1⟩,
        fun _ => ⟨(k1 (x1.symm.trans e1)).2.symm, (k2 (x2.symm.trans e2)).2.symm, rfl⟩⟩
    · exact ⟨⟨(k1 (x1.symm.trans e1)).1, c2⟩,
        fun _ => ⟨(k1 (x1.symm.trans e1)).2.symm, e2, rfl⟩⟩
    · exact ⟨⟨c1, (k2 (x2.symm.trans e2)).1⟩, fun h0 => absurd h0 (by decide)⟩
    · exact ⟨⟨c1, (k2 (x2.symm.trans e2)).1⟩,
        fun _ => ⟨e1, (k2 (x2.symm.trans e2)).2.symm, rfl⟩⟩
    · exact ⟨⟨c1, c2⟩, fun _ => ⟨e1, e2, rfl⟩⟩
  | copy c p b _ ih => exact headerInv_copy s1 s2 c p b ih

theorem unionCode_pos (a b : Int) (h : 0 < unionCode a b) : unionCode a b = max a b := by
  unfold unionCode at h ⊢
  split_ifs at h ⊢ <;> first | rfl | omega

theorem union_advance1_inv (s1 : DdSpec σ₁) (p : BinState (Mon σ₁) (Mon σ₂)) (c take : Int)
    (hpos : 0 < c) (hb : p.state1.bad = false)
    (he : p.level1 = p.state1.last ∨ p.level1 = 0) :
    (ZddUnion.advance1 (monitor s1) p c take).state1.bad = false ∧
      ((ZddUnion.advance1 (monitor s1) p c take).level1
          = (ZddUnion.advance1 (monitor s1) p c take).state1.last ∨
        (ZddUnion.advance1 (monitor s1) p c take).level1 = 0) := by
  unfold ZddUnion.advance1
  simp only [setState1, setLevel1]
  split_ifs with x
  · have : c = p.state1.last := by
      rcases he with he | he
      · exact x.symm.trans he
      · omega
    obtain ⟨k1, k2⟩ := monitor_child_ok s1 p.state1 c take hb hpos this
    exact ⟨k1, Or.inl k2.symm⟩
  · exact ⟨hb, Or.inr rfl⟩
  · exact ⟨hb, he⟩

theorem union_advance2_inv (s2 : DdSpec σ₂) (p : BinState (Mon σ₁) (Mon σ₂)) (c take : Int)
    (hpos : 0 < c) (hb : p.state2.bad = false)
    (he : p.level2 = p.state2.last ∨ p.level2 = 0) :
    (ZddUnion.advance2 (monitor s2) p c take).state2.bad = false ∧
      ((ZddUnion.advance2 (monitor s2) p c take).level2
          = (ZddUnion.advance2 (monitor s2) p c take).state2.last ∨
        (ZddUnion.advance2 (monitor s2) p c take).level2 = 0) := by
  unfold ZddUnion.advance2
  simp only [setState2, setLevel2]
  split_ifs with x
  · have : c = p.state2.last := by
      rcases he with he | he
      · exact x.symm.trans he
      · omega
    obtain ⟨k1, k2⟩ := monitor_child_ok s2 p.state2 c take hb hpos this
    exact ⟨k1, Or.inl k2.symm⟩
  · exact ⟨hb, Or.inr rfl⟩
  · exact ⟨hb, he⟩

theorem union_reach_inv (s1 : DdSpec σ₁) (s2 : DdSpec σ₂) (c : Int)
    (p : BinState (Mon σ₁) (Mon σ₂)) (h : UnionReach s1 s2 c p) : UnionInv c p := by
  unfold UnionReach at h
  induction h with
  | root p0 r q hc hr =>
    obtain ⟨b1, l1⟩ := monitor_root_ok s1 p0.state1
    obtain ⟨b2, l2⟩ := monitor_root_ok s2 p0.state2
    simp only [Option.some.injEq] at hr
    simp only [ZddUnion.getRoot, setState1, setState2, setLevel1, setLevel2] at hr
    split_ifs at hr <;> obtain ⟨rfl, rfl⟩ := Prod.mk.inj hr
    · exact ⟨⟨b1.trans hc.1, b2.trans hc.2⟩, fun h0 => absurd h0 (by decide)⟩
    · exact ⟨⟨b1.trans hc.1, b2.trans hc.2⟩, fun h0 => absurd h0 (by decide)⟩
    · exact ⟨⟨b1.trans hc.1, b2.trans hc.2⟩,
        fun _ => ⟨Or.inl l1.symm, Or.inl l2.symm, rfl⟩⟩
  | child c p take r q _ hpos hch ih =>
    obtain ⟨⟨c1, c2⟩, hh⟩ := ih
    obtain ⟨e1, e2, em⟩ := hh hpos
    by_cases ha : entryAssert p c
    · simp only [ZddUnion.getChild, ha, if_true, ZddUnion.getChildBody_eq,
        Option.some.injEq, Prod.mk.injEq] at hch
      obtain ⟨hr, hq⟩ := hch
      obtain ⟨a1, a2⟩ := union_advance1_inv s1 p c take hpos c1 e1
      obtain ⟨d1, d2⟩ := union_advance2_inv s2 (ZddUnion.advance1 (monitor s1) p c take)
        c take hpos (by rw [ZddUnion.advance1_state2]; exact c2)
        (by rw [ZddUnion.advance1_state2, ZddUnion.advance1_level2]; exact e2)
      rw [hq] at hr d1 d2
      have f1 : q.state1 = (ZddUnion.advance1 (monitor s1) p c take).state1 := by
        rw [← hq, ZddUnion.advance2_state1]
      have f2 : q.level1 = (ZddUnion.advance1 (monitor s1) p c take).level1 := by
        rw [← hq, ZddUnion.advance2_level1]
      refine ⟨⟨by rw [f1]; exact a1, d1⟩, fun h0 => ⟨by rw [f1, f2]; exact a2, d2, ?_⟩⟩
      rw [← hr] at h0 ⊢
      exact unionCode_pos _ _ h0
    · simp [ZddUnion.getChild, ha] at hch
  | copy c p b _ ih => exact ih

theorem sync_monitor_inv (s1 : DdSpec σ₁) (s2 : DdSpec σ₂) (m1 : TrueIsMinusOne s1)
    (m2 : TrueIsMinusOne s2) :
    ∀ (F : Nat) (i1 i2 : Int) (p : IsectState (Mon σ₁) (Mon σ₂)) (r : Int)
      (q : IsectState (Mon σ₁) (Mon σ₂)), i1 ≠ 0 → i2 ≠ 0 → -1 ≤ i1 → -1 ≤ i2 →
      p.state1.last = i1 → p.state2.last = i2 → cleanIsect p →
      ZddIntersection.sync (monitor s1) (monitor s2) F i1 i2 p = some (r, q) →
      IsectInv r q := by
  have base : ∀ (i1 i2 : Int) (p : IsectState (Mon σ₁) (Mon σ₂)) (r : Int)
      (q : IsectState (Mon σ₁) (Mon σ₂)), -1 ≤ i1 → i1 = i2 →
      p.state1.last = i1 → p.state2.last = i2 → cleanIsect p →
      some (i1, p) = some (r, q) → IsectInv r q := by
    intro i1 i2 p r q l1 e t1 t2 hc h
    obtain ⟨rfl, rfl⟩ := Prod.mk.inj (Option.some.inj h)
    exact ⟨hc, l1, fun _ => ⟨t1, t2.trans e.symm⟩⟩
  intro F
  induction F with
  | zero =>
    intro i1 i2 p r q z1 z2 l1 l2 t1 t2 hc h
    by_cases e : i1 = i2
    · simp only [ZddIntersection.sync, e, if_true] at h
      exact base i1 i2 p r q l1 e t1 t2 hc (by rw [e]; exact h)
    · simp [ZddIntersection.sync, e] at h
  | succ n ih =>
    intro i1 i2 p r q z1 z2 l1 l2 t1 t2 hc h
    by_cases e : i1 = i2
    · simp only [ZddIntersection.sync, e, if_true] at h
      exact base i1 i2 p r q l1 e t1 t2 hc (by rw [e]; exact h)
    · by_cases g : i1 > i2
      · have hpos : 0 < i1 := by omega
        obtain ⟨k1, k2⟩ := monitor_child_ok s1 p.state1 i1 0 hc.1 hpos t1.symm
        have hm : -1 ≤ ((monitor s1).get_child p.state1 i1 0).1 := m1.2 p.state1.st i1 0 hpos
        simp only [ZddIntersection.sync, e, g, if_true, if_false] at h
        by_cases z : ((monitor s1).get_child p.state1 i1 0).1 = 0
        · simp only [z, if_true, Option.some.injEq, Prod.mk.injEq] at h
          obtain ⟨rfl, rfl⟩ := h
          exact ⟨⟨k1, hc.2⟩, by decide, fun h0 => absurd rfl h0⟩
        · simp only [z, if_false] at h
          exact ih _ _ { p with state1 := ((monitor s1).get_child p.state1 i1 0).2 } r q
            z z2 hm l2 k2 t2 ⟨k1, hc.2⟩ h
      · have g' : i1 < i2 := by omega
        have hpos : 0 < i2 := by omega
        obtain ⟨k1, k2⟩ := monitor_child_ok s2 p.state2 i2 0 hc.2 hpos t2.symm
        have hm : -1 ≤ ((monitor s2).get_child p.state2 i2 0).1 := m2.2 p.state2.st i2 0 hpos
        simp only [ZddIntersection.sync, e, g, if_false] at h
        by_cases z : ((monitor s2).get_child p.state2 i2 0).1 = 0
        · simp only [z, if_true, Option.some.injEq, Prod.mk.injEq] at h
          obtain ⟨rfl, rfl⟩ := h
          exact ⟨⟨hc.1, k1⟩, by decide, fun h0 => absurd rfl h0⟩
        · simp only [z, if_false] at h
          exact ih _ _ { p with state2 := ((monitor s2).get_child p.state2 i2 0).2 } r q
            z1 z l1 hm t1 k2 ⟨hc.1, k1⟩ h

theorem isect_reach_inv (s1 : DdSpec σ₁) (s2 : DdSpec σ₂) (m1 : TrueIsMinusOne s1)
    (m2 : TrueIsMinusOne s2) (F : Nat) (c : Int) (p : IsectState (Mon σ₁) (Mon σ₂))
    (h : IsectReach s1 s2 F c p) : IsectInv c p := by
  unfold IsectReach at h
  induction h with
  | root p0 r q hc hr =>
    obtain ⟨b1, l1⟩ := monitor_root_ok s1 p0.state1
    obtain ⟨b2, l2⟩ := monitor_root_ok s2 p0.state2
    have hm1 : -1 ≤ ((monitor s1).get_root p0.state1).1 := m1.1 p0.state1.st
    have hm2 : -1 ≤ ((monitor s2).get_root p0.state2).1 := m2.1 p0.state2.st
    simp only [ZddIntersection.getRoot] at hr
    by_cases z1 : ((monitor s1).get_root p0.state1).1 = 0
    · simp only [z1, if_true, Option.some.injEq, Prod.mk.injEq] at hr
      obtain ⟨rfl, rfl⟩ := hr
      exact ⟨⟨b1.trans hc.1, hc.2⟩, by decide, fun h0 => absurd rfl h0⟩
    · by_cases z2 : ((monitor s2).get_root p0.state2).1 = 0
      · simp only [z1, z2, if_true, if_false, Option.some.injEq, Prod.mk.injEq] at hr
        obtain ⟨rfl, rfl⟩ := hr
        exact ⟨⟨b1.trans hc.1, b2.trans hc.2⟩, by decide, fun h0 => absurd rfl h0⟩
      · simp only [z1, z2, if_false] at hr
        exact sync_monitor_inv s1 s2 m1 m2 F _ _
          { state1 := ((monitor s1).get_root p0.state1).2,
            state2 := ((monitor s2).get_root p0.state2).2 } r q z1 z2 hm1 hm2 l1 l2
          ⟨b1.trans hc.1, b2.trans hc.2⟩ hr
  | child c p take r q _ hpos hch ih =>
    obtain ⟨hc, _, hl⟩ := ih
    obtain ⟨t1, t2⟩ := hl (by omega)
    obtain ⟨k1, k2⟩ := monitor_child_ok s1 p.state1 c take hc.1 hpos t1.symm
    obtain ⟨j1, j2⟩ := monitor_child_ok s2 p.state2 c take hc.2 hpos t2.symm
    have hm1 : -1 ≤ ((monitor s1).get_child p.state1 c take).1 :=
      m1.2 p.state1.st c take hpos
    have hm2 : -1 ≤ ((monitor s2).get_child p.state2 c take).1 :=
      m2.2 p.state2.st c take hpos
    simp only [ZddIntersection.getChild] at hch
    by_cases z1 : ((monitor s1).get_child p.state1 c take).1 = 0
    · simp only [z1, if_true, Option.some.injEq, Prod.mk.injEq] at hch
      obtain ⟨rfl, rfl⟩ := hch
      exact ⟨⟨k1, hc.2⟩, by decide, fun h0 => absurd rfl h0⟩
    · by_cases z2 : ((monitor s2).get_child p.state2 c take).1 = 0
      · simp only [z1, z2, if_true, if_false, Option.some.injEq, Prod.mk.injEq] at hch
        obtain ⟨rfl, rfl⟩ := hch
        exact ⟨⟨k1, j1⟩, by decide, fun h0 => absurd rfl h0⟩
      · simp only [z1, z2, if_false] at hch
        exact sync_monitor_inv s1 s2 m1 m2 F _ _
          { state1 := ((monitor s1).get_child p.state1 c take).2,
            state2 := ((monitor s2).get_child p.state2 c take).2 } r q z1 z2 hm1 hm2 k2 j2
          ⟨k1, j1⟩ hch
  | copy c p b _ ih => exact ih

/-- The intersection over monitored operands computes what it computes over
the operands themselves. -/
theorem monitor_simulates_isect (s1 : DdSpec σ₁) (s2 : DdSpec σ₂) :
    (∀ F i1 i2 p, (ZddIntersection.sync (monitor s1) (monitor s2) F i1 i2 p).map
          (fun x => (x.1, eraseMonI x.2))
        = ZddIntersection.sync s1 s2 F i1 i2 (eraseMonI p)) ∧
    (∀ F p, (ZddIntersection.getRoot (monitor s1) (monitor s2) F p).map
          (fun x => (x.1, eraseMonI x.2))
        = ZddIntersection.getRoot s1 s2 F (eraseMonI p)) ∧
    (∀ F p level take, (ZddIntersection.getChild (monitor s1) (monitor s2) F p level take).map
          (fun x => (x.1, eraseMonI x.2))
        = ZddIntersection.getChild s1 s2 F (eraseMonI p) level take) ∧
    (∀ b p, eraseMonI (ZddIntersection.get_copy (monitor s1) (monitor s2) b p)
        = ZddIntersection.get_copy s1 s2 (eraseMonI b) (eraseMonI p)) := by
  have loop : ∀ F i1 i2 p, (ZddIntersection.sync (monitor s1) (monitor s2) F i1 i2 p).map
        (fun x => (x.1, eraseMonI x.2))
      = ZddIntersection.sync s1 s2 F i1 i2 (eraseMonI p) := by
    intro F
    induction F with
    | zero =>
      intro i1 i2 p
      simp only [ZddIntersection.sync]
      split_ifs <;> rfl
    | succ n ih =>
      intro i1 i2 p
      obtain ⟨⟨a, la, ba⟩, ⟨b, lb, bb⟩⟩ := p
      simp only [ZddIntersection.sync, monitor, eraseMonI]
      split_ifs
      · rfl
      · rfl
      · exact ih _ _ _
      · rfl
      · exact ih _ _ _
  refine ⟨loop, ?_, ?_, fun b p => rfl⟩
  · intro F p
    obtain ⟨⟨a, la, ba⟩, ⟨b, lb, bb⟩⟩ := p
    simp only [ZddIntersection.getRoot, monitor, eraseMonI]
    split_ifs
    · rfl
    · rfl
    · exact loop _ _ _ _
  · intro F p level take
    obtain ⟨⟨a, la, ba⟩, ⟨b, lb, bb⟩⟩ := p
    simp only [ZddIntersection.getChild, monitor, eraseMonI]
    split_ifs
    · rfl
    · rfl
    · exact loop _ _ _ _

/-! ## Header levels and the operand contract along a traversal -/

/-- C17 (as stated) fails in two ways.  In `ZddUnion` a driver that walks
the scenario along branches 1, 1 holds, for the returned decision level 1, a
state whose header 1 is the 0 stored for the waiting operand 1, while
operand 1 last reported 1 for its sub-state.  In `BddAnd` the state left by
the last call of the scenario (branches 1, 1, 0, returning 0) still has
header 1 equal to 1, while operand 1 last reported 0. -/
theorem header_not_last_code :
    (∃ q, UnionReach scenario1 scenario2 1 q ∧ q.level1 = 0 ∧ q.state1.last = 1) ∧
    (∃ q, AndReach scenario1 scenario2 0 q ∧ q.level1 = 1 ∧ q.state1.last = 0) := by
  constructor
  · refine ⟨⟨0, 1, ⟨[(3, 1)], 1, false⟩, ⟨[(3, 1), (2, 1)], 1, false⟩⟩, ?_, rfl, rfl⟩
    have r0 : UnionReach scenario1 scenario2 3 ⟨3, 3, ⟨[], 3, false⟩, ⟨[], 3, false⟩⟩ :=
      Reach.root blankMon _ _ ⟨rfl, rfl⟩ rfl
    have r1 : UnionReach scenario1 scenario2 2
        ⟨1, 2, ⟨[(3, 1)], 1, false⟩, ⟨[(3, 1)], 2, false⟩⟩ :=
      Reach.child 3 _ 1 _ _ r0 (by decide) rfl
    exact Reach.child 2 _ 1 _ _ r1 (by decide) rfl
  · refine ⟨⟨1, 1, ⟨[(3, 1), (1, 0)], 0, false⟩, ⟨[(3, 1), (2, 1)], 1, false⟩⟩, ?_, rfl, rfl⟩
    have r0 : AndReach scenario1 scenario2 3 ⟨3, 3, ⟨[], 3, false⟩, ⟨[], 3, false⟩⟩ :=
      Reach.root blankMon _ _ ⟨rfl, rfl⟩ rfl
    have r1 : AndReach scenario1 scenario2 2
        ⟨1, 2, ⟨[(3, 1)], 1, false⟩, ⟨[(3, 1)], 2, false⟩⟩ :=
      Reach.child 3 _ 1 _ _ r0 (by decide) rfl
    have r2 : AndReach scenario1 scenario2 1
        ⟨1, 1, ⟨[(3, 1)], 1, false⟩, ⟨[(3, 1), (2, 1)], 1, false⟩⟩ :=
      Reach.child 2 _ 1 _ _ r1 (by decide) rfl
    exact Reach.child 1 _ 0 _ _ r2 (by decide) rfl

/-- C17 (amended).  Operands are monitored: each sub-state carries the code
its operand last reported for it (`monitor_simulates` shows that this does
not change what the combinators compute).  For every state that a driver
reaches from `getRoot` by `getChild` calls, each made at the decision level
the composite last returned for the state, and by `get_copy` calls, and for
which the composite last returned a decision level: in `BddAnd` and `BddOr`
each of the two header level fields equals the code the corresponding
operand last reported for the sub-state held in the state; in `ZddUnion`
each header field equals that code or is 0. -/
theorem header_is_last_code (s1 : DdSpec σ₁) (s2 : DdSpec σ₂) :
    (∀ c p, AndReach s1 s2 c p → 0 < c →
      p.level1 = p.state1.last ∧ p.level2 = p.state2.last) ∧
    (∀ c p, OrReach s1 s2 c p → 0 < c →
      p.level1 = p.state1.last ∧ p.level2 = p.state2.last) ∧
    (∀ c p, UnionReach s1 s2 c p → 0 < c →
      (p.level1 = p.state1.last ∨ p.level1 = 0) ∧
        (p.level2 = p.state2.last ∨ p.level2 = 0)) := by
  refine ⟨fun c p h hc => ?_, fun c p h hc => ?_, fun c p h hc => ?_⟩
  · obtain ⟨e1, e2, _⟩ := (and_reach_inv s1 s2 c p h).2 hc
    exact ⟨e1, e2⟩
  · obtain ⟨e1, e2, _⟩ := (or_reach_inv s1 s2 c p h).2 hc
    exact ⟨e1, e2⟩
  · obtain ⟨e1, e2, _⟩ := (union_reach_inv s1 s2 c p h).2 hc
    exact ⟨e1, e2⟩

/-- Witness for C17 (amended): the state of `BddAnd` after the first step
of the scenario, reached for the decision level 2. -/
theorem header_is_last_code_witness :
    AndReach scenario1 scenario2 2 ⟨1, 2, ⟨[(3, 1)], 1, false⟩, ⟨[(3, 1)], 2, false⟩⟩ ∧
      (1 : Int) = (⟨[(3, 1)], 1, false⟩ : Mon (List (Int × Int))).last ∧
      (2 : Int) = (⟨[(3, 1)], 2, false⟩ : Mon (List (Int × Int))).last :=
  by
  have r0 : AndReach scenario1 scenario2 3 ⟨3, 3, ⟨[], 3, false⟩, ⟨[], 3, false⟩⟩ :=
    Reach.root blankMon _ _ ⟨rfl, rfl⟩ rfl
  have r1 : AndReach scenario1 scenario2 2
      ⟨1, 2, ⟨[(3, 1)], 1, false⟩, ⟨[(3, 1)], 2, false⟩⟩ :=
    Reach.child 3 _ 1 _ _ r0 (by decide) rfl
  exact ⟨r1, (header_is_last_code scenario1 scenario2).1 2 _ r1 (by decide)⟩

/-- C20 (as stated) fails for `ZddIntersection` when the operands report
the true terminal by different negative codes: with roots -1 and -2,
`getRoot` calls `get_child` of operand 1 at the level -1, which is not a
decision level, and the monitor records the violation in the state the
driver gets back. -/
theorem intersection_calls_terminal :
    Descends minusOneFlat ∧ Descends minusTwoFlat ∧
    ZddIntersection.getRoot (monitor minusOneFlat) (monitor minusTwoFlat) 1 blankMonI
      = some (0, ⟨⟨(), 0, true⟩, ⟨(), -2, false⟩⟩) ∧
    ∃ q, IsectReach minusOneFlat minusTwoFlat 1 0 q ∧ q.state1.bad = true := by
  refine ⟨?_, ?_, rfl, ⟨⟨(), 0, true⟩, ⟨(), -2, false⟩⟩, ?_, rfl⟩
  · intro s l b hl; simpa [minusOneFlat, codeSpec] using hl
  · intro s l b hl; simpa [minusTwoFlat, codeSpec] using hl
  · exact Reach.root blankMonI _ _ ⟨rfl, rfl⟩ rfl

/-- C20 (amended).  Operands are monitored: each sub-state carries the code
its operand last reported for it and a flag that is raised by a `get_child`
call whose level is not positive or not that code (`monitor_simulates` and
`monitor_simulates_isect` show that this does not change what the
combinators compute).  If the driver calls `getChild` only on states
obtained from `getRoot`, `getChild` and `get_copy`, and only at the
positive code the composite last returned for the state, then no state it
obtains has the flag raised, so every `get_child` call made on an operand
passed a positive level equal to the code the operand last reported for
its sub-state: for `BddAnd`, `BddOr` and `ZddUnion` with any operands, and
for `ZddIntersection` when the operands report the true terminal as -1 (no
code at a root or at a decision level is below -1); `ZddIntersection` then
finds both operands positioned exactly at the requested level. -/
theorem operand_contract_honoured (s1 : DdSpec σ₁) (s2 : DdSpec σ₂) :
    (∀ c p, AndReach s1 s2 c p → p.state1.bad = false ∧ p.state2.bad = false) ∧
    (∀ c p, OrReach s1 s2 c p → p.state1.bad = false ∧ p.state2.bad = false) ∧
    (∀ c p, UnionReach s1 s2 c p → p.state1.bad = false ∧ p.state2.bad = false) ∧
    (TrueIsMinusOne s1 → TrueIsMinusOne s2 → ∀ F c p, IsectReach s1 s2 F c p →
      p.state1.bad = false ∧ p.state2.bad = false ∧
        (0 < c → p.state1.last = c ∧ p.state2.last = c)) := by
  refine ⟨fun c p h => (and_reach_inv s1 s2 c p h).1, fun c p h => (or_reach_inv s1 s2 c p h).1,
    fun c p h => (union_reach_inv s1 s2 c p h).1, fun m1 m2 F c p h => ?_⟩
  obtain ⟨hc, _, hl⟩ := isect_reach_inv s1 s2 m1 m2 F c p h
  exact ⟨hc.1, hc.2, fun h0 => hl (by omega)⟩

/-- Witness for C20 (amended): the intersection of the synchronisation
scenario, after `getRoot` and `getChild` at level 5, which advances operand
2 inside the loop at its own level 4. -/
theorem operand_contract_honoured_witness :
    IsectReach skipFour stepFour 2 3 ⟨⟨(), 3, false⟩, ⟨(), 3, false⟩⟩ ∧
      (⟨(), 3, false⟩ : Mon Unit).bad = false ∧ (⟨(), 3, false⟩ : Mon Unit).bad = false ∧
      ((0 : Int) < 3 → (⟨(), 3, false⟩ : Mon Unit).last = 3 ∧
        (⟨(), 3, false⟩ : Mon Unit).last = 3) :=
  by
  have r0 : IsectReach skipFour stepFour 2 5 ⟨⟨(), 5, false⟩, ⟨(), 5, false⟩⟩ :=
    Reach.root blankMonI _ _ ⟨rfl, rfl⟩ rfl
  have r1 : IsectReach skipFour stepFour 2 3 ⟨⟨(), 3, false⟩, ⟨(), 3, false⟩⟩ :=
    Reach.child 5 _ 1 _ _ r0 (by decide) rfl
  exact ⟨r1, (operand_contract_honoured skipFour stepFour).2.2.2
    ⟨fun _ => by simp [skipFour], fun s l b _ => by simp only [skipFour]; split_ifs <;> omega⟩
    ⟨fun _ => by simp [stepFour], fun s l b _ => by simp only [stepFour]; split_ifs <;> omega⟩
    2 3 _ r1⟩

end TdZdd
